import Mathlib

/-!
# OpenBCI sample module (`openBCISample.js`)

A shallow embedding of `openBCISample.js`: the packet decode / encode pipeline, the
impedance estimators and the sample simulator.

* JavaScript 32-bit integer operators (`<<`, `>>`, `|`, `&`) are modelled on `Int`
  with explicit reduction modulo `2^32`.
* JavaScript numbers are modelled by `JSNum`: finite values are exact rationals,
  `Infinity`, `-Infinity` and `NaN` are separate values. The arithmetic of doubles
  (`JSNum.fadd`, `JSNum.fsub`, `JSNum.fmul`, `JSNum.fdiv`, `JSNum.fsqrt`) rounds the
  exact result to the nearest double, ties to even, and overflows to an infinity; the
  encoder `floatTo3ByteBuffer` divides with it. The decoder is embedded with exact
  products and quotients (`JSNum.mul`, `JSNum.div`), an idealisation of its double
  arithmetic, and so is `floatTo2ByteBuffer`, whose bytes never reach the packet. The
  sign of zero is not modelled.
* A promise is modelled by its final state (`Promise`): pending forever, resolved
  with a value, or rejected with an error. The first call of `resolve` / `reject`
  decides the state, later calls have no effect (`Promise.settle`).
* The constants module `openBCIConstants` is not part of the sources. The framing
  byte values and the packet type codes are parameters (`Constants`); the packet
  layout (33 bytes, offsets) is taken from the specification and from the layout
  comment above `parsePacketStandard`.
* The impedance estimators and the simulator are embedded over a number type, with
  the functions of `Math` and the numeric constants of `openBCIConstants` as
  parameters (`MathFns`, `LeadOffConstants`). The Goertzel estimator uses only the
  arithmetic operators of the number type: over the doubles (`JSNum`) it computes with
  rounding, overflow and `NaN`, over an ordered field with exact arithmetic. The
  instantaneous impedance and the simulator are embedded over an ordered field. The
  analytic statements are over the reals, where division is the division of the
  field, so the statements that divide take the drive current to be non-zero. An
  object that the code updates in place is returned after the call.
-/

namespace OpenBCI

/-! ## JavaScript 32-bit integer operators -/

/-- ToUint32 of an integer: the residue modulo `2^32`. -/
def toUint32 (x : Int) : Nat := (x % 4294967296).toNat

/-- ToInt32 of an integer: the residue modulo `2^32`, read as two's complement. -/
def toInt32 (x : Int) : Int :=
  let m := x % 4294967296
  if 2147483648 ≤ m then m - 4294967296 else m

/-- JavaScript `a << n` for `n < 32`. -/
def shl32 (a : Int) (n : Nat) : Int := toInt32 (Int.ofNat (toUint32 a <<< n))

/-- JavaScript `a >> n` (sign-propagating) for `n < 32`. -/
def sar32 (a : Int) (n : Nat) : Int := toInt32 a / (2 : Int) ^ n

/-- JavaScript `a | b`. -/
def or32 (a b : Int) : Int := toInt32 (Int.ofNat (toUint32 a ||| toUint32 b))

/-- JavaScript `a & b`. -/
def and32 (a b : Int) : Int := toInt32 (Int.ofNat (toUint32 a &&& toUint32 b))

/-! ## Buffers -/

/-- A Node `Buffer`: a sequence of bytes. Reading past the end gives `undefined`
(`none`). -/
abbrev Buffer := List Nat

/-- The value `buf.slice(start, stop)`, for `0 ≤ start ≤ stop`. -/
def Buffer.slice (b : Buffer) (start stop : Nat) : Buffer :=
  (b.drop start).take (stop - start)

/-- The integer a buffer element contributes to a bitwise operator: `undefined`
converts to `0`. -/
def byteToInt (o : Option Nat) : Int :=
  match o with
  | some b => Int.ofNat b
  | none => 0

/-- The test `x > 127` on a buffer element: `undefined > 127` is false. -/
def gt127 (o : Option Nat) : Bool :=
  match o with
  | some b => decide (127 < b)
  | none => false

/-! ## Fixed-point decoding -/

/-- Source: `interpret16bitAsInt32`. -/
def interpret16bitAsInt32 (twoByteBuffer : Buffer) : Int :=
  let pfx : Int := if gt127 twoByteBuffer[0]? then 65535 else 0
  or32 (or32 (shl32 pfx 16) (shl32 (byteToInt twoByteBuffer[0]?) 8))
    (byteToInt twoByteBuffer[1]?)

/-- Source: `interpret24bitAsInt32`. -/
def interpret24bitAsInt32 (threeByteBuffer : Buffer) : Int :=
  let pfx : Int := if gt127 threeByteBuffer[0]? then 255 else 0
  or32 (or32 (or32 (shl32 pfx 24) (shl32 (byteToInt threeByteBuffer[0]?) 16))
    (shl32 (byteToInt threeByteBuffer[1]?) 8)) (byteToInt threeByteBuffer[2]?)

/-! ## JavaScript numbers -/

/-- A JavaScript number. Finite values are exact rationals; `inf false` is `Infinity`,
`inf true` is `-Infinity`. -/
inductive JSNum
  | fin (q : ℚ)
  | inf (negative : Bool)
  | nan
  deriving DecidableEq

namespace JSNum

/-- The exact quotient `x / y`, without rounding (a zero divisor is read as `+0`). -/
def div : JSNum → JSNum → JSNum
  | fin a, fin b =>
    if b = 0 then (if a = 0 then nan else inf (decide (a < 0))) else fin (a / b)
  | fin _, inf _ => fin 0
  | inf s, fin b => inf (xor s (decide (b < 0)))
  | inf _, inf _ => nan
  | nan, _ => nan
  | _, nan => nan

/-- The exact product `x * y`, without rounding. -/
def mul : JSNum → JSNum → JSNum
  | fin a, fin b => fin (a * b)
  | fin a, inf s => if a = 0 then nan else inf (xor s (decide (a < 0)))
  | inf s, fin b => if b = 0 then nan else inf (xor s (decide (b < 0)))
  | inf s, inf t => inf (xor s t)
  | nan, _ => nan
  | _, nan => nan

/-- JavaScript `Math.floor`. -/
def floor : JSNum → JSNum
  | fin a => fin (⌊a⌋ : Int)
  | x => x

/-- The integer a number is converted to by a bitwise operator, before reduction
modulo `2^32`: truncation toward zero, and `0` for `NaN` and the infinities. -/
def toInteger : JSNum → Int
  | fin a => if 0 ≤ a then ⌊a⌋ else ⌈a⌉
  | _ => 0

/-! ### IEEE-754 double arithmetic

The operators of JavaScript on doubles: the exact result, rounded to the nearest
double (`roundDouble`), with overflow to an infinity. The notation `+`, `-`, `*`, `/`
on `JSNum` is this arithmetic. The sign of zero is not modelled. -/

/-- The rational `2^e` for an integer exponent `e`. -/
def pow2 (e : Int) : ℚ := if 0 ≤ e then (2 : ℚ) ^ e.toNat else 1 / (2 : ℚ) ^ (-e).toNat

/-- The binary logarithm of a natural number, by halving at most `fuel` times. -/
def log2Fuel : Nat → Nat → Nat
  | 0, _ => 0
  | fuel + 1, n => if 2 ≤ n then log2Fuel fuel (n / 2) + 1 else 0

/-- The binary logarithm `⌊log₂ n⌋` of a positive natural number. -/
def natLog2 (n : Nat) : Nat := log2Fuel n n

/-- The binary exponent `⌊log₂ |x|⌋` of a non-zero rational `x`. -/
def ilog2 (x : ℚ) : Int :=
  let l : Int := (natLog2 x.num.natAbs : Int) - (natLog2 x.den : Int)
  if pow2 l ≤ |x| then l else l - 1

/-- Rounding to the nearest integer, a tie to the even one. -/
def roundHalfEven (y : ℚ) : Int :=
  let f := ⌊y⌋
  let r := y - f
  if r < 1 / 2 then f else if 1 / 2 < r then f + 1 else if f % 2 = 0 then f else f + 1

/-- The double that the real number `x` rounds to (binary64, round to nearest, ties to
even): the nearest multiple of `2^(e-52)` for the binary exponent `e` of `x`, taken not
below the exponent `-1022` of the subnormal numbers, and an infinity when that
multiple reaches `2^1024`. -/
def roundDouble (x : ℚ) : JSNum :=
  if x = 0 then fin 0
  else
    let e := max (ilog2 x) (-1022)
    let u := pow2 (e - 52)
    let r := (roundHalfEven (|x| / u) : ℚ) * u
    if pow2 1024 ≤ r then inf (decide (x < 0)) else fin (if x < 0 then -r else r)

/-- JavaScript `x / y` on doubles (a zero divisor is read as `+0`). -/
def fdiv : JSNum → JSNum → JSNum
  | fin a, fin b =>
    if b = 0 then (if a = 0 then nan else inf (decide (a < 0))) else roundDouble (a / b)
  | fin _, inf _ => fin 0
  | inf s, fin b => inf (xor s (decide (b < 0)))
  | inf _, inf _ => nan
  | nan, _ => nan
  | _, nan => nan

/-- JavaScript `x * y` on doubles. -/
def fmul : JSNum → JSNum → JSNum
  | fin a, fin b => roundDouble (a * b)
  | fin a, inf s => if a = 0 then nan else inf (xor s (decide (a < 0)))
  | inf s, fin b => if b = 0 then nan else inf (xor s (decide (b < 0)))
  | inf s, inf t => inf (xor s t)
  | nan, _ => nan
  | _, nan => nan

/-- JavaScript `x + y` on doubles. -/
def fadd : JSNum → JSNum → JSNum
  | fin a, fin b => roundDouble (a + b)
  | fin _, inf s => inf s
  | inf s, fin _ => inf s
  | inf s, inf t => if s = t then inf s else nan
  | nan, _ => nan
  | _, nan => nan

/-- JavaScript `-x`. -/
def neg : JSNum → JSNum
  | fin a => fin (-a)
  | inf s => inf (!s)
  | nan => nan

/-- JavaScript `x - y` on doubles. -/
def fsub (x y : JSNum) : JSNum := fadd x (neg y)

/-- The integer square root of `n` for `n < 4^fuel`, one binary digit per unit of
fuel. -/
def sqrtFuel : Nat → Nat → Nat
  | 0, _ => 0
  | fuel + 1, n =>
    let r := 2 * sqrtFuel fuel (n / 4)
    if (r + 1) * (r + 1) ≤ n then r + 1 else r

/-- The integer square root `⌊√n⌋`. -/
def natSqrt (n : Nat) : Nat := sqrtFuel (natLog2 n / 2 + 1) n

/-- The double that the square root of the positive rational `x` rounds to: with `u`
the unit in the last place of the root, the root lies between `m * u` and
`(m + 1) * u` for `m = ⌊√(x / u^2)⌋`, and is compared with the midpoint. -/
def roundSqrt (x : ℚ) : JSNum :=
  let e := max (ilog2 x / 2) (-1022)
  let u := pow2 (e - 52)
  let t := x / (u * u)
  let m : ℚ := (natSqrt ⌊t⌋.toNat : ℚ)
  let h := (m + 1 / 2) * (m + 1 / 2)
  let r := if t < h then m else if h < t then m + 1
    else if natSqrt ⌊t⌋.toNat % 2 = 0 then m else m + 1
  fin (r * u)

/-- JavaScript `Math.sqrt` on doubles. -/
def fsqrt : JSNum → JSNum
  | fin a => if a < 0 then nan else if a = 0 then fin 0 else roundSqrt a
  | inf s => if s then nan else inf false
  | nan => nan

end JSNum

instance : Add JSNum := ⟨JSNum.fadd⟩

instance : Sub JSNum := ⟨JSNum.fsub⟩

instance : Mul JSNum := ⟨JSNum.fmul⟩

instance : Div JSNum := ⟨JSNum.fdiv⟩

instance : Zero JSNum := ⟨.fin 0⟩

instance : OfNat JSNum 2 := ⟨.fin 2⟩

instance : NatCast JSNum := ⟨fun n => JSNum.roundDouble n⟩

instance : OfScientific JSNum := ⟨fun m s e => JSNum.roundDouble (Rat.ofScientific m s e)⟩

/-! ## Constants -/

/-- The constants of `openBCIConstants` (not part of the sources) that the packet code
reads and whose values the packet layout does not fix: the two framing bytes and the
codes of the two special packet types. -/
structure Constants where
  OBCIByteStart : Nat
  OBCIByteStop : Nat
  OBCIPacketTypeUserDefined : Nat
  OBCIPacketTypeTimeSynced : Nat

/-- Modelled from the spec: `k.OBCIPacketSize`, the fixed packet length, 33 bytes. -/
def OBCIPacketSize : Nat := 33

/-- Modelled from the spec: `k.OBCIPacketPositionSampleNumber`, byte 1 holds the sample
index. -/
def OBCIPacketPositionSampleNumber : Nat := 1

/-- Modelled from the spec: `k.OBCIPacketPositionChannelDataStart`, bytes 2..25 hold the
channel samples. -/
def OBCIPacketPositionChannelDataStart : Nat := 2

/-- Modelled from the spec: `k.OBCIPacketPositionChannelDataStop`, bytes 2..25 hold the
channel samples. -/
def OBCIPacketPositionChannelDataStop : Nat := 25

/-- Modelled from the spec: `k.OBCIPacketPositionStartAux`, bytes 26..31 hold the aux
samples. -/
def OBCIPacketPositionStartAux : Nat := 26

/-- Modelled from the spec: `k.OBCIPacketPositionStopAux`, bytes 26..31 hold the aux
samples. -/
def OBCIPacketPositionStopAux : Nat := 31

/-- Modelled from the spec: `k.OBCIPacketPositionStopByte`, byte 32 is the stop byte. -/
def OBCIPacketPositionStopByte : Nat := 32

/-- Modelled from the spec: `k.OBCINumberOfChannelsDefault`, the default channel count,
8. -/
def OBCINumberOfChannelsDefault : Nat := 8

/-- Source: `ADS1299_VREF`. -/
def ADS1299_VREF : JSNum := .fin 4.5

/-- Source: `SCALE_FACTOR_ACCEL = 0.002 / Math.pow(2,4)`. -/
def SCALE_FACTOR_ACCEL : JSNum := JSNum.div (.fin 0.002) (.fin (2 ^ 4))

/-- Source: `ACCEL_NUMBER_AXIS`. -/
def ACCEL_NUMBER_AXIS : Nat := 3

/-! ## Values, settings, samples, promises -/

/-- A JavaScript value read from the `gain` property: a number, or a value of another
type together with the number it converts to in arithmetic. -/
inductive JSVal
  | num (x : JSNum)
  | other (asNumber : JSNum)
  deriving DecidableEq

/-- A channel settings object; `gain = none` when the object has no property `gain`. -/
structure ChannelSettings where
  gain : Option JSVal
  deriving DecidableEq

/-- The number the expression `channelSettingsObject.gain` contributes to a division:
`undefined` converts to `NaN`. -/
def ChannelSettings.gainNumber (o : ChannelSettings) : JSNum :=
  match o.gain with
  | some (.num x) => x
  | some (.other x) => x
  | none => .nan

/-- Modelled from the spec: `k.isNumber`, true exactly for values of type number. -/
def isNumber (v : Option JSVal) : Bool :=
  match v with
  | some (.num _) => true
  | _ => false

/-- Modelled from the spec: `k.channelSettingsArrayInit(n)`, the default settings of `n`
channels, each with gain 24. -/
def channelSettingsArrayInit (n : Nat) : List ChannelSettings :=
  List.replicate n { gain := some (.num (.fin 24)) }

/-- The `channelSettingsArray` argument of `parseRawPacket`. -/
inductive SettingsArg
  | absent
  | notArray
  | array (l : List ChannelSettings)

/-- A sample object. A field read from a buffer position that does not exist is
`undefined` (`none`). -/
structure Sample where
  startByte : Option Nat
  sampleNumber : Option Nat
  channelData : List JSNum
  auxData : List JSNum
  stopByte : Option Nat
  deriving DecidableEq

/-- The values the promises of this module are rejected with. -/
inductive Err
  | dataBufUndefined
  | invalidStartByte (b : Nat)
  | typeError
  | bufferSize
  | settingsNotArray
  | invalidSettingsObject (index : Nat)
  | gainNotNumber
  | sampleObjectNull
  | channelDataNull
  | channelNumberInvalid
  deriving DecidableEq

/-- The final state of a promise. -/
inductive Promise (α : Type)
  | pending
  | resolved (v : α)
  | rejected (e : Err)
  deriving DecidableEq

/-- A call of `resolve` or `reject` (the state `t`) on a promise in state `s`: it has
an effect only while the promise is pending. -/
def Promise.settle {α : Type} (s t : Promise α) : Promise α :=
  match s with
  | .pending => t
  | _ => s

/-! ## Decoding -/

/-- Source: `getRawPacketType`, `stopByte & 0xF`. -/
def getRawPacketType (stopByte : Option Nat) : Int := and32 (byteToInt stopByte) 0xF

/-- Source: `getAccelDataArray`. -/
def getAccelDataArray (dataBuf : Buffer) : Promise (List JSNum) :=
  .resolved ((List.range ACCEL_NUMBER_AXIS).map fun i =>
    let index := i * 2
    JSNum.mul (.fin (interpret16bitAsInt32 (dataBuf.slice index (index + 2))))
      SCALE_FACTOR_ACCEL)

/-- The value pushed for one channel by the loop body of `getChannelDataArray`. -/
def channelValue (dataBuf : Buffer) (index : Nat) (o : ChannelSettings) : JSNum :=
  let scaleFactor := JSNum.div (JSNum.div ADS1299_VREF o.gainNumber) (.fin (2 ^ 23 - 1))
  let index := index * 3
  JSNum.mul scaleFactor (.fin (interpret24bitAsInt32 (dataBuf.slice index (index + 3))))

/-- One pass through the `forEach` body of `getChannelDataArray`, on the state of the
promise and the array `channelData`. -/
def channelStep (dataBuf : Buffer) (st : Promise (List JSNum) × List JSNum) (index : Nat)
    (o : ChannelSettings) : Promise (List JSNum) × List JSNum :=
  let p1 := if o.gain.isNone then st.1.settle (.rejected (.invalidSettingsObject index))
    else st.1
  let p2 := if !isNumber o.gain then p1.settle (.rejected .gainNotNumber) else p1
  (p2, st.2 ++ [channelValue dataBuf index o])

/-- The `forEach` of `getChannelDataArray`, from index `index` on. -/
def channelLoop (dataBuf : Buffer) :
    List ChannelSettings → Nat → Promise (List JSNum) × List JSNum →
      Promise (List JSNum) × List JSNum
  | [], _, st => st
  | o :: rest, index, st => channelLoop dataBuf rest (index + 1) (channelStep dataBuf st index o)

/-- Source: `getChannelDataArray`; `none` is a settings value that is not an array. -/
def getChannelDataArray (dataBuf : Buffer) (channelSettingsArray : Option (List ChannelSettings)) :
    Promise (List JSNum) :=
  match channelSettingsArray with
  | none => .rejected .settingsNotArray
  | some l =>
    let st := channelLoop dataBuf l 0 (.pending, [])
    st.1.settle (.resolved st.2)

/-- Source: `parsePacketStandard`. The `catch` handler only logs the error, so a
rejection of `getChannelDataArray` leaves the promise as it is. -/
def parsePacketStandard (dataBuf : Buffer) (channelSettingsArray : Option (List ChannelSettings)) :
    Promise Sample :=
  let p0 : Promise Sample :=
    if dataBuf.length ≠ OBCIPacketSize then .rejected .bufferSize else .pending
  match getAccelDataArray
      (dataBuf.slice OBCIPacketPositionStartAux (OBCIPacketPositionStopAux + 1)) with
  | .resolved accelData =>
    match getChannelDataArray
        (dataBuf.slice OBCIPacketPositionChannelDataStart (OBCIPacketPositionChannelDataStop + 1))
        channelSettingsArray with
    | .resolved channelData =>
      p0.settle (.resolved
        { auxData := accelData
          channelData := channelData
          sampleNumber := dataBuf[OBCIPacketPositionSampleNumber]?
          startByte := dataBuf[0]?
          stopByte := dataBuf[OBCIPacketPositionStopByte]? })
    | _ => p0
  | _ => p0

/-- Source: `parseRawPacket`. `dataBuf = none` is `undefined` or `null`; the promise
resolves with `none` when `resolve()` is called without a value. -/
def parseRawPacket (k : Constants) (dataBuf : Option Buffer) (channelSettingsArray : SettingsArg) :
    Promise (Option Sample) :=
  match dataBuf with
  | none => .rejected .dataBufUndefined
  | some buf =>
    let p1 : Promise (Option Sample) :=
      match buf[0]? with
      | none => .rejected .typeError
      | some b => if b ≠ k.OBCIByteStart then .rejected (.invalidStartByte b) else .pending
    let settings : Option (List ChannelSettings) :=
      match channelSettingsArray with
      | .absent => some (channelSettingsArrayInit OBCINumberOfChannelsDefault)
      | .notArray => none
      | .array l => some l
    let packetType := getRawPacketType buf[OBCIPacketPositionStopByte]?
    if packetType = k.OBCIPacketTypeUserDefined then p1.settle (.resolved none)
    else if packetType = k.OBCIPacketTypeTimeSynced then p1
    else
      match parsePacketStandard buf settings with
      | .resolved sampleObject => p1.settle (.resolved (some sampleObject))
      | .rejected err => p1.settle (.rejected err)
      | .pending => p1

/-! ## Encoding -/

/-- The byte stored by the assignment `buf[i] = x` of an integer `x`. -/
def storeByte (x : Int) : Nat := (x % 256).toNat

/-- The value `source.copy(target, targetStart)` leaves in `target`: nothing is copied
when `targetStart` is not inside the target. -/
def Buffer.copy (source target : Buffer) (targetStart : Nat) : Buffer :=
  if target.length ≤ targetStart then target
  else
    let n := min source.length (target.length - targetStart)
    target.take targetStart ++ source.take n ++ target.drop (targetStart + n)

/-- Source: `floatTo3ByteBuffer`. The quotient is the quotient of doubles. -/
def floatTo3ByteBuffer (float : JSNum) : Buffer :=
  let temp := JSNum.fdiv float
    (JSNum.fdiv (JSNum.fdiv ADS1299_VREF (.fin 24)) (.fin (2 ^ 23 - 1)))
  let temp := (JSNum.floor temp).toInteger
  let b2 := and32 temp 255
  let b1 := sar32 (and32 temp (shl32 255 8)) 8
  let b0 := sar32 (and32 temp (shl32 255 16)) 16
  [storeByte b0, storeByte b1, storeByte b2]

/-- Source: `floatTo2ByteBuffer`. -/
def floatTo2ByteBuffer (float : JSNum) : Buffer :=
  let temp := JSNum.div float SCALE_FACTOR_ACCEL
  let temp := (JSNum.floor temp).toInteger
  let b1 := and32 temp 255
  let b0 := sar32 (and32 temp (shl32 255 8)) 8
  [storeByte b0, storeByte b1]

/-- The element `arr[i]` of an array of numbers as an argument of arithmetic:
`undefined` converts to `NaN`. -/
def numberAt (arr : List JSNum) (i : Nat) : JSNum :=
  match arr[i]? with
  | some x => x
  | none => .nan

/-- Source: `convertSampleToPacket`. After the channel loop the variable `i` has the
value `k.OBCINumberOfChannelsDefault`, and the aux loop computes its target offset from
`i`. -/
def convertSampleToPacket (k : Constants) (sample : Sample) : Buffer :=
  let packetBuffer : Buffer := List.replicate OBCIPacketSize 0
  let packetBuffer := packetBuffer.set 0 (k.OBCIByteStart % 256)
  let packetBuffer := packetBuffer.set 1 (byteToInt sample.sampleNumber % 256).toNat
  let packetBuffer := (List.range OBCINumberOfChannelsDefault).foldl
    (fun (pb : Buffer) i =>
      Buffer.copy (floatTo3ByteBuffer (numberAt sample.channelData i)) pb (2 + i * 3))
    packetBuffer
  let i := OBCINumberOfChannelsDefault
  let packetBuffer := (List.range 3).foldl
    (fun (pb : Buffer) j =>
      Buffer.copy (floatTo2ByteBuffer (numberAt sample.auxData j)) pb
        ((OBCIPacketSize - 1 - 6) + i * 2))
    packetBuffer
  packetBuffer.set (OBCIPacketSize - 1) (k.OBCIByteStop % 256)

/-! ## Numbers of the impedance estimator and of the simulator

The impedance and simulator code is embedded over a number type `α`, with the
functions of `Math` as parameters. The Goertzel estimator uses the arithmetic
operators of `α` only: `α` is the type of doubles `JSNum` for the evaluation with
rounding and overflow, and an ordered field (the reals) for the analytic statements
in exact arithmetic. The instantaneous impedance and the simulator are embedded over
an ordered field `α` (exact arithmetic). -/

/-- The functions and constants of JavaScript's `Math` that the module uses, over the
number type `α`; `nan` is the number that `undefined` converts to in arithmetic. -/
structure MathFns (α : Type) where
  sqrt : α → α
  sin : α → α
  cos : α → α
  floor : α → α
  PI : α
  SQRT2 : α
  nan : α

/-- The numeric constants of `openBCIConstants` (not part of the sources) read by the
impedance code: parameters. -/
structure LeadOffConstants (α : Type) where
  OBCILeadOffFrequencyHz : α
  OBCISampleRate250 : α
  OBCILeadOffDriveInAmps : α

/-- A sample object whose numbers are in `α`. -/
structure SampleOf (α : Type) where
  startByte : Option Nat
  sampleNumber : Option Nat
  channelData : List α
  auxData : List α
  stopByte : Option Nat

/-- The number read by `arr[i]` in arithmetic: `undefined` converts to `NaN`. -/
def readNum {α : Type} (M : MathFns α) (arr : List α) (i : Nat) : α :=
  match arr[i]? with
  | some x => x
  | none => M.nan

/-- The array after the assignment `arr[i] = v`: an index past the end extends the
array, the holes read as `undefined`. -/
def writeNum {α : Type} (M : MathFns α) (arr : List α) (i : Nat) (v : α) : List α :=
  if i < arr.length then arr.set i v
  else arr ++ List.replicate (i - arr.length) M.nan ++ [v]

/-! ## Impedance estimation -/

/-- Source: `GOERTZEL_BLOCK_SIZE`. -/
def GOERTZEL_BLOCK_SIZE : Nat := 62

/-- Source: `GOERTZEL_K_250`. -/
def GOERTZEL_K_250 {α : Type} [Add α] [Mul α] [Div α] [NatCast α] [OfScientific α] (M : MathFns α)
    (c : LeadOffConstants α) : α :=
  M.floor (0.5 + (((GOERTZEL_BLOCK_SIZE : α) * c.OBCILeadOffFrequencyHz) / c.OBCISampleRate250))

/-- Source: `GOERTZEL_W_250`. -/
def GOERTZEL_W_250 {α : Type} [Add α] [Mul α] [Div α] [NatCast α] [OfScientific α]
    [OfNat α 2] (M : MathFns α)
    (c : LeadOffConstants α) : α :=
  ((2 * M.PI) / (GOERTZEL_BLOCK_SIZE : α)) * GOERTZEL_K_250 M c

/-- Source: `GOERTZEL_COEFF_250`. -/
def GOERTZEL_COEFF_250 {α : Type} [Add α] [Mul α] [Div α] [NatCast α] [OfScientific α]
    [OfNat α 2] (M : MathFns α)
    (c : LeadOffConstants α) : α :=
  2 * M.cos (GOERTZEL_W_250 M c)

/-- The object made by `goertzelNewObject` and updated by `goertzelProcessSample`. -/
structure GoertzelObj (α : Type) where
  q1 : List α
  q2 : List α
  index : Nat
  numberOfChannels : Nat

/-- Source: `goertzelNewObject`. -/
def goertzelNewObject {α : Type} [Zero α] (numberOfChannels : Nat) :
    GoertzelObj α :=
  { q1 := List.replicate numberOfChannels 0
    q2 := List.replicate numberOfChannels 0
    index := 0
    numberOfChannels := numberOfChannels }

/-- The body of the first loop of `goertzelProcessSample`, for channel `i`. -/
def goertzelUpdate {α : Type} [Add α] [Sub α] [Mul α] (M : MathFns α) (coeff : α)
    (channelData : List α) (o : GoertzelObj α) (i : Nat) : GoertzelObj α :=
  let q0 := coeff * readNum M o.q1 i - readNum M o.q2 i + readNum M channelData i
  let o := { o with q2 := writeNum M o.q2 i (readNum M o.q1 i) }
  { o with q1 := writeNum M o.q1 i q0 }

/-- The body of the second loop of `goertzelProcessSample`, for channel `j`: push the
impedance, reset the registers. -/
def goertzelEmit {α : Type} [Zero α] [Add α] [Sub α] [Mul α] [Div α] (M : MathFns α) (coeff amps : α)
    (acc : List α × GoertzelObj α) (j : Nat) : List α × GoertzelObj α :=
  let o := acc.2
  let voltage := M.sqrt ((readNum M o.q1 j * readNum M o.q1 j)
    + (readNum M o.q2 j * readNum M o.q2 j) - readNum M o.q1 j * readNum M o.q2 j * coeff)
  let impedance := voltage / amps
  let o := { o with q1 := writeNum M o.q1 j 0 }
  (acc.1 ++ [impedance], { o with q2 := writeNum M o.q2 j 0 })

/-- Source: `goertzelProcessSample`. The result is the returned value (`none` for
`undefined`) and the object after the call. -/
def goertzelProcessSample {α : Type} [Zero α] [Add α] [Sub α] [Mul α] [Div α]
    [NatCast α] [OfScientific α] [OfNat α 2] (M : MathFns α)
    (c : LeadOffConstants α) (sample : SampleOf α) (goertzelObj : GoertzelObj α) :
    Option (List α) × GoertzelObj α :=
  let o := (List.range goertzelObj.numberOfChannels).foldl
    (goertzelUpdate M (GOERTZEL_COEFF_250 M c) sample.channelData) goertzelObj
  let o := { o with index := o.index + 1 }
  if o.index > GOERTZEL_BLOCK_SIZE then
    let r := (List.range o.numberOfChannels).foldl
      (goertzelEmit M (GOERTZEL_COEFF_250 M c) c.OBCILeadOffDriveInAmps) ([], o)
    (some r.1, { r.2 with index := 0 })
  else
    (none, o)

/-- Successive calls of `goertzelProcessSample` on one object, one call per sample:
the returned values in order, and the object after the last call. -/
def goertzelFeed {α : Type} [Zero α] [Add α] [Sub α] [Mul α] [Div α] [NatCast α]
    [OfScientific α] [OfNat α 2] (M : MathFns α)
    (c : LeadOffConstants α) :
    GoertzelObj α → List (SampleOf α) → List (Option (List α)) × GoertzelObj α
  | o, [] => ([], o)
  | o, sample :: rest =>
    let r := goertzelProcessSample M c sample o
    let rr := goertzelFeed M c r.2 rest
    (r.1 :: rr.1, rr.2)

/-- The `sampleObject` argument of `impedanceCalculationForChannel`: `null` or
`undefined`, an object whose `channelData` is `null` or `undefined`, or a sample. -/
inductive SampleArg (α : Type)
  | null
  | noChannelData
  | object (s : SampleOf α)

/-- The value `arr[index]` for an integer index; `undefined` (`none`) outside the
array. -/
def readAt {α : Type} (arr : List α) (index : Int) : Option α :=
  if 0 ≤ index then arr[index.toNat]? else none

/-- Source: `impedanceCalculationForChannel`. The result is the promise and the
argument object after the call (the function negates a negative channel value in
place). -/
def impedanceCalculationForChannel {α : Type} [LinearOrderedField α] (M : MathFns α)
    (c : LeadOffConstants α) (sampleObject : SampleArg α) (channelNumber : Int) :
    Promise α × SampleArg α :=
  let sqrt2 := M.sqrt 2
  match sampleObject with
  | .null => (.rejected .sampleObjectNull, .null)
  | .noChannelData => (.rejected .channelDataNull, .noChannelData)
  | .object s =>
    let p : Promise α :=
      if channelNumber < 1 ∨ channelNumber > OBCINumberOfChannelsDefault then
        .rejected .channelNumberInvalid
      else .pending
    let index := channelNumber - 1
    let channelData :=
      match readAt s.channelData index with
      | some x => if x < 0 then s.channelData.set index.toNat (x * -1) else s.channelData
      | none => s.channelData
    let impedance :=
      (sqrt2 * (match readAt channelData index with
        | some x => x
        | none => M.nan)) / c.OBCILeadOffDriveInAmps
    (p.settle (.resolved impedance), .object { s with channelData := channelData })

/-! ## Simulator -/

/-- Source: `newSample`. -/
def newSample {α : Type} (k : Constants) : SampleOf α :=
  { startByte := some k.OBCIByteStart
    sampleNumber := some 0
    channelData := []
    auxData := []
    stopByte := some k.OBCIByteStop }

/-- The `lineNoise` argument of `randomSample`: equal to
`k.OBCISimulatorLineNoiseHz60`, to `k.OBCISimulatorLineNoiseHz50`, or to neither. -/
inductive LineNoise
  | hz60
  | hz50
  | none
  deriving DecidableEq

/-- The variables captured by the function that `randomSample` returns. -/
structure RandomSampleState (α : Type) where
  sinePhaseRad : List α
  b0 : List α
  b1 : List α
  b2 : List α

/-- The captured variables as `randomSample` initialises them. -/
def randomSampleInit {α : Type} [LinearOrderedField α] (numberOfChannels : Nat) :
    RandomSampleState α :=
  { sinePhaseRad := List.replicate (numberOfChannels + 1) 0
    b0 := List.replicate numberOfChannels 0
    b1 := List.replicate numberOfChannels 0
    b2 := List.replicate numberOfChannels 0 }

/-- The phase update and the injected sinusoid of one `switch` branch of the
generator: the new phase array and the value added to `whiteNoise`. -/
def injectSine {α : Type} [LinearOrderedField α] (M : MathFns α) (sampleRateHz : α)
    (freqHz amplitude : α) (sinePhaseRad : List α) (i : Nat) : List α × α :=
  let uVolts : α := 1000000
  let phase := readNum M sinePhaseRad i + 2 * M.PI * freqHz / sampleRateHz
  let phase := if phase > 2 * M.PI then phase - 2 * M.PI else phase
  (writeNum M sinePhaseRad i phase, (amplitude * M.SQRT2 * M.sin phase) / uVolts)

/-- The loop body of the function returned by `randomSample`, for channel `i`;
`draw i` is the value of `distribution.ppf(Math.random())` in that pass. -/
def randomSampleChannel {α : Type} [LinearOrderedField α] (M : MathFns α)
    (sampleRateHz : α) (injectAlpha : Bool) (lineNoise : LineNoise) (draw : Nat → α)
    (acc : RandomSampleState α × List α) (i : Nat) : RandomSampleState α × List α :=
  let st := acc.1
  let uVolts : α := 1000000
  let whiteNoise := draw i * M.sqrt (sampleRateHz / 2) / uVolts
  let r : List α × α :=
    if i = 0 ∨ i = 1 then
      if injectAlpha then injectSine M sampleRateHz 10 5 st.sinePhaseRad i
      else (st.sinePhaseRad, 0)
    else
      match lineNoise with
      | .hz60 => injectSine M sampleRateHz 60 8 st.sinePhaseRad i
      | .hz50 => injectSine M sampleRateHz 50 8 st.sinePhaseRad i
      | .none => (st.sinePhaseRad, 0)
  let whiteNoise := whiteNoise + r.2
  let b0 := writeNum M st.b0 i (0.99765 * readNum M st.b0 i + whiteNoise * 0.0990460)
  let b1 := writeNum M st.b1 i (0.96300 * readNum M st.b1 i + whiteNoise * 0.2965164)
  let b2 := writeNum M st.b2 i (0.57000 * readNum M st.b2 i + whiteNoise * 1.0526913)
  ({ sinePhaseRad := r.1, b0 := b0, b1 := b1, b2 := b2 },
    writeNum M acc.2 i (readNum M b0 i + readNum M b1 i + readNum M b2 i + whiteNoise * 0.1848))

/-- Source: the function returned by `randomSample(numberOfChannels, sampleRateHz,
injectAlpha, lineNoise)`, called with `previousSampleNumber` when the variables it
captured are `st`: the returned sample and the captured variables after the call. -/
def randomSample {α : Type} [LinearOrderedField α] (M : MathFns α) (k : Constants)
    (numberOfChannels : Nat) (sampleRateHz : α) (injectAlpha : Bool) (lineNoise : LineNoise)
    (st : RandomSampleState α) (draw : Nat → α) (previousSampleNumber : Nat) :
    SampleOf α × RandomSampleState α :=
  let sample : SampleOf α := newSample k
  let r := (List.range numberOfChannels).foldl
    (randomSampleChannel M sampleRateHz injectAlpha lineNoise draw) (st, sample.channelData)
  let sampleNumber := if previousSampleNumber = 255 then 0 else previousSampleNumber + 1
  ({ sample with channelData := r.2, sampleNumber := some sampleNumber, auxData := [0, 0, 0] },
    r.1)

/-! ## Auxiliary definitions for the statements -/

/-- The promise has been rejected. -/
def Promise.IsRejected {α : Type} (p : Promise α) : Prop := ∃ e, p = .rejected e

/-- A settings object whose gain is the finite number `g`. -/
def gainObject (g : ℚ) : ChannelSettings := { gain := some (.num (.fin g)) }

/-- The voltage of one ADC code at gain 24, the real number `4.5 / 24 / (2^23 - 1)`. -/
def adcStep : ℚ := 4.5 / 24 / (2 ^ 23 - 1)

/-- The double `4.5 / 24 / (2^23 - 1)` computed by `floatTo3ByteBuffer`, its divisor. -/
def adcStepDouble : JSNum :=
  JSNum.fdiv (JSNum.fdiv ADS1299_VREF (.fin 24)) (.fin (2 ^ 23 - 1))

/-- The double `1.4528633895949589e-06`, that is `6860953375211617 / 2^72`: a voltage
just below 65 ADC code steps. -/
def nearCode65 : ℚ := 6860953375211617 / 2 ^ 72

/-- A sample with the voltage `nearCode65` on channel 1 and 0 on the other channels. -/
def nearCodeSample : Sample :=
  { startByte := some 0xA0, sampleNumber := some 7,
    channelData := .fin nearCode65 :: List.replicate 7 (.fin 0),
    auxData := [.fin 0, .fin 0, .fin 0], stopByte := some 0xC0 }

/-- A valuation of `Math` over the doubles for the evaluation of the Goertzel
estimator: `Math.sqrt` is the square root of doubles and `Math.floor` the floor;
`Math.cos` is read by the estimator at the one argument `GOERTZEL_W_250`, and `cosW` is
its value there; `Math.sin` is not read by the estimator. -/
def estimatorMath (cosW : JSNum) : MathFns JSNum :=
  { sqrt := JSNum.fsqrt, sin := fun _ => .nan, cos := fun _ => cosW, floor := JSNum.floor,
    PI := .fin (884279719003555 / 2 ^ 48), SQRT2 := .fin (6369051672525773 / 2 ^ 52),
    nan := .nan }

/-- The lead-off constants of the OpenBCI board as doubles: 31.5 Hz, 250 Hz and a
drive current of 6 nA. -/
def leadOffDoubles : LeadOffConstants JSNum :=
  { OBCILeadOffFrequencyHz := .fin 31.5, OBCISampleRate250 := .fin 250,
    OBCILeadOffDriveInAmps := JSNum.roundDouble 0.000000006 }

/-- The double `Math.cos(GOERTZEL_W_250)` for the constants `leadOffDoubles`:
`0.6889669190756866`. -/
def cosW250 : JSNum := .fin (6205662320039722 / 2 ^ 53)

/-- A sample of one channel with the voltage `x`. -/
def oneChannelSample (x : JSNum) : SampleOf JSNum :=
  { startByte := some 0xA0, sampleNumber := some 0, channelData := [x],
    auxData := [.fin 0, .fin 0, .fin 0], stopByte := some 0xC0 }

/-- A stream of 63 one-channel samples whose voltages are finite doubles: 61 times 0,
then `1e200`, then 0. -/
def overflowStream : List (SampleOf JSNum) :=
  List.replicate 61 (oneChannelSample (.fin 0))
    ++ [oneChannelSample (JSNum.roundDouble (10 ^ 200)), oneChannelSample (.fin 0)]

/-- A valuation of `Constants` for concrete evaluations: the OpenBCI V3 framing bytes
`0xA0` and `0xC0`, code 2 for the UserDefined and code 1 for the TimeSynced packet
type. -/
def kRef : Constants :=
  { OBCIByteStart := 0xA0, OBCIByteStop := 0xC0,
    OBCIPacketTypeUserDefined := 2, OBCIPacketTypeTimeSynced := 1 }

/-- A sample with a non-zero first aux value: 100 accelerometer codes. -/
def auxSample : Sample :=
  { startByte := some 0xA0, sampleNumber := some 0,
    channelData := List.replicate 8 (.fin 0),
    auxData := [.fin 0.0125, .fin 0, .fin 0], stopByte := some 0xC0 }

/-- A 34-byte buffer with the start marker and the UserDefined nibble in byte 32. -/
def longUserDefinedBuf : Buffer := 0xA0 :: List.replicate 31 0 ++ [0xC2, 0]

/-- A well-framed standard packet: sample number 7, channel 1 at full scale
(`7F FF FF`), every other payload byte 0. -/
def stdPacket : Buffer := [0xA0, 7, 0x7F, 0xFF, 0xFF] ++ List.replicate 27 0 ++ [0xC0]

/-- The arrays of the object have one entry per channel, as in every object made by
`goertzelNewObject`. -/
def GoertzelObj.WellFormed {α : Type} (o : GoertzelObj α) : Prop :=
  o.q1.length = o.numberOfChannels ∧ o.q2.length = o.numberOfChannels

/-- The value `q0` of channel `i` in the first loop of `goertzelProcessSample`. -/
def goertzelQ0 {α : Type} [LinearOrderedField α] (M : MathFns α) (coeff : α)
    (channelData : List α) (o : GoertzelObj α) (i : Nat) : α :=
  coeff * readNum M o.q1 i - readNum M o.q2 i + readNum M channelData i

/-- The radicand `q1^2 + q2^2 - q1*q2*coeff` of the second loop of
`goertzelProcessSample`. -/
def goertzelRadicand {α : Type} [LinearOrderedField α] (coeff q1 q2 : α) : α :=
  (q1 * q1) + (q2 * q2) - q1 * q2 * coeff

/-- The registers `(q1, q2)` of one channel after the recurrence of
`goertzelProcessSample` has consumed the voltages `xs`, starting from `r`. -/
def goertzelRegs {α : Type} [LinearOrderedField α] (coeff : α) : α × α → List α → α × α
  | r, [] => r
  | r, x :: xs => goertzelRegs coeff (coeff * r.1 - r.2 + x, r.1) xs

/-- The arrays captured by the generator have the lengths `randomSample` gives them:
`numberOfChannels` filter registers and `numberOfChannels + 1` phases. -/
def RandomSampleState.WellFormed {α : Type} (st : RandomSampleState α)
    (numberOfChannels : Nat) : Prop :=
  st.b0.length = numberOfChannels ∧ st.b1.length = numberOfChannels
    ∧ st.b2.length = numberOfChannels ∧ st.sinePhaseRad.length = numberOfChannels + 1

/-- The phase of a sinusoid of frequency `freqHz` after one pass of the generator,
from the phase `p` before it: advanced by `2π·freqHz/sampleRateHz`, less `2π` when
above `2π`. -/
def simPhase {α : Type} [LinearOrderedField α] (M : MathFns α) (sampleRateHz freqHz p : α) :
    α :=
  if p + 2 * M.PI * freqHz / sampleRateHz > 2 * M.PI then
    p + 2 * M.PI * freqHz / sampleRateHz - 2 * M.PI
  else p + 2 * M.PI * freqHz / sampleRateHz

/-- The phase of channel `i` after one pass of the generator, from its phase `p`
before it. -/
def simPhaseAfter {α : Type} [LinearOrderedField α] (M : MathFns α) (sampleRateHz : α)
    (injectAlpha : Bool) (lineNoise : LineNoise) (i : Nat) (p : α) : α :=
  if i = 0 ∨ i = 1 then
    if injectAlpha then simPhase M sampleRateHz 10 p else p
  else
    match lineNoise with
    | .hz60 => simPhase M sampleRateHz 60 p
    | .hz50 => simPhase M sampleRateHz 50 p
    | .none => p

/-- The value the generator adds to the white noise of channel `i`, from the phase
`p` of the channel before the pass. -/
def simInjection {α : Type} [LinearOrderedField α] (M : MathFns α) (sampleRateHz : α)
    (injectAlpha : Bool) (lineNoise : LineNoise) (i : Nat) (p : α) : α :=
  if i = 0 ∨ i = 1 then
    if injectAlpha then (5 * M.SQRT2 * M.sin (simPhase M sampleRateHz 10 p)) / 1000000
    else 0
  else
    match lineNoise with
    | .hz60 => (8 * M.SQRT2 * M.sin (simPhase M sampleRateHz 60 p)) / 1000000
    | .hz50 => (8 * M.SQRT2 * M.sin (simPhase M sampleRateHz 50 p)) / 1000000
    | .none => 0

/-- The input `u_i` of the pink-noise filters of channel `i` in one pass of the
generator: white noise plus injection. -/
def simInput {α : Type} [LinearOrderedField α] (M : MathFns α) (sampleRateHz : α)
    (injectAlpha : Bool) (lineNoise : LineNoise) (st : RandomSampleState α)
    (draw : Nat → α) (i : Nat) : α :=
  draw i * M.sqrt (sampleRateHz / 2) / 1000000
    + simInjection M sampleRateHz injectAlpha lineNoise i (readNum M st.sinePhaseRad i)

/-! ## Lemmas on the 32-bit operators -/

theorem toUint32_lt (x : Int) : toUint32 x < 4294967296 := by
  unfold toUint32; omega

theorem toUint32_ofNat (n : Nat) : toUint32 (Int.ofNat n) = n % 4294967296 := by
  unfold toUint32; simp only [Int.ofNat_eq_coe]; omega

theorem toUint32_toInt32 (x : Int) : toUint32 (toInt32 x) = toUint32 x := by
  unfold toUint32 toInt32; simp only; split <;> omega

theorem toInt32_of_range (x : Int) (h1 : -2147483648 ≤ x) (h2 : x < 2147483648) :
    toInt32 x = x := by
  unfold toInt32; simp only; split <;> omega

theorem toUint32_shl32 (a : Int) (n : Nat) :
    toUint32 (shl32 a n) = (toUint32 a <<< n) % 4294967296 := by
  unfold shl32
  rw [toUint32_toInt32, toUint32_ofNat]

theorem lor_bytes3 (p b0 b1 b2 : Nat) (h0 : b0 < 256) (h1 : b1 < 256) (h2 : b2 < 256) :
    (p <<< 24 ||| b0 <<< 16 ||| b1 <<< 8 ||| b2)
      = p * 16777216 + b0 * 65536 + b1 * 256 + b2 := by
  have e1 : p <<< 24 ||| b0 <<< 16 = 2 ^ 16 * (p * 256 + b0) := by
    rw [Nat.shiftLeft_eq, Nat.shiftLeft_eq]
    have := Nat.mul_add_lt_is_or (i := 24) (b := b0 * 2 ^ 16) (by omega) p
    rw [Nat.mul_comm p (2 ^ 24), ← this]; omega
  have e2 : 2 ^ 16 * (p * 256 + b0) ||| b1 <<< 8 = 2 ^ 8 * ((p * 256 + b0) * 256 + b1) := by
    rw [Nat.shiftLeft_eq]
    have := Nat.mul_add_lt_is_or (i := 16) (b := b1 * 2 ^ 8) (by omega) (p * 256 + b0)
    rw [← this]; omega
  rw [e1, e2, ← Nat.mul_add_lt_is_or (i := 8) (by omega)]; omega

theorem lor_bytes2 (p b0 b1 : Nat) (h0 : b0 < 256) (h1 : b1 < 256) :
    (p <<< 16 ||| b0 <<< 8 ||| b1) = p * 65536 + b0 * 256 + b1 := by
  have e1 : p <<< 16 ||| b0 <<< 8 = 2 ^ 8 * (p * 256 + b0) := by
    rw [Nat.shiftLeft_eq, Nat.shiftLeft_eq]
    have := Nat.mul_add_lt_is_or (i := 16) (b := b0 * 2 ^ 8) (by omega) p
    rw [Nat.mul_comm p (2 ^ 16), ← this]; omega
  rw [e1, ← Nat.mul_add_lt_is_or (i := 8) (by omega)]; omega

theorem shl_byte_mod (b n : Nat) (hb : b < 256) (hn : n ≤ 24) :
    (b % 4294967296) <<< n % 4294967296 = b <<< n := by
  rw [Nat.mod_eq_of_lt (by omega : b < 4294967296)]
  apply Nat.mod_eq_of_lt
  rw [Nat.shiftLeft_eq]
  calc b * 2 ^ n ≤ 255 * 2 ^ n := Nat.mul_le_mul_right _ (by omega)
    _ ≤ 255 * 2 ^ 24 := Nat.mul_le_mul_left _ (Nat.pow_le_pow_right (by decide) hn)
    _ < 4294967296 := by decide

theorem shl_byte_lt (b n : Nat) (hb : b < 256) (hn : n ≤ 24) : b <<< n < 2 ^ 32 := by
  rw [← shl_byte_mod b n hb hn]; exact Nat.mod_lt _ (by decide)

theorem lor_mod32 (x y : Nat) (hx : x < 2 ^ 32) (hy : y < 2 ^ 32) :
    (x ||| y) % 4294967296 = x ||| y :=
  Nat.mod_eq_of_lt (Nat.or_lt_two_pow hx hy)

/-- Value of `interpret24bitAsInt32` on three bytes. -/
theorem interpret24_bytes (b0 b1 b2 : Nat) (h0 : b0 < 256) (h1 : b1 < 256) (h2 : b2 < 256) :
    interpret24bitAsInt32 [b0, b1, b2]
      = (b0 : Int) * 65536 + b1 * 256 + b2 - (if 127 < b0 then 16777216 else 0) := by
  unfold interpret24bitAsInt32
  simp only [List.getElem?_cons_zero, List.getElem?_cons_succ, gt127, byteToInt, decide_eq_true_eq]
  unfold or32
  simp only [toUint32_toInt32, toUint32_ofNat, toUint32_shl32]
  have e255 : toUint32 255 = 255 := by decide
  have e0 : toUint32 0 = 0 := by decide
  have s255 : (255 : Nat) <<< 24 % 4294967296 = 255 <<< 24 := by decide
  have s0 : (0 : Nat) <<< 24 % 4294967296 = 0 <<< 24 := by decide
  have l255 : (255 : Nat) <<< 24 < 2 ^ 32 := by decide
  have l0 : (0 : Nat) <<< 24 < 2 ^ 32 := by decide
  have hb0 := shl_byte_lt b0 16 h0 (by omega)
  have hb1 := shl_byte_lt b1 8 h1 (by omega)
  have hb2 : b2 < 2 ^ 32 := by omega
  rw [shl_byte_mod b0 16 h0 (by omega), shl_byte_mod b1 8 h1 (by omega),
    Nat.mod_eq_of_lt (by omega : b2 < 4294967296)]
  by_cases h : 127 < b0
  · rw [if_pos h, if_pos h, e255, s255, lor_mod32 _ _ l255 hb0,
      lor_mod32 _ _ (Nat.or_lt_two_pow l255 hb0) hb1, lor_bytes3 255 b0 b1 b2 h0 h1 h2]
    unfold toInt32
    simp only [Int.ofNat_eq_coe]
    split <;> omega
  · rw [if_neg h, if_neg h, e0, s0, lor_mod32 _ _ l0 hb0,
      lor_mod32 _ _ (Nat.or_lt_two_pow l0 hb0) hb1, lor_bytes3 0 b0 b1 b2 h0 h1 h2]
    unfold toInt32
    simp only [Int.ofNat_eq_coe]
    split <;> omega

/-- Value of `interpret16bitAsInt32` on two bytes. -/
theorem interpret16_bytes (b0 b1 : Nat) (h0 : b0 < 256) (h1 : b1 < 256) :
    interpret16bitAsInt32 [b0, b1]
      = (b0 : Int) * 256 + b1 - (if 127 < b0 then 65536 else 0) := by
  unfold interpret16bitAsInt32
  simp only [List.getElem?_cons_zero, List.getElem?_cons_succ, gt127, byteToInt, decide_eq_true_eq]
  unfold or32
  simp only [toUint32_toInt32, toUint32_ofNat, toUint32_shl32]
  have e1 : toUint32 65535 = 65535 := by decide
  have e0 : toUint32 0 = 0 := by decide
  have s1 : (65535 : Nat) <<< 16 % 4294967296 = 65535 <<< 16 := by decide
  have s0 : (0 : Nat) <<< 16 % 4294967296 = 0 <<< 16 := by decide
  have l1 : (65535 : Nat) <<< 16 < 2 ^ 32 := by decide
  have l0 : (0 : Nat) <<< 16 < 2 ^ 32 := by decide
  have hb0 := shl_byte_lt b0 8 h0 (by omega)
  rw [shl_byte_mod b0 8 h0 (by omega), Nat.mod_eq_of_lt (by omega : b1 < 4294967296)]
  by_cases h : 127 < b0
  · rw [if_pos h, if_pos h, e1, s1, lor_mod32 _ _ l1 hb0, lor_bytes2 65535 b0 b1 h0 h1]
    unfold toInt32
    simp only [Int.ofNat_eq_coe]
    split <;> omega
  · rw [if_neg h, if_neg h, e0, s0, lor_mod32 _ _ l0 hb0, lor_bytes2 0 b0 b1 h0 h1]
    unfold toInt32
    simp only [Int.ofNat_eq_coe]
    split <;> omega

/-- C1: for every three bytes `b0 b1 b2`, `interpret24bitAsInt32` returns the 24-bit
two's-complement value `b0*65536 + b1*256 + b2 - (2^24 if b0 > 127 else 0)`, which lies in
`[-8388608, 8388607]`; `FF FF FF` gives `-1`, `7F FF FF` gives `8388607` and `80 00 00`
gives `-8388608`. -/
theorem C1_interpret24bitAsInt32 :
    (∀ b0 b1 b2 : Nat, b0 < 256 → b1 < 256 → b2 < 256 →
      interpret24bitAsInt32 [b0, b1, b2]
          = (b0 : Int) * 65536 + b1 * 256 + b2 - (if 127 < b0 then 2 ^ 24 else 0)
        ∧ -8388608 ≤ interpret24bitAsInt32 [b0, b1, b2]
        ∧ interpret24bitAsInt32 [b0, b1, b2] ≤ 8388607)
    ∧ interpret24bitAsInt32 [0xFF, 0xFF, 0xFF] = -1
    ∧ interpret24bitAsInt32 [0x7F, 0xFF, 0xFF] = 8388607
    ∧ interpret24bitAsInt32 [0x80, 0x00, 0x00] = -8388608 := by
  refine ⟨?_, by decide, by decide, by decide⟩
  intro b0 b1 b2 h0 h1 h2
  rw [interpret24_bytes b0 b1 b2 h0 h1 h2]
  refine ⟨by norm_num, ?_, ?_⟩ <;> split <;> omega

/-- C1 at the bytes `12 34 56` and `FF 00 01`. -/
theorem C1_interpret24bitAsInt32_witness :
    interpret24bitAsInt32 [0x12, 0x34, 0x56] = 1193046
      ∧ interpret24bitAsInt32 [0xFF, 0x00, 0x01] = -65535 := by
  have h1 := (C1_interpret24bitAsInt32.1 0x12 0x34 0x56 (by decide) (by decide) (by decide)).1
  have h2 := (C1_interpret24bitAsInt32.1 0xFF 0x00 0x01 (by decide) (by decide) (by decide)).1
  exact ⟨by simpa using h1, by simpa using h2⟩

/-- C2: for every two bytes `b0 b1`, `interpret16bitAsInt32` returns the 16-bit
two's-complement value `b0*256 + b1 - (65536 if b0 > 127 else 0)`, which lies in
`[-32768, 32767]`. -/
theorem C2_interpret16bitAsInt32 (b0 b1 : Nat) (h0 : b0 < 256) (h1 : b1 < 256) :
    interpret16bitAsInt32 [b0, b1]
        = (b0 : Int) * 256 + b1 - (if 127 < b0 then 65536 else 0)
      ∧ -32768 ≤ interpret16bitAsInt32 [b0, b1]
      ∧ interpret16bitAsInt32 [b0, b1] ≤ 32767 := by
  rw [interpret16_bytes b0 b1 h0 h1]
  refine ⟨rfl, ?_, ?_⟩ <;> split <;> omega

/-- C2 at the bytes `80 01`. -/
theorem C2_interpret16bitAsInt32_witness :
    interpret16bitAsInt32 [0x80, 0x01] = -32767
      ∧ -32768 ≤ interpret16bitAsInt32 [0x80, 0x01]
      ∧ interpret16bitAsInt32 [0x80, 0x01] ≤ 32767 := by
  have h := C2_interpret16bitAsInt32 0x80 0x01 (by decide) (by decide)
  simpa using h


/-! ## Lemmas on the double arithmetic -/

namespace JSNum

theorem pow2_eq_zpow (e : Int) : pow2 e = (2 : ℚ) ^ e := by
  unfold pow2
  split
  · rename_i h
    conv_rhs => rw [← Int.toNat_of_nonneg h]
    rw [zpow_natCast]
  · rename_i h
    have h' : 0 ≤ -e := by omega
    have : e = -((-e).toNat : Int) := by rw [Int.toNat_of_nonneg h']; ring
    conv_rhs => rw [this]
    rw [zpow_neg, zpow_natCast, one_div]

theorem pow2_pos (e : Int) : 0 < pow2 e := by
  rw [pow2_eq_zpow]; positivity

theorem log2Fuel_spec : ∀ (fuel n : Nat), 1 ≤ n → n ≤ fuel →
    2 ^ log2Fuel fuel n ≤ n ∧ n < 2 ^ (log2Fuel fuel n + 1) := by
  intro fuel
  induction fuel with
  | zero => intro n h1 h2; omega
  | succ fuel ih =>
    intro n h1 h2
    unfold log2Fuel
    split
    · rename_i h
      obtain ⟨a, b⟩ := ih (n / 2) (by omega) (by omega)
      constructor
      · rw [pow_succ]; omega
      · rw [pow_succ]; omega
    · simp; omega

theorem natLog2_spec (n : Nat) (h : 1 ≤ n) :
    2 ^ natLog2 n ≤ n ∧ n < 2 ^ (natLog2 n + 1) :=
  log2Fuel_spec n n h (Nat.le_refl n)

/-- The exponent computed by `ilog2` is not above the binary logarithm. -/
theorem pow2_ilog2_le (x : ℚ) (hx : x ≠ 0) : pow2 (ilog2 x) ≤ |x| := by
  unfold ilog2
  simp only
  split
  · assumption
  · have ha : 1 ≤ x.num.natAbs := by
      have : x.num ≠ 0 := Rat.num_ne_zero.mpr hx
      omega
    have hb : 1 ≤ x.den := x.den_pos
    obtain ⟨a1, _⟩ := natLog2_spec _ ha
    obtain ⟨_, b2⟩ := natLog2_spec _ hb
    have habs : |x| = (x.num.natAbs : ℚ) / (x.den : ℚ) := by
      conv_lhs => rw [← Rat.num_div_den x]
      rw [abs_div, Nat.abs_cast, Nat.cast_natAbs, Int.cast_abs]
    rw [habs, pow2_eq_zpow]
    have e : ((natLog2 x.num.natAbs : Int) - (natLog2 x.den : Int) - 1)
        = (natLog2 x.num.natAbs : Int) - ((natLog2 x.den + 1 : Nat) : Int) := by
      push_cast; ring
    rw [e, zpow_sub₀ (by norm_num), zpow_natCast, zpow_natCast]
    have hden : (0 : ℚ) < x.den := by exact_mod_cast x.den_pos
    have h1 : ((2 : ℚ) ^ natLog2 x.num.natAbs) ≤ (x.num.natAbs : ℚ) := by exact_mod_cast a1
    have h2 : (x.den : ℚ) ≤ (2 : ℚ) ^ (natLog2 x.den + 1) := by exact_mod_cast le_of_lt b2
    exact div_le_div₀ (by positivity) h1 hden h2

theorem roundHalfEven_error (y : ℚ) : |(roundHalfEven y : ℚ) - y| ≤ 1 / 2 := by
  unfold roundHalfEven
  simp only
  have h1 := Int.floor_le y
  have h2 := Int.lt_floor_add_one y
  rw [abs_le]
  split
  · constructor <;> linarith
  · split
    · push_cast; constructor <;> linarith
    · split
      · constructor <;> linarith
      · push_cast; constructor <;> linarith

/-- The rounding error of `roundDouble`: half a unit in the last place. -/
theorem roundDouble_error (x q : ℚ) (h : roundDouble x = fin q) :
    |q - x| ≤ |x| / 2 ^ 53 + 1 / 2 ^ 1075 := by
  unfold roundDouble at h
  split at h
  · rename_i hx
    have := fin.inj h
    subst this; subst hx
    norm_num
  · rename_i hx
    simp only at h
    split at h
    · exact JSNum.noConfusion h
    · have hq := fin.inj h
      set e := max (ilog2 x) (-1022) with he
      set u := pow2 (e - 52) with hu
      have hupos : 0 < u := pow2_pos _
      have herr := roundHalfEven_error (|x| / u)
      set m : ℚ := (roundHalfEven (|x| / u) : ℚ) with hm
      have hmu : |m * u - abs x| ≤ u / 2 := by
        have : m * u - abs x = (m - abs x / u) * u := by field_simp
        rw [this, abs_mul, abs_of_pos hupos]
        calc |m - abs x / u| * u ≤ 1 / 2 * u := by
              exact mul_le_mul_of_nonneg_right herr (le_of_lt hupos)
          _ = u / 2 := by ring
      have hqx : |q - x| = |m * u - abs x| := by
        rw [← hq]
        split
        · rename_i hneg
          rw [abs_of_neg hneg]
          rw [show -(m * u) - x = -(m * u - -x) by ring, abs_neg]
        · rename_i hneg
          rw [abs_of_nonneg (not_lt.mp hneg)]
      rw [hqx]
      refine le_trans hmu ?_
      have hu2 : u / 2 = pow2 (e - 53) := by
        rw [hu, pow2_eq_zpow, pow2_eq_zpow, show e - 53 = e - 52 - 1 by ring,
          zpow_sub_one₀ (by norm_num)]
        ring
      rw [hu2]
      rcases le_total (ilog2 x) (-1022) with hle | hle
      · have : e = -1022 := by rw [he]; exact max_eq_right hle
        rw [this]
        have : pow2 (-1022 - 53) = 1 / 2 ^ 1075 := by
          rw [pow2_eq_zpow]; norm_num [zpow_neg]
        rw [this]
        have : 0 ≤ |x| / 2 ^ 53 := by positivity
        linarith
      · have : e = ilog2 x := by rw [he]; exact max_eq_left hle
        rw [this]
        have h1 := pow2_ilog2_le x hx
        have : pow2 (ilog2 x - 53) = pow2 (ilog2 x) / 2 ^ 53 := by
          rw [pow2_eq_zpow, pow2_eq_zpow, zpow_sub₀ (by norm_num)]
          norm_num
        rw [this]
        have : pow2 (ilog2 x) / 2 ^ 53 ≤ |x| / 2 ^ 53 := by
          apply div_le_div_of_nonneg_right h1 (by positivity)
        have : (0 : ℚ) ≤ 1 / 2 ^ 1075 := by positivity
        linarith

end JSNum

/-- Values of `roundDouble`: ties go to the even significand, `0.1` is not a double,
the largest double is `2^1024 - 2^971` and the smallest positive one `2^-1074`. -/
theorem roundDouble_values :
    JSNum.roundDouble (2 ^ 53 + 1) = .fin (2 ^ 53)
    ∧ JSNum.roundDouble (2 ^ 53 + 3) = .fin (2 ^ 53 + 4)
    ∧ JSNum.roundDouble (1 / 10) = .fin (3602879701896397 / 2 ^ 55)
    ∧ JSNum.roundDouble (2 ^ 1024 - 2 ^ 970) = .inf false
    ∧ JSNum.roundDouble (-(2 ^ 1024 - 2 ^ 970 - 1)) = .fin (-(2 ^ 1024 - 2 ^ 971))
    ∧ JSNum.roundDouble (1 / 2 ^ 1075) = .fin 0
    ∧ JSNum.roundDouble (3 / 2 ^ 1075) = .fin (2 / 2 ^ 1074) := by
  decide!

/-- Values of the arithmetic of doubles: `0.1 + 0.2` is `0.30000000000000004`, the
square of `2^512` overflows, `Infinity - Infinity` and `0 * Infinity` are `NaN`, and
`Math.sqrt(2)` is `6369051672525773 / 2^52`. -/
theorem double_arithmetic_values :
    JSNum.fadd (.fin (3602879701896397 / 2 ^ 55)) (.fin (3602879701896397 / 2 ^ 54))
        = .fin (1351079888211149 / 2 ^ 52)
    ∧ JSNum.fmul (.fin (2 ^ 512)) (.fin (2 ^ 512)) = .inf false
    ∧ JSNum.fsub (.inf false) (.inf false) = .nan
    ∧ JSNum.fmul (.fin 0) (.inf false) = .nan
    ∧ JSNum.fdiv (.fin 1) (.fin 3) = .fin (6004799503160661 / 2 ^ 54)
    ∧ JSNum.fsqrt (.fin 2) = .fin (6369051672525773 / 2 ^ 52)
    ∧ JSNum.fsqrt (.fin (-1)) = .nan
    ∧ JSNum.fsqrt .nan = .nan := by
  decide!

/-! ## Lemmas on buffers and numbers -/

theorem Buffer.slice_slice (b : Buffer) (a c x y : Nat) (h : a + y ≤ c) :
    (b.slice a c).slice x y = b.slice (a + x) (a + y) := by
  unfold Buffer.slice
  rw [List.drop_take, List.take_take, List.drop_drop]
  congr 1
  omega

theorem getRawPacketType_some (stop : Nat) :
    getRawPacketType (some stop) = ((stop % 16 : Nat) : Int) := by
  unfold getRawPacketType and32 byteToInt
  rw [toUint32_ofNat]
  have e15 : toUint32 0xF = 2 ^ 4 - 1 := by decide
  rw [e15, Nat.and_pow_two_sub_one_eq_mod]
  have : stop % 4294967296 % 2 ^ 4 = stop % 16 := by omega
  rw [this]
  apply toInt32_of_range <;> simp only [Int.ofNat_eq_coe] <;> omega

theorem SCALE_FACTOR_ACCEL_eq : SCALE_FACTOR_ACCEL = .fin (0.002 / 2 ^ 4) := by
  unfold SCALE_FACTOR_ACCEL JSNum.div
  norm_num

theorem channelValue_fin (dataBuf : Buffer) (index : Nat) (g : ℚ) (hg : g ≠ 0) :
    channelValue dataBuf index { gain := some (.num (.fin g)) }
      = .fin ((interpret24bitAsInt32 (dataBuf.slice (index * 3) (index * 3 + 3)) : ℚ)
          * 4.5 / g / (2 ^ 23 - 1)) := by
  unfold channelValue ChannelSettings.gainNumber ADS1299_VREF
  simp only [JSNum.div, JSNum.mul, hg, if_false]
  norm_num
  ring


theorem channelStep_num (dataBuf : Buffer) (p : Promise (List JSNum)) (acc : List JSNum)
    (index : Nat) (x : JSNum) :
    channelStep dataBuf (p, acc) index { gain := some (.num x) }
      = (p, acc ++ [channelValue dataBuf index { gain := some (.num x) }]) := by
  simp [channelStep, isNumber]

/-- When every gain is a number the loop never rejects and pushes one value per
settings object. -/
theorem channelLoop_num (dataBuf : Buffer) (xs : List JSNum) :
    ∀ (index : Nat) (p : Promise (List JSNum)) (acc : List JSNum),
      channelLoop dataBuf (xs.map fun x => { gain := some (.num x) }) index (p, acc)
        = (p, acc ++ (xs.enumFrom index).map
            fun ix => channelValue dataBuf ix.1 { gain := some (.num ix.2) }) := by
  induction xs with
  | nil => intro index p acc; simp [channelLoop]
  | cons x xs ih =>
    intro index p acc
    simp only [List.map_cons, channelLoop, channelStep_num, ih, List.enumFrom_cons,
      List.append_assoc, List.singleton_append]

theorem getChannelDataArray_num (dataBuf : Buffer) (xs : List JSNum) :
    getChannelDataArray dataBuf (some (xs.map fun x => { gain := some (.num x) }))
      = .resolved ((xs.enumFrom 0).map
          fun ix => channelValue dataBuf ix.1 { gain := some (.num ix.2) }) := by
  simp [getChannelDataArray, channelLoop_num, Promise.settle]

/-- A standard, well-framed packet with numeric gains decodes to a sample. -/
theorem parseRawPacket_num (k : Constants) (buf : Buffer) (xs : List JSNum)
    (hlen : buf.length = 33) (hstart : buf[0]? = some k.OBCIByteStart)
    (hUser : getRawPacketType buf[32]? ≠ k.OBCIPacketTypeUserDefined)
    (hTime : getRawPacketType buf[32]? ≠ k.OBCIPacketTypeTimeSynced) :
    parseRawPacket k (some buf) (.array (xs.map fun x => { gain := some (.num x) }))
      = .resolved (some
          { auxData := (List.range 3).map fun i =>
              JSNum.mul (.fin (interpret16bitAsInt32 (buf.slice (26 + i * 2) (26 + (i * 2 + 2)))))
                SCALE_FACTOR_ACCEL
            channelData := (xs.enumFrom 0).map fun ix =>
              channelValue (buf.slice 2 26) ix.1 { gain := some (.num ix.2) }
            sampleNumber := buf[1]?
            startByte := buf[0]?
            stopByte := buf[32]? }) := by
  unfold parseRawPacket
  simp only [hstart, OBCIPacketPositionStopByte, hUser, hTime, if_false, ne_eq, not_true_eq_false]
  have hp : parsePacketStandard buf (some (xs.map fun x => { gain := some (.num x) }))
      = .resolved
          { auxData := (List.range 3).map fun i =>
              JSNum.mul (.fin (interpret16bitAsInt32 (buf.slice (26 + i * 2) (26 + (i * 2 + 2)))))
                SCALE_FACTOR_ACCEL
            channelData := (xs.enumFrom 0).map fun ix =>
              channelValue (buf.slice 2 26) ix.1 { gain := some (.num ix.2) }
            sampleNumber := buf[1]?
            startByte := buf[0]?
            stopByte := buf[32]? } := by
    unfold parsePacketStandard getAccelDataArray
    simp only [getChannelDataArray_num, OBCIPacketSize, hlen, OBCIPacketPositionStartAux,
      OBCIPacketPositionStopAux, OBCIPacketPositionChannelDataStart,
      OBCIPacketPositionChannelDataStop, OBCIPacketPositionSampleNumber,
      OBCIPacketPositionStopByte, ACCEL_NUMBER_AXIS, Promise.settle, ne_eq, not_true_eq_false,
      if_false]
    have haux : (List.range 3).map (fun i =>
          JSNum.mul (.fin (interpret16bitAsInt32 ((buf.slice 26 (31 + 1)).slice (i * 2) (i * 2 + 2))))
            SCALE_FACTOR_ACCEL)
        = (List.range 3).map (fun i =>
          JSNum.mul (.fin (interpret16bitAsInt32 (buf.slice (26 + i * 2) (26 + (i * 2 + 2)))))
            SCALE_FACTOR_ACCEL) := by
      apply List.map_congr_left
      intro i hi
      rw [Buffer.slice_slice _ _ _ _ _ (by have := List.mem_range.mp hi; omega)]
    rw [haux]
  rw [hp]
  simp only [Promise.settle, hstart]


/-- C3: a 33-byte buffer with the start marker in byte 0 and a stop byte whose low
nibble is neither the UserDefined nor the TimeSynced type, parsed with 8 settings
objects of positive numeric gains, resolves with a sample: `sampleNumber` is byte 1,
`startByte` byte 0, `stopByte` byte 32, channel `i` is
`interpret24bitAsInt32(bytes 2+3i..4+3i) * 4.5 / g_i / (2^23 - 1)` and aux value `j` is
`interpret16bitAsInt32(bytes 26+2j..27+2j) * 0.002 / 2^4`; channel bytes `7F FF FF`
with gain 24 give `0.1875`. -/
theorem C3_parseRawPacket_standard (k : Constants) (buf : Buffer) (gains : List ℚ)
    (stop : Nat) (hlen : buf.length = 33) (hstart : buf[0]? = some k.OBCIByteStart)
    (hstop : buf[32]? = some stop)
    (hUser : stop % 16 ≠ k.OBCIPacketTypeUserDefined)
    (hTime : stop % 16 ≠ k.OBCIPacketTypeTimeSynced)
    (hgains : gains.length = 8) (hpos : ∀ g ∈ gains, 0 < g) :
    ∃ s : Sample,
      parseRawPacket k (some buf) (.array (gains.map gainObject)) = .resolved (some s)
      ∧ s.sampleNumber = buf[1]? ∧ s.startByte = buf[0]? ∧ s.stopByte = buf[32]?
      ∧ s.channelData.length = 8 ∧ s.auxData.length = 3
      ∧ (∀ i g, gains[i]? = some g →
          s.channelData[i]? = some (JSNum.fin
            ((interpret24bitAsInt32 (buf.slice (2 + 3 * i) (5 + 3 * i)) : ℚ)
              * 4.5 / g / (2 ^ 23 - 1))))
      ∧ (∀ j, j < 3 →
          s.auxData[j]? = some (JSNum.fin
            ((interpret16bitAsInt32 (buf.slice (26 + 2 * j) (28 + 2 * j)) : ℚ)
              * 0.002 / 2 ^ 4)))
      ∧ (∀ i, gains[i]? = some 24 → buf.slice (2 + 3 * i) (5 + 3 * i) = [0x7F, 0xFF, 0xFF] →
          s.channelData[i]? = some (JSNum.fin 0.1875)) := by
  have hU : getRawPacketType buf[32]? ≠ k.OBCIPacketTypeUserDefined := by
    rw [hstop, getRawPacketType_some]; exact_mod_cast hUser
  have hT : getRawPacketType buf[32]? ≠ k.OBCIPacketTypeTimeSynced := by
    rw [hstop, getRawPacketType_some]; exact_mod_cast hTime
  have hmap : gains.map gainObject
      = (gains.map JSNum.fin).map fun x => { gain := some (.num x) } := by
    simp [gainObject, List.map_map, Function.comp_def]
  have hchan : ∀ i g, gains[i]? = some g →
      (((gains.map JSNum.fin).enumFrom 0).map
          (fun ix => channelValue (buf.slice 2 26) ix.1 { gain := some (.num ix.2) }))[i]?
        = some (JSNum.fin ((interpret24bitAsInt32 (buf.slice (2 + 3 * i) (5 + 3 * i)) : ℚ)
              * 4.5 / g / (2 ^ 23 - 1))) := by
    intro i g hg
    have hi : i < 8 := by
      rw [← hgains]; exact (List.getElem?_eq_some_iff.mp hg).1
    have hgpos : g ≠ 0 := ne_of_gt (hpos g (List.getElem?_mem hg))
    simp only [List.getElem?_map, List.getElem?_enumFrom, hg,
      Option.map_some', Nat.zero_add]
    rw [channelValue_fin _ _ _ hgpos, Buffer.slice_slice _ _ _ _ _ (by omega)]
    have e1 : 2 + i * 3 = 2 + 3 * i := by omega
    have e2 : 2 + (i * 3 + 3) = 5 + 3 * i := by omega
    rw [e1, e2]
  refine ⟨_, by rw [hmap]; exact parseRawPacket_num k buf _ hlen hstart hU hT,
    rfl, rfl, rfl, ?_, ?_, ?_, ?_, ?_⟩
  · simp [hgains]
  · simp
  · intro i g hg
    have := hchan i g hg
    simpa using this
  · intro j hj
    simp only [List.getElem?_map, List.getElem?_range hj, Option.map_some',
      SCALE_FACTOR_ACCEL_eq, JSNum.mul]
    have e1 : 26 + j * 2 = 26 + 2 * j := by omega
    have e2 : 26 + (j * 2 + 2) = 28 + 2 * j := by omega
    rw [e1, e2]
    congr 2
    ring
  · intro i hg hb
    have := hchan i 24 hg
    rw [hb] at this
    have hv : interpret24bitAsInt32 [0x7F, 0xFF, 0xFF] = 8388607 := by decide
    rw [hv] at this
    rw [this]
    norm_num


/-- C3 at `stdPacket` with gain 24 on all 8 channels. -/
theorem C3_parseRawPacket_standard_witness :
    stdPacket.length = 33 ∧ stdPacket[0]? = some kRef.OBCIByteStart
      ∧ stdPacket[32]? = some 0xC0
      ∧ 0xC0 % 16 ≠ kRef.OBCIPacketTypeUserDefined
      ∧ 0xC0 % 16 ≠ kRef.OBCIPacketTypeTimeSynced
      ∧ (List.replicate 8 (24 : ℚ)).length = 8
      ∧ (∀ g ∈ List.replicate 8 (24 : ℚ), 0 < g)
      ∧ ∃ s : Sample,
          parseRawPacket kRef (some stdPacket) (.array ((List.replicate 8 (24 : ℚ)).map gainObject))
            = .resolved (some s)
          ∧ s.sampleNumber = some 7 ∧ s.startByte = some 0xA0 ∧ s.stopByte = some 0xC0
          ∧ s.channelData[0]? = some (JSNum.fin 0.1875) := by
  have hpos : ∀ g ∈ List.replicate 8 (24 : ℚ), 0 < g := by
    intro g hg
    rw [List.eq_of_mem_replicate hg]
    norm_num
  obtain ⟨s, h1, h2, h3, h4, _, _, _, _, h9⟩ :=
    C3_parseRawPacket_standard kRef stdPacket (List.replicate 8 24) 0xC0
      (by decide) (by decide) (by decide) (by decide) (by decide) (by decide) hpos
  exact ⟨by decide, by decide, by decide, by decide, by decide, by decide, hpos,
    s, h1, h2, h3, h4, h9 0 rfl (by decide)⟩

theorem adcStep_pos : 0 < adcStep := by unfold adcStep; norm_num

theorem adcStep_eq : adcStep = 4.5 / 24 / (2 ^ 23 - 1) := rfl

theorem shiftRight_land (a b i : Nat) : (a &&& b) >>> i = a >>> i &&& b >>> i := by
  apply Nat.eq_of_testBit_eq
  intro j
  simp only [Nat.testBit_shiftRight, Nat.testBit_and]

theorem toInteger_floor_fin (a : ℚ) : (JSNum.floor (.fin a)).toInteger = ⌊a⌋ := by
  unfold JSNum.floor JSNum.toInteger
  simp only [Int.floor_intCast, Int.ceil_intCast, ite_self]

/-- The three bytes extracted from an integer by the masks and shifts of
`floatTo3ByteBuffer`. -/
theorem bytes3_of_int (t : Int) :
    storeByte (sar32 (and32 t (shl32 255 16)) 16) = toUint32 t / 65536 % 256
    ∧ storeByte (sar32 (and32 t (shl32 255 8)) 8) = toUint32 t / 256 % 256
    ∧ storeByte (and32 t 255) = toUint32 t % 256 := by
  have m16 : toUint32 (shl32 255 16) = 16711680 := by decide
  have m8 : toUint32 (shl32 255 8) = 65280 := by decide
  have m0 : toUint32 255 = 2 ^ 8 - 1 := by decide
  have s16 : (16711680 : Nat) >>> 16 = 2 ^ 8 - 1 := by decide
  have s8 : (65280 : Nat) >>> 8 = 2 ^ 8 - 1 := by decide
  have k16 : (toUint32 t &&& 16711680) / 65536 = toUint32 t / 65536 % 256 := by
    have := shiftRight_land (toUint32 t) 16711680 16
    rw [s16, Nat.and_pow_two_sub_one_eq_mod, Nat.shiftRight_eq_div_pow,
      Nat.shiftRight_eq_div_pow] at this
    simpa using this
  have k8 : (toUint32 t &&& 65280) / 256 = toUint32 t / 256 % 256 := by
    have := shiftRight_land (toUint32 t) 65280 8
    rw [s8, Nat.and_pow_two_sub_one_eq_mod, Nat.shiftRight_eq_div_pow,
      Nat.shiftRight_eq_div_pow] at this
    simpa using this
  have b16 : toUint32 t &&& 16711680 ≤ 16711680 := Nat.and_le_right
  have b8 : toUint32 t &&& 65280 ≤ 65280 := Nat.and_le_right
  refine ⟨?_, ?_, ?_⟩
  · unfold sar32 and32 storeByte
    rw [m16, toInt32_of_range _ (by unfold toInt32; simp only; split <;> omega)
      (by unfold toInt32; simp only; split <;> omega)]
    rw [toInt32_of_range _ (by simp only [Int.ofNat_eq_coe]; omega)
      (by simp only [Int.ofNat_eq_coe]; omega)]
    simp only [Int.ofNat_eq_coe]
    omega
  · unfold sar32 and32 storeByte
    rw [m8, toInt32_of_range _ (by unfold toInt32; simp only; split <;> omega)
      (by unfold toInt32; simp only; split <;> omega)]
    rw [toInt32_of_range _ (by simp only [Int.ofNat_eq_coe]; omega)
      (by simp only [Int.ofNat_eq_coe]; omega)]
    simp only [Int.ofNat_eq_coe]
    omega
  · unfold and32 storeByte
    rw [m0, Nat.and_pow_two_sub_one_eq_mod]
    rw [toInt32_of_range _ (by simp only [Int.ofNat_eq_coe]; omega)
      (by simp only [Int.ofNat_eq_coe]; omega)]
    simp only [Int.ofNat_eq_coe]
    omega

/-- The divisor of `floatTo3ByteBuffer` is the double `211106257698819 / 2^73`. -/
theorem adcStepDouble_eq : adcStepDouble = .fin (211106257698819 / 2 ^ 73) := by
  decide!

/-- The quotient of doubles computed by `floatTo3ByteBuffer` is the rounded exact
quotient by the double divisor. -/
theorem fdiv_adcStepDouble (v : ℚ) :
    JSNum.fdiv (.fin v) adcStepDouble = JSNum.roundDouble (v / (211106257698819 / 2 ^ 73)) := by
  rw [adcStepDouble_eq]
  simp only [JSNum.fdiv]
  rw [if_neg (by norm_num)]

theorem floatTo3ByteBuffer_fin (v q : ℚ) (hq : JSNum.fdiv (.fin v) adcStepDouble = .fin q) :
    floatTo3ByteBuffer (.fin v)
      = [toUint32 ⌊q⌋ / 65536 % 256, toUint32 ⌊q⌋ / 256 % 256, toUint32 ⌊q⌋ % 256] := by
  unfold adcStepDouble at hq
  unfold floatTo3ByteBuffer
  simp only [hq, toInteger_floor_fin]
  obtain ⟨h0, h1, h2⟩ := bytes3_of_int ⌊q⌋
  rw [h0, h1, h2]

/-- Decoding the bytes written by `floatTo3ByteBuffer` gives back the floor of the
quotient it computed. -/
theorem interpret24_floatTo3ByteBuffer (v q : ℚ)
    (hq : JSNum.fdiv (.fin v) adcStepDouble = .fin q)
    (hlo : -8388608 ≤ ⌊q⌋) (hhi : ⌊q⌋ ≤ 8388607) :
    interpret24bitAsInt32 (floatTo3ByteBuffer (.fin v)) = ⌊q⌋ := by
  rw [floatTo3ByteBuffer_fin v q hq, interpret24_bytes _ _ _ (Nat.mod_lt _ (by decide))
    (Nat.mod_lt _ (by decide)) (Nat.mod_lt _ (by decide))]
  generalize ⌊q⌋ = t at hlo hhi
  unfold toUint32
  split <;> omega

/-- The quotient of doubles computed by `floatTo3ByteBuffer`, when its floor is a
24-bit code, is within `2^-28` of the exact quotient `v / step`. -/
theorem encoder_quotient_error (v q : ℚ)
    (hq : JSNum.fdiv (.fin v) adcStepDouble = .fin q)
    (hlo : -8388608 ≤ ⌊q⌋) (hhi : ⌊q⌋ ≤ 8388607) :
    |q - v / adcStep| ≤ 1 / 2 ^ 28 := by
  rw [fdiv_adcStepDouble] at hq
  have herr := JSNum.roundDouble_error _ q hq
  set x : ℚ := v / (211106257698819 / 2 ^ 73) with hx
  have hq1 : (-8388608 : ℚ) ≤ q := by
    have := Int.floor_le q
    have h : ((-8388608 : Int) : ℚ) ≤ (⌊q⌋ : ℚ) := by exact_mod_cast hlo
    push_cast at h
    linarith
  have hq2 : q < 8388608 := by
    have := Int.lt_floor_add_one q
    have h : (⌊q⌋ : ℚ) ≤ ((8388607 : Int) : ℚ) := by exact_mod_cast hhi
    push_cast at h
    linarith
  have hqabs : |q| ≤ 8388608 := abs_le.mpr ⟨hq1, le_of_lt hq2⟩
  have hxabs : |x| ≤ 8388609 := by
    have h1 : |x| ≤ |q| + |q - x| := by
      have := abs_sub_abs_le_abs_sub x q
      rw [abs_sub_comm x q] at this
      linarith
    have h2 : |x| ≤ 8388608 + (|x| / 2 ^ 53 + 1 / 2 ^ 1075) := by linarith
    have h3 : (0 : ℚ) ≤ |x| := abs_nonneg x
    by_contra hc
    rw [not_le] at hc
    have h4 : |x| * (1 - 1 / 2 ^ 53) ≤ 8388608 + 1 / 2 ^ 1075 := by linarith
    have h5 : (8388609 : ℚ) * (1 - 1 / 2 ^ 53) < |x| * (1 - 1 / 2 ^ 53) :=
      mul_lt_mul_of_pos_right hc (by norm_num)
    have h6 : (8388608 : ℚ) + 1 / 2 ^ 1075 < 8388609 * (1 - 1 / 2 ^ 53) := by norm_num
    linarith
  have hvs : v / adcStep = x * ((211106257698819 / 2 ^ 73) / adcStep) := by
    rw [hx, adcStep_eq]
    field_simp
    ring
  have hrho : |(211106257698819 / 2 ^ 73 : ℚ) / adcStep - 1| ≤ 1 / 2 ^ 53 := by
    rw [adcStep_eq, abs_le]
    constructor <;> norm_num
  have h7 : |x - v / adcStep| ≤ 8388609 * (1 / 2 ^ 53) := by
    rw [hvs, show x - x * ((211106257698819 / 2 ^ 73) / adcStep)
      = -(x * ((211106257698819 / 2 ^ 73 : ℚ) / adcStep - 1)) by ring, abs_neg, abs_mul]
    exact mul_le_mul hxabs hrho (abs_nonneg _) (by norm_num)
  have h8 : |q - v / adcStep| ≤ |q - x| + |x - v / adcStep| := by
    have := abs_add (q - x) (x - v / adcStep)
    rwa [show q - x + (x - v / adcStep) = q - v / adcStep by ring] at this
  have h9 : |x| / 2 ^ 53 ≤ 8388609 / 2 ^ 53 :=
    div_le_div_of_nonneg_right hxabs (by positivity)
  have h10 : (8388609 : ℚ) / 2 ^ 53 + 1 / 2 ^ 1075 + 8388609 * (1 / 2 ^ 53) ≤ 1 / 2 ^ 28 := by
    norm_num
  linarith

/-- The packet written by `convertSampleToPacket`, when the encoded channels are three
bytes each: the aux bytes 26..31 keep their initial value `0`. -/
theorem packet_of_bytes (start sn stop : Nat) (c : Nat → Buffer) (a : Nat → Buffer)
    (hc : ∀ i, ∃ x y z, c i = [x, y, z]) :
    ((List.range 3).foldl
        (fun (pb : Buffer) j => Buffer.copy (a j) pb ((OBCIPacketSize - 1 - 6) + 8 * 2))
        ((List.range 8).foldl (fun (pb : Buffer) i => Buffer.copy (c i) pb (2 + i * 3))
          (((List.replicate OBCIPacketSize 0).set 0 start).set 1 sn))).set
        (OBCIPacketSize - 1) stop
      = [start, sn] ++ c 0 ++ c 1 ++ c 2 ++ c 3 ++ c 4 ++ c 5 ++ c 6 ++ c 7
          ++ [0, 0, 0, 0, 0, 0, stop] := by
  obtain ⟨x0, y0, z0, h0⟩ := hc 0
  obtain ⟨x1, y1, z1, h1⟩ := hc 1
  obtain ⟨x2, y2, z2, h2⟩ := hc 2
  obtain ⟨x3, y3, z3, h3⟩ := hc 3
  obtain ⟨x4, y4, z4, h4⟩ := hc 4
  obtain ⟨x5, y5, z5, h5⟩ := hc 5
  obtain ⟨x6, y6, z6, h6⟩ := hc 6
  obtain ⟨x7, y7, z7, h7⟩ := hc 7
  have r8 : List.range 8 = [0, 1, 2, 3, 4, 5, 6, 7] := by decide
  have r3 : List.range 3 = [0, 1, 2] := by decide
  simp only [r8, r3, List.foldl_cons, List.foldl_nil, h0, h1, h2, h3, h4, h5, h6, h7,
    OBCIPacketSize]
  simp [Buffer.copy, List.replicate]

theorem convertSampleToPacket_eq (k : Constants) (sample : Sample) :
    convertSampleToPacket k sample
      = [k.OBCIByteStart % 256, (byteToInt sample.sampleNumber % 256).toNat]
          ++ floatTo3ByteBuffer (numberAt sample.channelData 0)
          ++ floatTo3ByteBuffer (numberAt sample.channelData 1)
          ++ floatTo3ByteBuffer (numberAt sample.channelData 2)
          ++ floatTo3ByteBuffer (numberAt sample.channelData 3)
          ++ floatTo3ByteBuffer (numberAt sample.channelData 4)
          ++ floatTo3ByteBuffer (numberAt sample.channelData 5)
          ++ floatTo3ByteBuffer (numberAt sample.channelData 6)
          ++ floatTo3ByteBuffer (numberAt sample.channelData 7)
          ++ [0, 0, 0, 0, 0, 0, k.OBCIByteStop % 256] := by
  unfold convertSampleToPacket
  simp only [OBCINumberOfChannelsDefault]
  exact packet_of_bytes _ _ _ (fun i => floatTo3ByteBuffer (numberAt sample.channelData i))
    (fun j => floatTo2ByteBuffer (numberAt sample.auxData j)) (fun i => ⟨_, _, _, rfl⟩)


/-- Layout of a packet assembled from a header, eight three-byte groups, six aux
bytes and a stop byte. -/
theorem packet_layout (start sn stop : Nat) (c : Nat → Buffer) (aux : Buffer)
    (hc : ∀ i, ∃ x y z, c i = [x, y, z]) (haux : aux.length = 6) (P : Buffer)
    (hP : P = [start, sn] ++ c 0 ++ c 1 ++ c 2 ++ c 3 ++ c 4 ++ c 5 ++ c 6 ++ c 7
          ++ aux ++ [stop]) :
    P.length = 33 ∧ P[0]? = some start ∧ P[1]? = some sn ∧ P[32]? = some stop
      ∧ (∀ i, i < 8 → P.slice (2 + 3 * i) (5 + 3 * i) = c i)
      ∧ P.slice 26 32 = aux := by
  obtain ⟨x0, y0, z0, h0⟩ := hc 0
  obtain ⟨x1, y1, z1, h1⟩ := hc 1
  obtain ⟨x2, y2, z2, h2⟩ := hc 2
  obtain ⟨x3, y3, z3, h3⟩ := hc 3
  obtain ⟨x4, y4, z4, h4⟩ := hc 4
  obtain ⟨x5, y5, z5, h5⟩ := hc 5
  obtain ⟨x6, y6, z6, h6⟩ := hc 6
  obtain ⟨x7, y7, z7, h7⟩ := hc 7
  obtain ⟨a0, a1, a2, a3, a4, a5, rfl⟩ : ∃ a0 a1 a2 a3 a4 a5, aux = [a0, a1, a2, a3, a4, a5] := by
    match aux, haux with
    | [a0, a1, a2, a3, a4, a5], _ => exact ⟨_, _, _, _, _, _, rfl⟩
  rw [h0, h1, h2, h3, h4, h5, h6, h7] at hP
  subst hP
  refine ⟨by simp, by simp, by simp, by simp, ?_, by simp [Buffer.slice]⟩
  intro i hi
  interval_cases i
  · rw [h0]; simp [Buffer.slice]
  · rw [h1]; simp [Buffer.slice]
  · rw [h2]; simp [Buffer.slice]
  · rw [h3]; simp [Buffer.slice]
  · rw [h4]; simp [Buffer.slice]
  · rw [h5]; simp [Buffer.slice]
  · rw [h6]; simp [Buffer.slice]
  · rw [h7]; simp [Buffer.slice]

theorem convertSampleToPacket_layout (k : Constants) (sample : Sample) :
    (convertSampleToPacket k sample).length = 33
      ∧ (convertSampleToPacket k sample)[0]? = some (k.OBCIByteStart % 256)
      ∧ (convertSampleToPacket k sample)[1]?
          = some (byteToInt sample.sampleNumber % 256).toNat
      ∧ (convertSampleToPacket k sample)[32]? = some (k.OBCIByteStop % 256)
      ∧ (∀ i, i < 8 → (convertSampleToPacket k sample).slice (2 + 3 * i) (5 + 3 * i)
          = floatTo3ByteBuffer (numberAt sample.channelData i))
      ∧ (convertSampleToPacket k sample).slice 26 32 = [0, 0, 0, 0, 0, 0] :=
  packet_layout _ _ _ (fun i => floatTo3ByteBuffer (numberAt sample.channelData i))
    [0, 0, 0, 0, 0, 0] (fun i => ⟨_, _, _, rfl⟩) rfl _
    (by rw [convertSampleToPacket_eq]; simp only [List.append_assoc, List.cons_append,
          List.nil_append])

theorem parseRawPacket_absent (k : Constants) (dataBuf : Option Buffer) :
    parseRawPacket k dataBuf .absent
      = parseRawPacket k dataBuf
          (.array ((List.replicate 8 (JSNum.fin 24)).map fun x => { gain := some (.num x) })) := by
  cases dataBuf <;> rfl

/-- Decoding a packet written by `convertSampleToPacket` with the default settings. -/
theorem parseRawPacket_convertSampleToPacket (k : Constants) (sample : Sample)
    (hstart : k.OBCIByteStart < 256)
    (hUser : k.OBCIByteStop % 16 ≠ k.OBCIPacketTypeUserDefined)
    (hTime : k.OBCIByteStop % 16 ≠ k.OBCIPacketTypeTimeSynced) :
    parseRawPacket k (some (convertSampleToPacket k sample)) .absent
      = .resolved (some
          { auxData := (List.range 3).map fun i =>
              JSNum.mul (.fin (interpret16bitAsInt32
                ((convertSampleToPacket k sample).slice (26 + i * 2) (26 + (i * 2 + 2)))))
                SCALE_FACTOR_ACCEL
            channelData := ((List.replicate 8 (JSNum.fin 24)).enumFrom 0).map fun ix =>
              channelValue ((convertSampleToPacket k sample).slice 2 26) ix.1
                { gain := some (.num ix.2) }
            sampleNumber := (convertSampleToPacket k sample)[1]?
            startByte := (convertSampleToPacket k sample)[0]?
            stopByte := (convertSampleToPacket k sample)[32]? }) := by
  obtain ⟨hlen, h0, _, h32, _, _⟩ := convertSampleToPacket_layout k sample
  rw [parseRawPacket_absent]
  apply parseRawPacket_num k _ _ hlen
  · rw [h0, Nat.mod_eq_of_lt hstart]
  · rw [h32, getRawPacketType_some]
    have : k.OBCIByteStop % 256 % 16 = k.OBCIByteStop % 16 := by omega
    rw [this]; exact_mod_cast hUser
  · rw [h32, getRawPacketType_some]
    have : k.OBCIByteStop % 256 % 16 = k.OBCIByteStop % 16 := by omega
    rw [this]; exact_mod_cast hTime

/-- The value decoded for channel `i` from the packet written by
`convertSampleToPacket`, with the default settings: the floor of the quotient computed
by `floatTo3ByteBuffer`, times the ADC step. -/
theorem roundtrip_channel (k : Constants) (sample : Sample) (i : Nat) (v q : ℚ)
    (hi : i < 8) (hiv : sample.channelData[i]? = some (JSNum.fin v))
    (hq : JSNum.fdiv (.fin v) adcStepDouble = .fin q)
    (hlo : -2 ^ 23 ≤ ⌊q⌋) (hhi : ⌊q⌋ ≤ 2 ^ 23 - 1) :
    ((((List.replicate 8 (JSNum.fin 24)).enumFrom 0).map fun ix =>
        channelValue ((convertSampleToPacket k sample).slice 2 26) ix.1
          { gain := some (.num ix.2) }))[i]?
      = some (JSNum.fin ((⌊q⌋ : ℚ) * adcStep)) := by
  obtain ⟨_, _, _, _, hsl, _⟩ := convertSampleToPacket_layout k sample
  generalize convertSampleToPacket k sample = P at hsl ⊢
  simp only [List.getElem?_map, List.getElem?_enumFrom, List.getElem?_replicate, hi,
    if_true, Option.map_some', Nat.zero_add]
  rw [channelValue_fin _ _ _ (by norm_num), Buffer.slice_slice _ _ _ _ _ (by omega)]
  have e1 : 2 + i * 3 = 2 + 3 * i := by omega
  have e2 : 2 + (i * 3 + 3) = 5 + 3 * i := by omega
  rw [e1, e2, hsl i hi]
  have hnum : numberAt sample.channelData i = .fin v := by
    unfold numberAt; rw [hiv]
  rw [hnum, interpret24_floatTo3ByteBuffer v q hq (by norm_num at hlo ⊢; exact hlo)
    (by norm_num at hhi ⊢; exact hhi)]
  have e : (⌊q⌋ : ℚ) * 4.5 / 24 / (2 ^ 23 - 1) = ⌊q⌋ * adcStep := by
    rw [adcStep_eq]; ring
  rw [e]

/-- C4 (counterexample): the sample `nearCodeSample` has sample number 7 and channel
voltages `v` with `floor(v / step)` in range (64 for the double
`1.4528633895949589e-06` on the first channel, 0 on the others), but the encoder's
quotient of doubles for the first channel is exactly 65, and the sample decoded from
the packet has the first channel at `65 * step`, above the original voltage. -/
theorem C4_counterexample :
    nearCodeSample.sampleNumber = some 7
    ∧ (∀ i, i < 8 → ∃ v, nearCodeSample.channelData[i]? = some (JSNum.fin v)
        ∧ JSNum.roundDouble v = .fin v
        ∧ -2 ^ 23 ≤ ⌊v / adcStep⌋ ∧ ⌊v / adcStep⌋ ≤ 2 ^ 23 - 1)
    ∧ nearCodeSample.channelData[0]? = some (JSNum.fin nearCode65)
    ∧ ⌊nearCode65 / adcStep⌋ = 64
    ∧ ∃ s : Sample,
        parseRawPacket kRef (some (convertSampleToPacket kRef nearCodeSample)) .absent
          = .resolved (some s)
        ∧ s.channelData[0]? = some (JSNum.fin (65 * adcStep))
        ∧ ¬ (65 * adcStep ≤ nearCode65) := by
  have hfl : ⌊nearCode65 / adcStep⌋ = 64 := by
    rw [Int.floor_eq_iff, adcStep_eq]; unfold nearCode65; norm_num
  have hfl0 : ⌊(0 : ℚ) / adcStep⌋ = 0 := by simp
  refine ⟨rfl, ?_, rfl, hfl, ?_⟩
  · intro i hi
    rcases Nat.eq_zero_or_pos i with h0 | h0
    · subst h0
      exact ⟨nearCode65, rfl, by decide!, by rw [hfl]; norm_num, by rw [hfl]; norm_num⟩
    · refine ⟨0, ?_, by decide!, by rw [hfl0]; norm_num, by rw [hfl0]; norm_num⟩
      have : nearCodeSample.channelData = .fin nearCode65 :: List.replicate 7 (.fin 0) := rfl
      rw [this]
      obtain ⟨j, rfl⟩ : ∃ j, i = j + 1 := ⟨i - 1, by omega⟩
      rw [List.getElem?_cons_succ, List.getElem?_replicate, if_pos (by omega)]
  · have hp := parseRawPacket_convertSampleToPacket kRef nearCodeSample (by decide)
      (by decide) (by decide)
    have hq : JSNum.fdiv (.fin nearCode65) adcStepDouble = .fin 65 := by decide!
    have hc := roundtrip_channel kRef nearCodeSample 0 nearCode65 65 (by decide) rfl hq
      (by norm_num) (by norm_num)
    refine ⟨_, hp, ?_, ?_⟩
    · rw [hc]; norm_num
    · rw [adcStep_eq]; unfold nearCode65; norm_num

/-- C4 (amended): for a sample with `sampleNumber` in `0..255` and 8 channel voltages
`v_i` for which the code `c_i = floor(q_i)` computed by the encoder, `q_i` being its
quotient of doubles `v_i / (4.5/24/(2^23 - 1))`, lies in `[-2^23, 2^23 - 1]`, parsing
the packet written by `convertSampleToPacket` with the default channel settings
resolves with a sample of the same `sampleNumber` whose channel voltages are
`d_i = c_i * step`, within one ADC code step of the originals up to a rounding
tolerance of `step / 2^26`: `v_i - step - step/2^26 < d_i ≤ v_i + step/2^26`. -/
theorem C4_roundtrip_channelData_tolerance (k : Constants) (sample : Sample) (n : Nat)
    (hstart : k.OBCIByteStart < 256)
    (hUser : k.OBCIByteStop % 16 ≠ k.OBCIPacketTypeUserDefined)
    (hTime : k.OBCIByteStop % 16 ≠ k.OBCIPacketTypeTimeSynced)
    (hn : sample.sampleNumber = some n) (hn256 : n < 256)
    (hv : ∀ i, i < 8 → ∃ v q, sample.channelData[i]? = some (JSNum.fin v)
      ∧ JSNum.fdiv (.fin v) adcStepDouble = .fin q
      ∧ -2 ^ 23 ≤ ⌊q⌋ ∧ ⌊q⌋ ≤ 2 ^ 23 - 1) :
    ∃ s : Sample,
      parseRawPacket k (some (convertSampleToPacket k sample)) .absent = .resolved (some s)
      ∧ s.sampleNumber = some n
      ∧ s.channelData.length = 8
      ∧ ∀ i v q, i < 8 → sample.channelData[i]? = some (JSNum.fin v) →
          JSNum.fdiv (.fin v) adcStepDouble = .fin q →
          ∃ d, s.channelData[i]? = some (JSNum.fin d) ∧ d = ⌊q⌋ * adcStep
            ∧ v - adcStep - adcStep / 2 ^ 26 < d ∧ d ≤ v + adcStep / 2 ^ 26 := by
  obtain ⟨_, _, h1, _, _, _⟩ := convertSampleToPacket_layout k sample
  have hp := parseRawPacket_convertSampleToPacket k sample hstart hUser hTime
  have hsn : (byteToInt sample.sampleNumber % 256).toNat = n := by
    rw [hn]; simp only [byteToInt, Int.ofNat_eq_coe]; omega
  rw [hsn] at h1
  refine ⟨_, hp, h1, ?_, ?_⟩
  · simp only [List.length_map, List.enumFrom_length, List.length_replicate]
  · intro i v q hi hiv hq
    obtain ⟨v', q', hv', hq', hlo, hhi⟩ := hv i hi
    rw [hiv] at hv'
    have hvv : v = v' := JSNum.fin.inj (Option.some.inj hv')
    rw [← hvv, hq] at hq'
    have hqq : q = q' := JSNum.fin.inj hq'
    rw [← hqq] at hlo hhi
    clear hv' hvv hq' hqq v' q'
    refine ⟨(⌊q⌋ : ℚ) * adcStep, roundtrip_channel k sample i v q hi hiv hq hlo hhi, rfl,
      ?_, ?_⟩
    · have herr := encoder_quotient_error v q hq (by norm_num at hlo ⊢; exact hlo)
        (by norm_num at hhi ⊢; exact hhi)
      have h := Int.lt_floor_add_one q
      have h2 := (abs_le.mp herr).1
      have h3 : v / adcStep - 1 - 1 / 2 ^ 26 < (⌊q⌋ : ℚ) := by
        have : (1 : ℚ) / 2 ^ 28 < 1 / 2 ^ 26 := by norm_num
        linarith
      have h4 := mul_lt_mul_of_pos_right h3 adcStep_pos
      have hne : adcStep ≠ 0 := ne_of_gt adcStep_pos
      have h5 : (v / adcStep - 1 - 1 / 2 ^ 26) * adcStep
          = v - adcStep - adcStep / 2 ^ 26 := by
        field_simp
        ring
      rw [h5] at h4
      exact h4
    · have herr := encoder_quotient_error v q hq (by norm_num at hlo ⊢; exact hlo)
        (by norm_num at hhi ⊢; exact hhi)
      have h := Int.floor_le q
      have h2 := (abs_le.mp herr).2
      have h3 : (⌊q⌋ : ℚ) ≤ v / adcStep + 1 / 2 ^ 26 := by
        have : (1 : ℚ) / 2 ^ 28 < 1 / 2 ^ 26 := by norm_num
        linarith
      have h4 := mul_le_mul_of_nonneg_right h3 (le_of_lt adcStep_pos)
      have hne : adcStep ≠ 0 := ne_of_gt adcStep_pos
      have h5 : (v / adcStep + 1 / 2 ^ 26) * adcStep = v + adcStep / 2 ^ 26 := by
        field_simp
        ring
      rw [h5] at h4
      exact h4

/-- C4 (amended) at the sample with sample number 7 and `0.1` volts (the double
nearest to it) on all 8 channels: code 4473923 on every channel. -/
theorem C4_roundtrip_channelData_tolerance_witness :
    ∃ s : Sample,
      parseRawPacket kRef (some (convertSampleToPacket kRef
          { startByte := some 0xA0, sampleNumber := some 7,
            channelData := List.replicate 8 (JSNum.roundDouble 0.1),
            auxData := [.fin 0, .fin 0, .fin 0],
            stopByte := some 0xC0 })) .absent = .resolved (some s)
      ∧ s.sampleNumber = some 7
      ∧ s.channelData.length = 8
      ∧ s.channelData[3]? = some (JSNum.fin (4473923 * adcStep)) := by
  have hd : JSNum.roundDouble 0.1 = .fin (3602879701896397 / 2 ^ 55) := by decide!
  have hq : JSNum.fdiv (.fin (3602879701896397 / 2 ^ 55)) adcStepDouble
      = .fin (4803839029866223 / 2 ^ 30) := by decide!
  have hfl : ⌊(4803839029866223 / 2 ^ 30 : ℚ)⌋ = 4473923 := by
    rw [Int.floor_eq_iff]; norm_num
  rw [hd]
  obtain ⟨s, h1, h2, h3, h4⟩ := C4_roundtrip_channelData_tolerance kRef
    { startByte := some 0xA0, sampleNumber := some 7,
      channelData := List.replicate 8 (.fin (3602879701896397 / 2 ^ 55)),
      auxData := [.fin 0, .fin 0, .fin 0],
      stopByte := some 0xC0 } 7 (by decide) (by decide) (by decide) rfl (by decide)
    (by
      intro i hi
      refine ⟨3602879701896397 / 2 ^ 55, 4803839029866223 / 2 ^ 30, ?_, hq, ?_, ?_⟩
      · simp only [List.getElem?_replicate, hi, if_true]
      · rw [hfl]; norm_num
      · rw [hfl]; norm_num)
  obtain ⟨d, hd1, hd2, _, _⟩ := h4 3 _ _ (by decide)
    (by simp only [List.getElem?_replicate]; rfl) hq
  refine ⟨s, h1, h2, h3, ?_⟩
  rw [hd1, hd2, hfl]
  norm_num

theorem interpret16_zero : interpret16bitAsInt32 [0, 0] = 0 := by decide

/-- The aux values decoded from a packet written by `convertSampleToPacket` are all
zero, whatever the aux values of the sample. -/
theorem roundtrip_auxData (k : Constants) (sample : Sample)
    (hstart : k.OBCIByteStart < 256)
    (hUser : k.OBCIByteStop % 16 ≠ k.OBCIPacketTypeUserDefined)
    (hTime : k.OBCIByteStop % 16 ≠ k.OBCIPacketTypeTimeSynced) :
    ∃ s : Sample,
      parseRawPacket k (some (convertSampleToPacket k sample)) .absent = .resolved (some s)
      ∧ s.auxData = [.fin 0, .fin 0, .fin 0] := by
  obtain ⟨_, _, _, _, _, haux⟩ := convertSampleToPacket_layout k sample
  have hp := parseRawPacket_convertSampleToPacket k sample hstart hUser hTime
  generalize convertSampleToPacket k sample = P at hp haux ⊢
  refine ⟨_, hp, ?_⟩
  have hs : ∀ i, i < 3 → P.slice (26 + i * 2) (26 + (i * 2 + 2)) = [0, 0] := by
    intro i hi
    rw [← Buffer.slice_slice P 26 32 _ _ (by omega), haux]
    interval_cases i <;> rfl
  have r3 : List.range 3 = [0, 1, 2] := by decide
  simp only [r3, List.map_cons, List.map_nil]
  rw [hs 0 (by omega), hs 1 (by omega), hs 2 (by omega), interpret16_zero,
    SCALE_FACTOR_ACCEL_eq]
  simp [JSNum.mul]

/-- C5 (evaluation at the failing input): the sample `auxSample` has first aux value
`0.0125`, whose code `floor(0.0125 / s) = 100` is in range for `s = 0.002/2^4`, but
the sample decoded from its packet has aux values `0, 0, 0`, and `0.0125 - s < 0` is
false. -/
theorem C5_auxData_lost :
    auxSample.auxData[0]? = some (JSNum.fin 0.0125)
    ∧ ⌊(0.0125 : ℚ) / (0.002 / 2 ^ 4)⌋ = 100
    ∧ (∃ s : Sample,
        parseRawPacket kRef (some (convertSampleToPacket kRef auxSample)) .absent
          = .resolved (some s)
        ∧ s.auxData = [.fin 0, .fin 0, .fin 0])
    ∧ ¬ ((0.0125 : ℚ) - 0.002 / 2 ^ 4 < 0) := by
  refine ⟨rfl, ?_, roundtrip_auxData kRef auxSample (by decide) (by decide) (by decide), ?_⟩
  · rw [Int.floor_eq_iff]; norm_num
  · norm_num


theorem Promise.settle_of_rejected {α : Type} (p t : Promise α) (h : ∃ e, p = .rejected e) :
    ∃ e, p.settle t = .rejected e := by
  obtain ⟨e, rfl⟩ := h
  exact ⟨e, rfl⟩

/-- Once the start-byte check has rejected, no later step changes the promise. -/
theorem parseRawPacket_rejected_of_start (k : Constants) (buf : Buffer) (cs : SettingsArg)
    (h : buf[0]? ≠ some k.OBCIByteStart) :
    ∃ e, parseRawPacket k (some buf) cs = .rejected e := by
  have hp1 : ∃ e, (match buf[0]? with
      | none => (Promise.rejected Err.typeError : Promise (Option Sample))
      | some b => if b ≠ k.OBCIByteStart then Promise.rejected (Err.invalidStartByte b)
          else Promise.pending) = .rejected e := by
    cases hb : buf[0]? with
    | none => exact ⟨_, rfl⟩
    | some b =>
      have hne : b ≠ k.OBCIByteStart := by
        intro hb'; apply h; rw [hb, hb']
      exact ⟨_, if_pos hne⟩
  unfold parseRawPacket
  simp only
  split
  · exact Promise.settle_of_rejected _ _ hp1
  · split
    · exact hp1
    · split
      · exact Promise.settle_of_rejected _ _ hp1
      · exact Promise.settle_of_rejected _ _ hp1
      · exact hp1

/-- C6: a buffer whose first byte is not the start marker (or that has no first
byte) is rejected, whatever its length, its stop byte and the channel settings; in
particular the promise is never resolved. -/
theorem C6_bad_start_byte_rejects (k : Constants) (buf : Buffer) (cs : SettingsArg)
    (h : buf[0]? ≠ some k.OBCIByteStart) :
    (∃ e, parseRawPacket k (some buf) cs = .rejected e)
      ∧ ∀ r, parseRawPacket k (some buf) cs ≠ .resolved r := by
  obtain ⟨e, he⟩ := parseRawPacket_rejected_of_start k buf cs h
  refine ⟨⟨e, he⟩, ?_⟩
  intro r hr
  rw [he] at hr
  exact Promise.noConfusion hr


/-- C6 at the all-zero 33-byte buffer. -/
theorem C6_bad_start_byte_rejects_witness :
    (List.replicate 33 0)[0]? ≠ some kRef.OBCIByteStart
      ∧ (∃ e, parseRawPacket kRef (some (List.replicate 33 0)) .absent = .rejected e)
      ∧ ∀ r, parseRawPacket kRef (some (List.replicate 33 0)) .absent ≠ .resolved r :=
  ⟨by decide, C6_bad_start_byte_rejects kRef (List.replicate 33 0) .absent (by decide)⟩

/-- C7 (counterexample): a 34-byte buffer whose first byte is the start marker and
whose byte 32 carries the UserDefined type is not rejected: the promise resolves
with no value. -/
theorem C7_counterexample :
    ¬ ∀ (k : Constants) (buf : Buffer) (cs : SettingsArg),
        buf.length ≠ 33 → buf[0]? = some k.OBCIByteStart →
        ∃ e, parseRawPacket k (some buf) cs = .rejected e := by
  intro h
  obtain ⟨e, he⟩ := h kRef longUserDefinedBuf .absent (by decide) (by decide)
  have hr : parseRawPacket kRef (some longUserDefinedBuf) .absent = .resolved none := by
    decide
  rw [hr] at he
  exact Promise.noConfusion he

theorem parsePacketStandard_rejected_of_length (buf : Buffer)
    (cs : Option (List ChannelSettings)) (hlen : buf.length ≠ 33) :
    parsePacketStandard buf cs = .rejected .bufferSize := by
  unfold parsePacketStandard getAccelDataArray
  simp only [OBCIPacketSize, hlen, ne_eq, not_false_eq_true, if_true]
  split <;> rfl

/-- C7 (amended): a buffer whose length is not 33 and whose packet type (the low
nibble of byte 32, taken as 0 when the buffer has no byte 32) is neither UserDefined
nor TimeSynced is rejected, whatever its first byte and the channel settings. -/
theorem C7_wrong_length_standard_rejects (k : Constants) (buf : Buffer) (cs : SettingsArg)
    (hlen : buf.length ≠ 33)
    (hUser : getRawPacketType buf[32]? ≠ k.OBCIPacketTypeUserDefined)
    (hTime : getRawPacketType buf[32]? ≠ k.OBCIPacketTypeTimeSynced) :
    ∃ e, parseRawPacket k (some buf) cs = .rejected e := by
  unfold parseRawPacket
  simp only [OBCIPacketPositionStopByte, hUser, hTime, if_false,
    parsePacketStandard_rejected_of_length _ _ hlen]
  cases buf[0]? with
  | none => exact ⟨_, rfl⟩
  | some b =>
    simp only
    split
    · exact ⟨_, rfl⟩
    · exact ⟨_, rfl⟩

/-- C7 (amended) at a 32-byte buffer. -/
theorem C7_wrong_length_standard_rejects_witness :
    (List.replicate 32 0xA0).length ≠ 33
      ∧ getRawPacketType (List.replicate 32 0xA0)[32]? ≠ kRef.OBCIPacketTypeUserDefined
      ∧ getRawPacketType (List.replicate 32 0xA0)[32]? ≠ kRef.OBCIPacketTypeTimeSynced
      ∧ ∃ e, parseRawPacket kRef (some (List.replicate 32 0xA0)) .absent = .rejected e :=
  ⟨by decide, by decide, by decide,
    C7_wrong_length_standard_rejects kRef (List.replicate 32 0xA0) .absent
      (by decide) (by decide) (by decide)⟩

theorem channelStep_fst_cases (dataBuf : Buffer) (p : Promise (List JSNum))
    (acc : List JSNum) (index : Nat) (o : ChannelSettings) (hp : ∀ v, p ≠ .resolved v) :
    (∀ v, (channelStep dataBuf (p, acc) index o).1 ≠ .resolved v)
      ∧ ((p.IsRejected ∨ isNumber o.gain = false) →
          (channelStep dataBuf (p, acc) index o).1.IsRejected) := by
  cases p with
  | resolved v => exact absurd rfl (hp v)
  | pending =>
    rcases o with ⟨_ | ⟨x⟩ | ⟨x⟩⟩
    · refine ⟨fun v h => ?_, fun _ => ⟨.invalidSettingsObject index, rfl⟩⟩
      exact Promise.noConfusion h
    · refine ⟨fun v h => ?_, fun h => ?_⟩
      · exact Promise.noConfusion h
      · rcases h with ⟨e, he⟩ | h
        · exact Promise.noConfusion he
        · exact absurd h (by simp [isNumber])
    · refine ⟨fun v h => ?_, fun _ => ⟨.gainNotNumber, rfl⟩⟩
      exact Promise.noConfusion h
  | rejected e =>
    have h : (channelStep dataBuf (.rejected e, acc) index o).1 = .rejected e := by
      rcases o with ⟨_ | ⟨x⟩ | ⟨x⟩⟩ <;> rfl
    rw [h]
    exact ⟨fun v h => Promise.noConfusion h, fun _ => ⟨e, rfl⟩⟩

/-- A settings object whose gain is absent or not a number makes the loop of
`getChannelDataArray` reject, and nothing later undoes it. -/
theorem channelLoop_rejected (dataBuf : Buffer) (l : List ChannelSettings) :
    ∀ (index : Nat) (p : Promise (List JSNum)) (acc : List JSNum),
      (∀ v, p ≠ .resolved v) →
      (p.IsRejected ∨ ∃ o ∈ l, isNumber o.gain = false) →
      (channelLoop dataBuf l index (p, acc)).1.IsRejected := by
  induction l with
  | nil =>
    intro index p acc _ h
    rcases h with h | ⟨o, ho, _⟩
    · exact h
    · exact absurd ho (List.not_mem_nil o)
  | cons o rest ih =>
    intro index p acc hp h
    obtain ⟨h1, h2⟩ := channelStep_fst_cases dataBuf p acc index o hp
    have hst : channelStep dataBuf (p, acc) index o
        = ((channelStep dataBuf (p, acc) index o).1, (channelStep dataBuf (p, acc) index o).2) :=
      rfl
    unfold channelLoop
    rw [hst]
    apply ih _ _ _ h1
    rcases h with h | ⟨o', ho', hn⟩
    · exact Or.inl (h2 (Or.inl h))
    · rcases List.mem_cons.mp ho' with rfl | hr
      · exact Or.inl (h2 (Or.inr hn))
      · exact Or.inr ⟨o', hr, hn⟩

theorem getChannelDataArray_rejected (dataBuf : Buffer) (l : List ChannelSettings)
    (h : ∃ o ∈ l, isNumber o.gain = false) :
    ∃ e, getChannelDataArray dataBuf (some l) = .rejected e := by
  obtain ⟨e, he⟩ := channelLoop_rejected dataBuf l 0 .pending []
    (fun v hv => Promise.noConfusion hv) (Or.inr h)
  exact ⟨e, by simp only [getChannelDataArray, he, Promise.settle]⟩

/-- A well-framed standard packet parsed with a settings array that holds a gain
that is absent or not a number: the rejection of `getChannelDataArray` is only
logged, and the promise of `parseRawPacket` stays pending. -/
theorem parseRawPacket_pending_of_non_numeric (k : Constants) (buf : Buffer)
    (l : List ChannelSettings) (stop : Nat)
    (hlen : buf.length = 33) (hstart : buf[0]? = some k.OBCIByteStart)
    (hstop : buf[32]? = some stop)
    (hUser : stop % 16 ≠ k.OBCIPacketTypeUserDefined)
    (hTime : stop % 16 ≠ k.OBCIPacketTypeTimeSynced)
    (hbad : ∃ o ∈ l, isNumber o.gain = false) :
    parseRawPacket k (some buf) (.array l) = .pending := by
  have hU : getRawPacketType buf[32]? ≠ k.OBCIPacketTypeUserDefined := by
    rw [hstop, getRawPacketType_some]; exact_mod_cast hUser
  have hT : getRawPacketType buf[32]? ≠ k.OBCIPacketTypeTimeSynced := by
    rw [hstop, getRawPacketType_some]; exact_mod_cast hTime
  have hps : parsePacketStandard buf (some l) = .pending := by
    obtain ⟨e, he⟩ := getChannelDataArray_rejected
      (buf.slice OBCIPacketPositionChannelDataStart (OBCIPacketPositionChannelDataStop + 1)) l hbad
    unfold parsePacketStandard getAccelDataArray
    simp only [he, OBCIPacketSize, hlen, ne_eq, not_true_eq_false, if_false]
  unfold parseRawPacket
  simp only [OBCIPacketPositionStopByte, hU, hT, hstart, hps, if_false, ne_eq,
    not_true_eq_false]

/-- C8 (counterexample): the well-framed standard packet `stdPacket` parsed with gain
`-24` on all 8 channels resolves with a sample whose first channel is `-0.1875`, and
parsed with gain `0` on all 8 channels resolves with a sample whose first channel is
`Infinity`: neither call is rejected. -/
theorem C8_counterexample :
    (∃ s : Sample,
      parseRawPacket kRef (some stdPacket) (.array (List.replicate 8 (gainObject (-24))))
        = .resolved (some s)
      ∧ s.channelData[0]? = some (JSNum.fin (-0.1875)))
    ∧ (∃ s : Sample,
      parseRawPacket kRef (some stdPacket) (.array (List.replicate 8 (gainObject 0)))
        = .resolved (some s)
      ∧ s.channelData[0]? = some (JSNum.inf false)) := by
  have hv : interpret24bitAsInt32 ((stdPacket.slice 2 26).slice (0 * 3) (0 * 3 + 3)) = 8388607 := by
    decide
  constructor
  · refine ⟨_, parseRawPacket_num kRef stdPacket (List.replicate 8 (.fin (-24)))
      (by decide) (by decide) (by decide) (by decide), ?_⟩
    simp only [List.replicate, List.enumFrom_cons, List.map_cons, List.getElem?_cons_zero]
    rw [channelValue_fin _ _ _ (by norm_num), hv]
    norm_num
  · refine ⟨_, parseRawPacket_num kRef stdPacket (List.replicate 8 (.fin 0))
      (by decide) (by decide) (by decide) (by decide), ?_⟩
    simp only [List.replicate, List.enumFrom_cons, List.map_cons, List.getElem?_cons_zero]
    unfold channelValue ChannelSettings.gainNumber ADS1299_VREF
    simp only [hv]
    simp [JSNum.div, JSNum.mul]
    norm_num

/-- A settings array in which every gain is a number is the image of the list of
its gains. -/
theorem settings_eq_map_of_isNumber (l : List ChannelSettings)
    (h : ∀ o ∈ l, isNumber o.gain = true) :
    l = (l.map ChannelSettings.gainNumber).map fun x => { gain := some (.num x) } := by
  induction l with
  | nil => rfl
  | cons o rest ih =>
    have ho : o = { gain := some (.num o.gainNumber) } := by
      have hn := h o (List.mem_cons_self o rest)
      rcases o with ⟨_ | ⟨x⟩ | ⟨x⟩⟩
      · exact absurd hn (by simp [isNumber])
      · rfl
      · exact absurd hn (by simp [isNumber])
    have hr := ih (fun o' ho' => h o' (List.mem_cons_of_mem o ho'))
    simp only [List.map_cons]
    rw [← hr, ← ho]

/-- C8 (amended): for a well-framed 33-byte standard packet and a settings array whose
gains are all numbers, `parseRawPacket` does not fail on a zero or negative gain: the
gains are not checked further and the promise resolves with a complete sample, with
three aux values and one channel value per settings entry, the value of a channel with
the non-zero gain `g` being `code * 4.5 / g / (2^23 - 1)` for the code in the channel's
three payload bytes, also when `g` is negative. -/
theorem C8_numeric_gains_not_checked (k : Constants) (buf : Buffer)
    (l : List ChannelSettings) (stop : Nat)
    (hlen : buf.length = 33) (hstart : buf[0]? = some k.OBCIByteStart)
    (hstop : buf[32]? = some stop)
    (hUser : stop % 16 ≠ k.OBCIPacketTypeUserDefined)
    (hTime : stop % 16 ≠ k.OBCIPacketTypeTimeSynced)
    (hnum : ∀ o ∈ l, isNumber o.gain = true) :
    ∃ s : Sample, parseRawPacket k (some buf) (.array l) = .resolved (some s)
      ∧ s.channelData.length = l.length
      ∧ s.auxData.length = 3
      ∧ ∀ i g, l[i]? = some (gainObject g) → g ≠ 0 →
          s.channelData[i]? = some (JSNum.fin
            ((interpret24bitAsInt32 ((buf.slice 2 26).slice (i * 3) (i * 3 + 3)) : ℚ)
              * 4.5 / g / (2 ^ 23 - 1))) := by
  have hU : getRawPacketType buf[32]? ≠ k.OBCIPacketTypeUserDefined := by
    rw [hstop, getRawPacketType_some]; exact_mod_cast hUser
  have hT : getRawPacketType buf[32]? ≠ k.OBCIPacketTypeTimeSynced := by
    rw [hstop, getRawPacketType_some]; exact_mod_cast hTime
  have hp := parseRawPacket_num k buf (l.map ChannelSettings.gainNumber) hlen hstart hU hT
  rw [← settings_eq_map_of_isNumber l hnum] at hp
  refine ⟨_, hp, by simp only [List.length_map, List.enumFrom_length],
    by simp only [List.length_map, List.length_range], ?_⟩
  intro i g hig hg
  simp only [List.getElem?_map, List.getElem?_enumFrom, hig, Option.map_some', Nat.zero_add]
  have hgn : (gainObject g).gainNumber = JSNum.fin g := rfl
  rw [hgn, channelValue_fin _ _ _ hg]

/-- C8 (amended) at `stdPacket` with gain `-24` on all 8 channels: a sample of eight
channel values, the first one `-0.1875`. -/
theorem C8_numeric_gains_not_checked_witness :
    ∃ s : Sample,
      parseRawPacket kRef (some stdPacket) (.array (List.replicate 8 (gainObject (-24))))
        = .resolved (some s)
      ∧ s.channelData.length = 8
      ∧ s.auxData.length = 3
      ∧ s.channelData[0]? = some (JSNum.fin (-0.1875)) := by
  obtain ⟨s, h1, h2, h3, h4⟩ := C8_numeric_gains_not_checked kRef stdPacket
    (List.replicate 8 (gainObject (-24))) 0xC0 (by decide) (by decide) (by decide)
    (by decide) (by decide)
    (by
      intro o ho
      rw [List.eq_of_mem_replicate ho]
      rfl)
  have hv : interpret24bitAsInt32 ((stdPacket.slice 2 26).slice (0 * 3) (0 * 3 + 3)) = 8388607 := by
    decide
  refine ⟨s, h1, by rw [h2]; rfl, h3, ?_⟩
  rw [h4 0 (-24) rfl (by norm_num), hv]
  norm_num

/-- C9: a buffer whose first byte is the start marker and whose stop byte has the
UserDefined type in its low 4 bits resolves with no value (`undefined`): it is not
rejected and no sample is produced. -/
theorem C9_userDefined_resolves_empty (k : Constants) (buf : Buffer) (cs : SettingsArg)
    (stop : Nat) (hstart : buf[0]? = some k.OBCIByteStart) (hstop : buf[32]? = some stop)
    (htype : stop % 16 = k.OBCIPacketTypeUserDefined) :
    parseRawPacket k (some buf) cs = .resolved none := by
  have hU : getRawPacketType buf[32]? = k.OBCIPacketTypeUserDefined := by
    rw [hstop, getRawPacketType_some, htype]
  unfold parseRawPacket
  simp only [OBCIPacketPositionStopByte, hU, hstart, if_true, ne_eq, not_true_eq_false,
    if_false, Promise.settle]

/-- C9 at a 34-byte buffer with stop byte `C2`. -/
theorem C9_userDefined_resolves_empty_witness :
    longUserDefinedBuf[0]? = some kRef.OBCIByteStart
      ∧ longUserDefinedBuf[32]? = some 0xC2
      ∧ 0xC2 % 16 = kRef.OBCIPacketTypeUserDefined
      ∧ parseRawPacket kRef (some longUserDefinedBuf) .notArray = .resolved none :=
  ⟨by decide, by decide, by decide,
    C9_userDefined_resolves_empty kRef longUserDefinedBuf .notArray 0xC2
      (by decide) (by decide) (by decide)⟩

/-- C10: a buffer whose first byte is the start marker and whose stop byte has the
TimeSynced type in its low 4 bits leaves the promise pending: it is neither resolved
nor rejected. The two special type codes are distinct. -/
theorem C10_timeSynced_pending (k : Constants) (buf : Buffer) (cs : SettingsArg)
    (stop : Nat) (hstart : buf[0]? = some k.OBCIByteStart) (hstop : buf[32]? = some stop)
    (htype : stop % 16 = k.OBCIPacketTypeTimeSynced)
    (hdistinct : k.OBCIPacketTypeTimeSynced ≠ k.OBCIPacketTypeUserDefined) :
    parseRawPacket k (some buf) cs = .pending
      ∧ (∀ r, parseRawPacket k (some buf) cs ≠ .resolved r)
      ∧ (∀ e, parseRawPacket k (some buf) cs ≠ .rejected e) := by
  have hT : getRawPacketType buf[32]? = k.OBCIPacketTypeTimeSynced := by
    rw [hstop, getRawPacketType_some, htype]
  have hne : (k.OBCIPacketTypeTimeSynced : Int) ≠ k.OBCIPacketTypeUserDefined := by
    exact_mod_cast hdistinct
  have hp : parseRawPacket k (some buf) cs = .pending := by
    unfold parseRawPacket
    simp only [OBCIPacketPositionStopByte, hT, hstart, hne, if_true, ne_eq, not_true_eq_false,
      if_false]
  rw [hp]
  exact ⟨rfl, fun r h => Promise.noConfusion h, fun e h => Promise.noConfusion h⟩

/-- C10 at a 33-byte buffer with stop byte `C1`. -/
theorem C10_timeSynced_pending_witness :
    (List.replicate 32 0xA0 ++ [0xC1])[0]? = some kRef.OBCIByteStart
      ∧ (List.replicate 32 0xA0 ++ [0xC1])[32]? = some 0xC1
      ∧ 0xC1 % 16 = kRef.OBCIPacketTypeTimeSynced
      ∧ kRef.OBCIPacketTypeTimeSynced ≠ kRef.OBCIPacketTypeUserDefined
      ∧ parseRawPacket kRef (some (List.replicate 32 0xA0 ++ [0xC1])) .absent = .pending :=
  ⟨by decide, by decide, by decide, by decide,
    (C10_timeSynced_pending kRef (List.replicate 32 0xA0 ++ [0xC1]) .absent 0xC1
      (by decide) (by decide) (by decide) (by decide)).1⟩

/-! ## Encoder claims -/

/-- C11 (counterexample): for the double `v = 1.4528633895949589e-06` the floor of
`v / step`, `step = 4.5/24/(2^23 - 1)`, is 64, in range, but the quotient of doubles
computed by `floatTo3ByteBuffer` is exactly 65 and decoding the bytes it writes gives
65. -/
theorem C11_counterexample :
    JSNum.roundDouble nearCode65 = .fin nearCode65
    ∧ ⌊nearCode65 / adcStep⌋ = 64
    ∧ floatTo3ByteBuffer (.fin nearCode65) = [0x00, 0x00, 0x41]
    ∧ interpret24bitAsInt32 (floatTo3ByteBuffer (.fin nearCode65)) = 65 := by
  have hq : JSNum.fdiv (.fin nearCode65) adcStepDouble = .fin 65 := by decide!
  refine ⟨by decide!, ?_, ?_, ?_⟩
  · rw [Int.floor_eq_iff, adcStep_eq]; unfold nearCode65; norm_num
  · rw [floatTo3ByteBuffer_fin _ _ hq]
    simp only [Int.floor_ofNat]
    decide
  · rw [interpret24_floatTo3ByteBuffer _ _ hq (by norm_num) (by norm_num)]
    norm_num

/-- C11 (amended): for every value `v` for which the quotient `q` of doubles computed
by `floatTo3ByteBuffer(v)`, `v / (4.5/24/(2^23 - 1))`, has its floor in
`[-2^23, 2^23 - 1]`, decoding the bytes written gives `floor(q)`: the encoder
truncates the computed quotient toward negative infinity (it never rounds it to
nearest), also for negative `v`; `floor(q)` differs from `floor(v / step)` by at most
one. -/
theorem C11_floatTo3ByteBuffer_floor_of_quotient (v q : ℚ)
    (hq : JSNum.fdiv (.fin v) adcStepDouble = .fin q)
    (hlo : -2 ^ 23 ≤ ⌊q⌋) (hhi : ⌊q⌋ ≤ 2 ^ 23 - 1) :
    interpret24bitAsInt32 (floatTo3ByteBuffer (.fin v)) = ⌊q⌋
      ∧ (interpret24bitAsInt32 (floatTo3ByteBuffer (.fin v)) : ℚ) ≤ q
      ∧ q < (interpret24bitAsInt32 (floatTo3ByteBuffer (.fin v)) : ℚ) + 1
      ∧ ⌊v / adcStep⌋ - 1 ≤ interpret24bitAsInt32 (floatTo3ByteBuffer (.fin v))
      ∧ interpret24bitAsInt32 (floatTo3ByteBuffer (.fin v)) ≤ ⌊v / adcStep⌋ + 1 := by
  have hlo' : -8388608 ≤ ⌊q⌋ := by norm_num at hlo ⊢; exact hlo
  have hhi' : ⌊q⌋ ≤ 8388607 := by norm_num at hhi ⊢; exact hhi
  have h := interpret24_floatTo3ByteBuffer v q hq hlo' hhi'
  have herr := abs_le.mp (encoder_quotient_error v q hq hlo' hhi')
  have hsmall : (1 : ℚ) / 2 ^ 28 < 1 := by norm_num
  rw [h]
  refine ⟨rfl, Int.floor_le q, Int.lt_floor_add_one q, ?_, ?_⟩
  · have h1 : ⌊v / adcStep⌋ - 1 < ⌊q⌋ + 1 := by
      have a := Int.floor_le (v / adcStep)
      have b := Int.lt_floor_add_one q
      have : ((⌊v / adcStep⌋ - 1 : Int) : ℚ) < ((⌊q⌋ + 1 : Int) : ℚ) := by
        push_cast; linarith [herr.1]
      exact_mod_cast this
    omega
  · have h1 : ⌊q⌋ < ⌊v / adcStep⌋ + 1 + 1 := by
      have a := Int.floor_le q
      have b := Int.lt_floor_add_one (v / adcStep)
      have : ((⌊q⌋ : Int) : ℚ) < ((⌊v / adcStep⌋ + 1 + 1 : Int) : ℚ) := by
        push_cast; linarith [herr.2]
      exact_mod_cast this
    omega

/-- C11 (amended) at `v = -2^-24`, whose quotient of doubles is about `-2.67` (code
`-3`, not `-2`), and at `v = 1.4528633895949589e-06`, whose quotient of doubles is
`65`. -/
theorem C11_floatTo3ByteBuffer_floor_of_quotient_witness :
    interpret24bitAsInt32 (floatTo3ByteBuffer (.fin (-1 / 2 ^ 24))) = -3
      ∧ interpret24bitAsInt32 (floatTo3ByteBuffer (.fin nearCode65)) = 65 := by
  have hq1 : JSNum.fdiv (.fin (-1 / 2 ^ 24)) adcStepDouble
      = .fin (-6004798787332779 / 2 ^ 51) := by decide!
  have hq2 : JSNum.fdiv (.fin nearCode65) adcStepDouble = .fin 65 := by decide!
  have f1 : ⌊(-6004798787332779 / 2 ^ 51 : ℚ)⌋ = -3 := by
    rw [Int.floor_eq_iff]; norm_num
  have f2 : ⌊(65 : ℚ)⌋ = 65 := Int.floor_ofNat 65
  have h1 := (C11_floatTo3ByteBuffer_floor_of_quotient (-1 / 2 ^ 24)
    (-6004798787332779 / 2 ^ 51) hq1 (by rw [f1]; norm_num) (by rw [f1]; norm_num)).1
  have h2 := (C11_floatTo3ByteBuffer_floor_of_quotient nearCode65 65 hq2
    (by rw [f2]; norm_num) (by rw [f2]; norm_num)).1
  rw [f1] at h1
  rw [f2] at h2
  exact ⟨h1, h2⟩

/-- C12 (evaluation at the failing input): the bytes `00 00 2B` decode to the code 43;
the product of doubles `43 * (4.5/24/(2^23 - 1))` is `4538784540524608 / 2^72`, its
quotient of doubles by the same divisor is below 43, and `floatTo3ByteBuffer` of the
product writes `00 00 2A`. -/
theorem C12_floatTo3ByteBuffer_not_inverse :
    interpret24bitAsInt32 [0x00, 0x00, 0x2B] = 43
    ∧ JSNum.fmul (.fin 43) adcStepDouble = .fin (4538784540524608 / 2 ^ 72)
    ∧ JSNum.fdiv (.fin (4538784540524608 / 2 ^ 72)) adcStepDouble
        = .fin (6051711999279103 / 2 ^ 47)
    ∧ floatTo3ByteBuffer (JSNum.fmul (.fin (interpret24bitAsInt32 [0x00, 0x00, 0x2B]))
        adcStepDouble) = [0x00, 0x00, 0x2A] := by
  have h0 : interpret24bitAsInt32 [0x00, 0x00, 0x2B] = 43 := by decide
  have h1 : JSNum.fmul (.fin 43) adcStepDouble = .fin (4538784540524608 / 2 ^ 72) := by
    decide!
  have h2 : JSNum.fdiv (.fin (4538784540524608 / 2 ^ 72)) adcStepDouble
      = .fin (6051711999279103 / 2 ^ 47) := by decide!
  refine ⟨h0, h1, h2, ?_⟩
  rw [h0]
  have e : ((43 : Int) : ℚ) = 43 := by norm_num
  rw [e, h1, floatTo3ByteBuffer_fin _ _ h2]
  have f : ⌊(6051711999279103 / 2 ^ 47 : ℚ)⌋ = 42 := by
    rw [Int.floor_eq_iff]; norm_num
  rw [f]
  decide

/-! ## Lemmas on the Goertzel estimator -/

section Goertzel

variable {α : Type}

theorem writeNum_length (M : MathFns α) (arr : List α) (i : Nat) (v : α)
    (hi : i < arr.length) : (writeNum M arr i v).length = arr.length := by
  unfold writeNum
  rw [if_pos hi, List.length_set]

theorem writeNum_getElem? (M : MathFns α) (arr : List α) (i j : Nat) (v : α)
    (hi : i < arr.length) :
    (writeNum M arr i v)[j]? = if i = j then some v else arr[j]? := by
  unfold writeNum
  rw [if_pos hi, List.getElem?_set, if_pos hi]

theorem readNum_congr (M : MathFns α) (a b : List α) (i : Nat) (h : a[i]? = b[i]?) :
    readNum M a i = readNum M b i := by
  unfold readNum
  rw [h]

theorem readNum_of_getElem? (M : MathFns α) (a : List α) (i : Nat) (x : α)
    (h : a[i]? = some x) : readNum M a i = x := by
  unfold readNum
  rw [h]

theorem getElem?_some_readNum (M : MathFns α) (a : List α) (i : Nat) (h : i < a.length) :
    a[i]? = some (readNum M a i) := by
  unfold readNum
  rw [List.getElem?_eq_getElem h]

variable [LinearOrderedField α]

/-- The first loop of `goertzelProcessSample` after `m` channels. -/
theorem goertzelUpdate_loop (M : MathFns α) (coeff : α) (x : List α) (o : GoertzelObj α)
    (hwf : o.WellFormed) (m : Nat) (hm : m ≤ o.numberOfChannels) :
    let s := (List.range m).foldl (goertzelUpdate M coeff x) o
    s.index = o.index ∧ s.numberOfChannels = o.numberOfChannels
      ∧ s.q1.length = o.numberOfChannels ∧ s.q2.length = o.numberOfChannels
      ∧ (∀ j, s.q1[j]? = if j < m then some (goertzelQ0 M coeff x o j) else o.q1[j]?)
      ∧ (∀ j, s.q2[j]? = if j < m then o.q1[j]? else o.q2[j]?) := by
  induction m with
  | zero =>
    simp only [List.range_zero, List.foldl_nil, Nat.not_lt_zero, if_false, implies_true,
      and_true, true_and]
    exact hwf
  | succ m ih =>
    obtain ⟨h1, h2, h3, h4, h5, h6⟩ := ih (by omega)
    simp only [List.range_succ, List.foldl_append, List.foldl_cons, List.foldl_nil]
    generalize (List.range m).foldl (goertzelUpdate M coeff x) o = s at h1 h2 h3 h4 h5 h6
    have hq1 : readNum M s.q1 m = readNum M o.q1 m :=
      readNum_congr M _ _ m (by rw [h5 m, if_neg (Nat.lt_irrefl m)])
    have hq2 : readNum M s.q2 m = readNum M o.q2 m :=
      readNum_congr M _ _ m (by rw [h6 m, if_neg (Nat.lt_irrefl m)])
    have hm1 : m < s.q1.length := by omega
    have hm2 : m < s.q2.length := by omega
    refine ⟨h1, h2, ?_, ?_, ?_, ?_⟩
    · simp only [goertzelUpdate]
      rw [writeNum_length M _ _ _ hm1, h3]
    · simp only [goertzelUpdate]
      rw [writeNum_length M _ _ _ hm2, h4]
    · intro j
      simp only [goertzelUpdate]
      rw [writeNum_getElem? M _ _ _ _ hm1, hq1, hq2, h5 j]
      by_cases hj : m = j
      · subst hj
        rw [if_pos rfl, if_pos (Nat.lt_succ_self m)]
        rfl
      · rw [if_neg hj]
        by_cases hlt : j < m
        · rw [if_pos hlt, if_pos (by omega)]
        · rw [if_neg hlt, if_neg (by omega)]
    · intro j
      simp only [goertzelUpdate]
      rw [writeNum_getElem? M _ _ _ _ hm2, hq1, h6 j]
      by_cases hj : m = j
      · subst hj
        rw [if_pos rfl, if_pos (Nat.lt_succ_self m)]
        exact (getElem?_some_readNum M o.q1 m (by rw [hwf.1]; omega)).symm
      · rw [if_neg hj]
        by_cases hlt : j < m
        · rw [if_pos hlt, if_pos (by omega)]
        · rw [if_neg hlt, if_neg (by omega)]

/-- The first loop of `goertzelProcessSample`, in closed form. -/
theorem goertzelUpdate_fold (M : MathFns α) (coeff : α) (x : List α) (o : GoertzelObj α)
    (hwf : o.WellFormed) :
    (List.range o.numberOfChannels).foldl (goertzelUpdate M coeff x) o
      = { q1 := (List.range o.numberOfChannels).map (goertzelQ0 M coeff x o)
          q2 := o.q1
          index := o.index
          numberOfChannels := o.numberOfChannels } := by
  obtain ⟨h1, h2, h3, h4, h5, h6⟩ :=
    goertzelUpdate_loop M coeff x o hwf o.numberOfChannels (Nat.le_refl _)
  generalize (List.range o.numberOfChannels).foldl (goertzelUpdate M coeff x) o = s
    at h1 h2 h3 h4 h5 h6
  have e1 : s.q1 = (List.range o.numberOfChannels).map (goertzelQ0 M coeff x o) := by
    apply List.ext_getElem?
    intro j
    rw [h5 j, List.getElem?_map]
    by_cases hj : j < o.numberOfChannels
    · rw [if_pos hj, List.getElem?_range hj]; rfl
    · rw [if_neg hj, List.getElem?_eq_none (by rw [hwf.1]; omega),
        List.getElem?_eq_none (by rw [List.length_range]; omega)]
      rfl
  have e2 : s.q2 = o.q1 := by
    apply List.ext_getElem?
    intro j
    rw [h6 j]
    by_cases hj : j < o.numberOfChannels
    · rw [if_pos hj]
    · rw [if_neg hj, List.getElem?_eq_none (by rw [hwf.2]; omega),
        List.getElem?_eq_none (by rw [hwf.1]; omega)]
  cases s
  simp only at h1 h2 e1 e2
  rw [h1, h2, e1, e2]

/-- The second loop of `goertzelProcessSample` after `m` channels. -/
theorem goertzelEmit_loop (M : MathFns α) (coeff amps : α) (o : GoertzelObj α)
    (hwf : o.WellFormed) (m : Nat) (hm : m ≤ o.numberOfChannels) :
    let r := (List.range m).foldl (goertzelEmit M coeff amps) ([], o)
    r.1 = (List.range m).map (fun j =>
        M.sqrt (goertzelRadicand coeff (readNum M o.q1 j) (readNum M o.q2 j)) / amps)
      ∧ r.2.index = o.index ∧ r.2.numberOfChannels = o.numberOfChannels
      ∧ r.2.q1.length = o.numberOfChannels ∧ r.2.q2.length = o.numberOfChannels
      ∧ (∀ j, r.2.q1[j]? = if j < m then some 0 else o.q1[j]?)
      ∧ (∀ j, r.2.q2[j]? = if j < m then some 0 else o.q2[j]?) := by
  induction m with
  | zero =>
    simp only [List.range_zero, List.foldl_nil, Nat.not_lt_zero, if_false, implies_true,
      and_true, true_and, List.map_nil]
    exact hwf
  | succ m ih =>
    obtain ⟨h0, h1, h2, h3, h4, h5, h6⟩ := ih (by omega)
    simp only [List.range_succ, List.foldl_append, List.foldl_cons, List.foldl_nil,
      List.map_append, List.map_cons, List.map_nil]
    generalize (List.range m).foldl (goertzelEmit M coeff amps) ([], o) = r
      at h0 h1 h2 h3 h4 h5 h6
    have hq1 : readNum M r.2.q1 m = readNum M o.q1 m :=
      readNum_congr M _ _ m (by rw [h5 m, if_neg (Nat.lt_irrefl m)])
    have hq2 : readNum M r.2.q2 m = readNum M o.q2 m :=
      readNum_congr M _ _ m (by rw [h6 m, if_neg (Nat.lt_irrefl m)])
    have hm1 : m < r.2.q1.length := by omega
    have hm2 : m < r.2.q2.length := by omega
    refine ⟨?_, h1, h2, ?_, ?_, ?_, ?_⟩
    · simp only [goertzelEmit, h0, hq1, hq2, goertzelRadicand]
    · simp only [goertzelEmit]
      rw [writeNum_length M _ _ _ hm1, h3]
    · simp only [goertzelEmit]
      rw [writeNum_length M _ _ _ hm2, h4]
    · intro j
      simp only [goertzelEmit]
      rw [writeNum_getElem? M _ _ _ _ hm1, h5 j]
      by_cases hj : m = j
      · subst hj
        rw [if_pos rfl, if_pos (Nat.lt_succ_self m)]
      · rw [if_neg hj]
        by_cases hlt : j < m
        · rw [if_pos hlt, if_pos (by omega)]
        · rw [if_neg hlt, if_neg (by omega)]
    · intro j
      simp only [goertzelEmit]
      rw [writeNum_getElem? M _ _ _ _ hm2, h6 j]
      by_cases hj : m = j
      · subst hj
        rw [if_pos rfl, if_pos (Nat.lt_succ_self m)]
      · rw [if_neg hj]
        by_cases hlt : j < m
        · rw [if_pos hlt, if_pos (by omega)]
        · rw [if_neg hlt, if_neg (by omega)]

/-- The second loop of `goertzelProcessSample`, in closed form. -/
theorem goertzelEmit_fold (M : MathFns α) (coeff amps : α) (o : GoertzelObj α)
    (hwf : o.WellFormed) :
    (List.range o.numberOfChannels).foldl (goertzelEmit M coeff amps) ([], o)
      = ((List.range o.numberOfChannels).map (fun j =>
            M.sqrt (goertzelRadicand coeff (readNum M o.q1 j) (readNum M o.q2 j)) / amps),
          { q1 := List.replicate o.numberOfChannels 0
            q2 := List.replicate o.numberOfChannels 0
            index := o.index
            numberOfChannels := o.numberOfChannels }) := by
  obtain ⟨h0, h1, h2, h3, h4, h5, h6⟩ :=
    goertzelEmit_loop M coeff amps o hwf o.numberOfChannels (Nat.le_refl _)
  generalize (List.range o.numberOfChannels).foldl (goertzelEmit M coeff amps) ([], o) = r
    at h0 h1 h2 h3 h4 h5 h6
  have zeros : ∀ (a b : List α), b.length = o.numberOfChannels →
      (∀ j, a[j]? = if j < o.numberOfChannels then some 0 else b[j]?) →
      a = List.replicate o.numberOfChannels 0 := by
    intro a b hb h
    apply List.ext_getElem?
    intro j
    rw [h j, List.getElem?_replicate]
    by_cases hj : j < o.numberOfChannels
    · rw [if_pos hj, if_pos hj]
    · rw [if_neg hj, if_neg hj, List.getElem?_eq_none (by omega)]
  have e1 := zeros r.2.q1 o.q1 hwf.1 h5
  have e2 := zeros r.2.q2 o.q2 hwf.2 h6
  obtain ⟨arr, s⟩ := r
  cases s
  simp only at h0 h1 h2 e1 e2
  rw [h0, h1, h2, e1, e2]

/-- One call of `goertzelProcessSample` on a well-formed object, in closed form. -/
theorem goertzelProcessSample_eq (M : MathFns α) (c : LeadOffConstants α)
    (sample : SampleOf α) (o : GoertzelObj α) (hwf : o.WellFormed) :
    goertzelProcessSample M c sample o
      = if o.index + 1 > GOERTZEL_BLOCK_SIZE then
          (some ((List.range o.numberOfChannels).map (fun j =>
            M.sqrt (goertzelRadicand (GOERTZEL_COEFF_250 M c)
              (goertzelQ0 M (GOERTZEL_COEFF_250 M c) sample.channelData o j)
              (readNum M o.q1 j)) / c.OBCILeadOffDriveInAmps)),
            goertzelNewObject o.numberOfChannels)
        else
          (none,
            { q1 := (List.range o.numberOfChannels).map
                (goertzelQ0 M (GOERTZEL_COEFF_250 M c) sample.channelData o)
              q2 := o.q1
              index := o.index + 1
              numberOfChannels := o.numberOfChannels }) := by
  unfold goertzelProcessSample
  simp only [goertzelUpdate_fold M _ _ o hwf]
  split
  · have hwf' : GoertzelObj.WellFormed
        ({ q1 := (List.range o.numberOfChannels).map
              (goertzelQ0 M (GOERTZEL_COEFF_250 M c) sample.channelData o)
           q2 := o.q1
           index := o.index + 1
           numberOfChannels := o.numberOfChannels } : GoertzelObj α) :=
      ⟨by simp only [List.length_map, List.length_range], hwf.1⟩
    have h := goertzelEmit_fold M (GOERTZEL_COEFF_250 M c) c.OBCILeadOffDriveInAmps _ hwf'
    simp only at h
    rw [h]
    simp only [goertzelNewObject]
    congr 2
    apply List.map_congr_left
    intro j hj
    have hj' : j < o.numberOfChannels := List.mem_range.mp hj
    rw [readNum_of_getElem? M _ j
      (goertzelQ0 M (GOERTZEL_COEFF_250 M c) sample.channelData o j)
      (by rw [List.getElem?_map, List.getElem?_range hj']; rfl)]
  · rfl

theorem goertzelNewObject_wellFormed (n : Nat) :
    (goertzelNewObject n : GoertzelObj α).WellFormed :=
  ⟨List.length_replicate _ _, List.length_replicate _ _⟩

/-- One call on a well-formed object: what is returned and what is left. -/
theorem goertzelProcessSample_step (M : MathFns α) (c : LeadOffConstants α)
    (sample : SampleOf α) (o : GoertzelObj α) (hwf : o.WellFormed) :
    (goertzelProcessSample M c sample o).2.WellFormed
      ∧ (goertzelProcessSample M c sample o).2.numberOfChannels = o.numberOfChannels
      ∧ (62 ≤ o.index →
          (∃ arr, (goertzelProcessSample M c sample o).1 = some arr
            ∧ arr.length = o.numberOfChannels)
          ∧ (goertzelProcessSample M c sample o).2 = goertzelNewObject o.numberOfChannels)
      ∧ (o.index < 62 →
          (goertzelProcessSample M c sample o).1 = none
          ∧ (goertzelProcessSample M c sample o).2.index = o.index + 1) := by
  rw [goertzelProcessSample_eq M c sample o hwf]
  by_cases h : o.index + 1 > GOERTZEL_BLOCK_SIZE
  · rw [if_pos h]
    have h' : 62 ≤ o.index := by unfold GOERTZEL_BLOCK_SIZE at h; omega
    refine ⟨goertzelNewObject_wellFormed _, rfl, fun _ => ⟨⟨_, rfl, ?_⟩, rfl⟩, fun hlt => ?_⟩
    · simp only [List.length_map, List.length_range]
    · omega
  · rw [if_neg h]
    have h' : o.index < 62 := by unfold GOERTZEL_BLOCK_SIZE at h; omega
    refine ⟨⟨?_, hwf.1⟩, rfl, fun hge => ?_, fun _ => ⟨rfl, rfl⟩⟩
    · simp only [List.length_map, List.length_range]
    · omega

/-- Feeding samples to a well-formed object whose counter is at most 62: call `m + 1`
returns an array exactly when the counter reaches 63. -/
theorem goertzelFeed_outputs (M : MathFns α) (c : LeadOffConstants α)
    (samples : List (SampleOf α)) :
    ∀ (o : GoertzelObj α), o.WellFormed → o.index ≤ 62 →
      (goertzelFeed M c o samples).1.length = samples.length
      ∧ (goertzelFeed M c o samples).2.WellFormed
      ∧ (goertzelFeed M c o samples).2.numberOfChannels = o.numberOfChannels
      ∧ (goertzelFeed M c o samples).2.index ≤ 62
      ∧ ∀ m, m < samples.length →
          if (o.index + m + 1) % 63 = 0 then
            ∃ arr, (goertzelFeed M c o samples).1[m]? = some (some arr)
              ∧ arr.length = o.numberOfChannels
          else (goertzelFeed M c o samples).1[m]? = some none := by
  induction samples with
  | nil =>
    intro o hwf hidx
    exact ⟨rfl, hwf, rfl, hidx, fun m hm => absurd hm (Nat.not_lt_zero m)⟩
  | cons sample rest ih =>
    intro o hwf hidx
    obtain ⟨s1, s2, s3, s4⟩ := goertzelProcessSample_step M c sample o hwf
    have hidx' : (goertzelProcessSample M c sample o).2.index ≤ 62 := by
      by_cases h : o.index < 62
      · rw [(s4 h).2]; omega
      · rw [(s3 (by omega)).2]; exact Nat.zero_le _
    obtain ⟨i1, i2, i3, i4, i5⟩ := ih _ s1 hidx'
    simp only [goertzelFeed, List.length_cons]
    refine ⟨by rw [i1], i2, by rw [i3, s2], i4, ?_⟩
    intro m hm
    cases m with
    | zero =>
      simp only [Nat.add_zero, List.getElem?_cons_zero]
      by_cases h : o.index < 62
      · rw [if_neg (by omega), (s4 h).1]
      · rw [if_pos (by omega)]
        obtain ⟨arr, ha, hl⟩ := (s3 (by omega)).1
        exact ⟨arr, by rw [ha], hl⟩
    | succ m =>
      simp only [List.getElem?_cons_succ]
      have hrest := i5 m (by omega)
      rw [s2] at hrest
      have hmod : ((goertzelProcessSample M c sample o).2.index + m + 1) % 63
          = (o.index + (m + 1) + 1) % 63 := by
        by_cases h : o.index < 62
        · rw [(s4 h).2]; omega
        · rw [(s3 (by omega)).2]
          simp only [goertzelNewObject]
          omega
      rw [hmod] at hrest
      exact hrest

/-- A call on an object whose registers are all zero, with a sample that is zero on
every channel. -/
theorem goertzelProcessSample_zero (M : MathFns α) (c : LeadOffConstants α)
    (hsqrt : M.sqrt 0 = 0) (n idx : Nat) (sample : SampleOf α)
    (hzero : ∀ i, i < n → sample.channelData[i]? = some 0) :
    goertzelProcessSample M c sample
        { q1 := List.replicate n 0, q2 := List.replicate n 0, index := idx,
          numberOfChannels := n }
      = if idx + 1 > GOERTZEL_BLOCK_SIZE then
          (some (List.replicate n (0 : α)), (goertzelNewObject n : GoertzelObj α))
        else
          (none, ({ q1 := List.replicate n 0, q2 := List.replicate n 0, index := idx + 1,
                    numberOfChannels := n } : GoertzelObj α)) := by
  have hwf : GoertzelObj.WellFormed
      ({ q1 := List.replicate n 0, q2 := List.replicate n 0, index := idx,
         numberOfChannels := n } : GoertzelObj α) :=
    ⟨List.length_replicate _ _, List.length_replicate _ _⟩
  have hr : ∀ j, j < n → readNum M (List.replicate n (0 : α)) j = 0 := by
    intro j hj
    exact readNum_of_getElem? M _ j 0 (by rw [List.getElem?_replicate, if_pos hj])
  have hq0 : ∀ j, j < n →
      goertzelQ0 M (GOERTZEL_COEFF_250 M c) sample.channelData
        { q1 := List.replicate n 0, q2 := List.replicate n 0, index := idx,
          numberOfChannels := n } j = 0 := by
    intro j hj
    simp only [goertzelQ0, hr j hj, readNum_of_getElem? M _ j 0 (hzero j hj), mul_zero,
      sub_zero, add_zero]
  have hmap : ∀ (f : Nat → α), (∀ j, j < n → f j = 0) →
      (List.range n).map f = List.replicate n 0 := by
    intro f hf
    apply List.ext_getElem?
    intro j
    rw [List.getElem?_map, List.getElem?_replicate]
    by_cases hj : j < n
    · rw [List.getElem?_range hj, if_pos hj, Option.map_some', hf j hj]
    · rw [List.getElem?_eq_none (by rw [List.length_range]; omega), if_neg hj]
      rfl
  rw [goertzelProcessSample_eq M c sample _ hwf]
  simp only
  rw [hmap _ hq0, hmap _ (fun j hj => by
    rw [hq0 j hj, hr j hj]
    simp only [goertzelRadicand, mul_zero, zero_mul, add_zero, sub_zero, hsqrt, zero_div])]

/-- With zero registers and zero samples every returned array is zero. -/
theorem goertzelFeed_zero (M : MathFns α) (c : LeadOffConstants α)
    (hsqrt : M.sqrt 0 = 0) (n : Nat) (samples : List (SampleOf α)) :
    ∀ (idx : Nat), (∀ s ∈ samples, ∀ i, i < n → s.channelData[i]? = some 0) →
      ∀ arr, some arr ∈ (goertzelFeed M c
          { q1 := List.replicate n 0, q2 := List.replicate n 0, index := idx,
            numberOfChannels := n } samples).1 →
        arr = List.replicate n 0 := by
  induction samples with
  | nil =>
    intro idx _ arr h
    exact absurd h (List.not_mem_nil _)
  | cons sample rest ih =>
    intro idx hzero arr h
    have hstep := goertzelProcessSample_zero M c hsqrt n idx sample
      (hzero sample (List.mem_cons_self _ _))
    have hrest : ∀ s ∈ rest, ∀ i, i < n → s.channelData[i]? = some 0 :=
      fun s hs => hzero s (List.mem_cons_of_mem _ hs)
    simp only [goertzelFeed, hstep] at h
    by_cases hi : idx + 1 > GOERTZEL_BLOCK_SIZE
    · rw [if_pos hi] at h
      simp only [List.mem_cons] at h
      rcases h with h | h
      · exact (Option.some.inj h.symm).symm
      · exact ih 0 hrest arr h
    · rw [if_neg hi] at h
      simp only [List.mem_cons] at h
      rcases h with h | h
      · exact Option.noConfusion h
      · exact ih (idx + 1) hrest arr h

/-- Feeding the samples that complete a block: the last call returns an array whose
entry for channel `i` is computed from the registers of the recurrence on channel
`i`. -/
theorem goertzelFeed_channel (M : MathFns α) (c : LeadOffConstants α) (i : Nat)
    (samples : List (SampleOf α)) :
    ∀ (o : GoertzelObj α) (a b : α), o.WellFormed → i < o.numberOfChannels →
      samples ≠ [] → o.index + samples.length = 63 →
      o.q1[i]? = some a → o.q2[i]? = some b →
      ∃ arr, (goertzelFeed M c o samples).1[samples.length - 1]? = some (some arr)
        ∧ arr[i]? = some (M.sqrt (goertzelRadicand (GOERTZEL_COEFF_250 M c)
            (goertzelRegs (GOERTZEL_COEFF_250 M c) (a, b)
              (samples.map fun s => readNum M s.channelData i)).1
            (goertzelRegs (GOERTZEL_COEFF_250 M c) (a, b)
              (samples.map fun s => readNum M s.channelData i)).2)
          / c.OBCILeadOffDriveInAmps) := by
  induction samples with
  | nil => intro o a b _ _ hne; exact absurd rfl hne
  | cons sample rest ih =>
    intro o a b hwf hi _ hidx ha hb
    have hra : readNum M o.q1 i = a := readNum_of_getElem? M _ i a ha
    have hrb : readNum M o.q2 i = b := readNum_of_getElem? M _ i b hb
    have hq0 : goertzelQ0 M (GOERTZEL_COEFF_250 M c) sample.channelData o i
        = GOERTZEL_COEFF_250 M c * a - b + readNum M sample.channelData i := by
      simp only [goertzelQ0, hra, hrb]
    have hstep := goertzelProcessSample_eq M c sample o hwf
    cases rest with
    | nil =>
      simp only [List.length_singleton] at hidx
      have hgt : o.index + 1 > GOERTZEL_BLOCK_SIZE := by unfold GOERTZEL_BLOCK_SIZE; omega
      rw [if_pos hgt] at hstep
      refine ⟨(List.range o.numberOfChannels).map (fun j =>
          M.sqrt (goertzelRadicand (GOERTZEL_COEFF_250 M c)
            (goertzelQ0 M (GOERTZEL_COEFF_250 M c) sample.channelData o j)
            (readNum M o.q1 j)) / c.OBCILeadOffDriveInAmps), ?_, ?_⟩
      · simp only [goertzelFeed, hstep, List.length_singleton, Nat.sub_self,
          List.getElem?_cons_zero]
      · rw [List.getElem?_map, List.getElem?_range hi]
        simp only [Option.map_some', List.map_cons, List.map_nil, goertzelRegs, hq0, hra]
    | cons sample' rest' =>
      simp only [List.length_cons] at hidx
      have hle : ¬ o.index + 1 > GOERTZEL_BLOCK_SIZE := by unfold GOERTZEL_BLOCK_SIZE; omega
      rw [if_neg hle] at hstep
      have hwf' : GoertzelObj.WellFormed
          ({ q1 := (List.range o.numberOfChannels).map
                (goertzelQ0 M (GOERTZEL_COEFF_250 M c) sample.channelData o)
             q2 := o.q1
             index := o.index + 1
             numberOfChannels := o.numberOfChannels } : GoertzelObj α) :=
        ⟨by simp only [List.length_map, List.length_range], hwf.1⟩
      obtain ⟨arr, h1, h2⟩ := ih _
        (GOERTZEL_COEFF_250 M c * a - b + readNum M sample.channelData i) a hwf' hi
        (List.cons_ne_nil _ _) (by simp only [List.length_cons]; omega)
        (by
          simp only [List.getElem?_map, List.getElem?_range hi, Option.map_some', hq0])
        ha
      refine ⟨arr, ?_, ?_⟩
      · simp only [goertzelFeed, hstep, List.length_cons, Nat.add_sub_cancel,
          List.getElem?_cons_succ] at h1 ⊢
        exact h1
      · rw [h2]
        simp only [List.map_cons, goertzelRegs]

end Goertzel

/-! ## Claims on the Goertzel estimator -/

section GoertzelSchedule

variable {α : Type} [LinearOrderedField α]

/-- C13: from an object made by `goertzelNewObject(n)`, whatever samples are fed, call
number `m` (`m ≥ 1`) of `goertzelProcessSample` returns an array exactly when `m` is a
multiple of `GOERTZEL_BLOCK_SIZE + 1 = 63`, the array has length `n`, and every other
call returns `undefined`; so feeding exactly 63 samples gives 62 times `undefined` and
then one array of length `n`. -/
theorem C13_goertzel_emission_schedule (M : MathFns α) (c : LeadOffConstants α) (n : Nat)
    (samples : List (SampleOf α)) :
    GOERTZEL_BLOCK_SIZE + 1 = 63
    ∧ (∀ m, 1 ≤ m → m ≤ samples.length →
        if m % 63 = 0 then
          ∃ arr, (goertzelFeed M c (goertzelNewObject n) samples).1[m - 1]? = some (some arr)
            ∧ arr.length = n
        else (goertzelFeed M c (goertzelNewObject n) samples).1[m - 1]? = some none)
    ∧ (samples.length = 63 →
        ∃ arr, (goertzelFeed M c (goertzelNewObject n) samples).1
            = List.replicate 62 none ++ [some arr]
          ∧ arr.length = n) := by
  obtain ⟨hlen, _, _, _, hout⟩ := goertzelFeed_outputs M c samples (goertzelNewObject n)
    (goertzelNewObject_wellFormed n) (Nat.zero_le _)
  have hsched : ∀ m, 1 ≤ m → m ≤ samples.length →
      if m % 63 = 0 then
        ∃ arr, (goertzelFeed M c (goertzelNewObject n) samples).1[m - 1]? = some (some arr)
          ∧ arr.length = n
      else (goertzelFeed M c (goertzelNewObject n) samples).1[m - 1]? = some none := by
    intro m h1 h2
    have h := hout (m - 1) (by omega)
    have e : ((goertzelNewObject n : GoertzelObj α).index + (m - 1) + 1) % 63 = m % 63 := by
      simp only [goertzelNewObject]
      congr 1
      omega
    rw [e] at h
    exact h
  refine ⟨rfl, hsched, ?_⟩
  intro h63
  obtain ⟨arr, harr, hl⟩ : ∃ arr,
      (goertzelFeed M c (goertzelNewObject n) samples).1[63 - 1]? = some (some arr)
        ∧ arr.length = n := by
    have h := hsched 63 (by omega) (by omega)
    rwa [if_pos (by decide)] at h
  refine ⟨arr, ?_, hl⟩
  apply List.ext_getElem?
  intro j
  by_cases hj : j < 62
  · have h := hsched (j + 1) (by omega) (by omega)
    rw [if_neg (by omega)] at h
    simp only [Nat.add_sub_cancel] at h
    rw [h, List.getElem?_append_left (by rw [List.length_replicate]; exact hj),
      List.getElem?_replicate, if_pos hj]
  · by_cases hj' : j = 62
    · subst hj'
      rw [harr, List.getElem?_append_right (by rw [List.length_replicate]),
        List.length_replicate]
      rfl
    · rw [List.getElem?_eq_none (by omega), List.getElem?_eq_none]
      simp only [List.length_append, List.length_replicate, List.length_singleton]
      omega

end GoertzelSchedule

/-- C13 at 2 channels and 63 samples, with `Math` over the reals. -/
theorem C13_goertzel_emission_schedule_witness :
    ∃ arr, (goertzelFeed (⟨Real.sqrt, Real.sin, Real.cos, fun x => (⌊x⌋ : ℤ), Real.pi, Real.sqrt 2, 0⟩ : MathFns ℝ)
        (⟨31.5, 250, 0.000000006⟩ : LeadOffConstants ℝ) (goertzelNewObject 2)
        (List.replicate 63 ⟨some 0xA0, some 0, [1, -1], [0, 0, 0], some 0xC0⟩)).1
          = List.replicate 62 none ++ [some arr]
      ∧ arr.length = 2 :=
  (C13_goertzel_emission_schedule _ _ 2
    (List.replicate 63 ⟨some 0xA0, some 0, [1, -1], [0, 0, 0], some 0xC0⟩)).2.2
    (List.length_replicate _ _)

section GoertzelReset

variable {α : Type} [LinearOrderedField α]

/-- C14: when `goertzelProcessSample` returns an array on a well-formed object (one
whose arrays have `numberOfChannels` entries, as every object made by
`goertzelNewObject` has), the object it leaves is `goertzelNewObject(numberOfChannels)`:
`q1[j] = q2[j] = 0` for every channel and `index = 0`; the next 62 calls return
`undefined`. -/
theorem C14_goertzel_reset (M : MathFns α) (c : LeadOffConstants α) (sample : SampleOf α)
    (o : GoertzelObj α) (arr : List α) (hwf : o.WellFormed)
    (hret : (goertzelProcessSample M c sample o).1 = some arr) :
    (goertzelProcessSample M c sample o).2 = goertzelNewObject o.numberOfChannels
    ∧ (∀ j, j < o.numberOfChannels →
        (goertzelProcessSample M c sample o).2.q1[j]? = some 0
        ∧ (goertzelProcessSample M c sample o).2.q2[j]? = some 0)
    ∧ (goertzelProcessSample M c sample o).2.index = 0
    ∧ (∀ samples : List (SampleOf α), samples.length ≤ 62 →
        ∀ out ∈ (goertzelFeed M c (goertzelProcessSample M c sample o).2 samples).1,
          out = none) := by
  obtain ⟨_, _, s3, s4⟩ := goertzelProcessSample_step M c sample o hwf
  have hidx : 62 ≤ o.index := by
    by_cases h : o.index < 62
    · rw [(s4 h).1] at hret
      exact Option.noConfusion hret
    · omega
  have hnew := (s3 hidx).2
  rw [hnew]
  refine ⟨rfl, ?_, rfl, ?_⟩
  · intro j hj
    simp only [goertzelNewObject, List.getElem?_replicate, hj, if_true, and_self]
  · intro samples hlen out hmem
    obtain ⟨hl, _, _, _, hout⟩ := goertzelFeed_outputs M c samples
      (goertzelNewObject o.numberOfChannels) (goertzelNewObject_wellFormed _) (Nat.zero_le _)
    obtain ⟨m, hm, hget⟩ := List.getElem_of_mem hmem
    have hm' : m < samples.length := by rw [← hl]; exact hm
    have h := hout m hm'
    have hne : ¬ ((goertzelNewObject o.numberOfChannels : GoertzelObj α).index + m + 1) % 63
        = 0 := by
      simp only [goertzelNewObject]
      omega
    rw [if_neg hne, List.getElem?_eq_getElem hm, hget] at h
    exact Option.some.inj h

end GoertzelReset

/-- C14 at a 2-channel object whose counter is 62. -/
theorem C14_goertzel_reset_witness :
    ∃ arr, (goertzelProcessSample (⟨Real.sqrt, Real.sin, Real.cos, fun x => (⌊x⌋ : ℤ), Real.pi, Real.sqrt 2, 0⟩ : MathFns ℝ)
        (⟨31.5, 250, 0.000000006⟩ : LeadOffConstants ℝ) ⟨some 0xA0, some 0, [5, 6], [0, 0, 0], some 0xC0⟩
        ⟨[1, 2], [3, 4], 62, 2⟩).1 = some arr
      ∧ (goertzelProcessSample (⟨Real.sqrt, Real.sin, Real.cos, fun x => (⌊x⌋ : ℤ), Real.pi, Real.sqrt 2, 0⟩ : MathFns ℝ)
        (⟨31.5, 250, 0.000000006⟩ : LeadOffConstants ℝ) ⟨some 0xA0, some 0, [5, 6], [0, 0, 0], some 0xC0⟩
        ⟨[1, 2], [3, 4], 62, 2⟩).2 = goertzelNewObject 2 := by
  have hwf : GoertzelObj.WellFormed (⟨[1, 2], [3, 4], 62, 2⟩ : GoertzelObj ℝ) := ⟨rfl, rfl⟩
  obtain ⟨arr, harr, _⟩ := ((goertzelProcessSample_step (⟨Real.sqrt, Real.sin, Real.cos, fun x => (⌊x⌋ : ℤ), Real.pi, Real.sqrt 2, 0⟩ : MathFns ℝ)
    (⟨31.5, 250, 0.000000006⟩ : LeadOffConstants ℝ) ⟨some 0xA0, some 0, [5, 6], [0, 0, 0], some 0xC0⟩ _ hwf).2.2.1 (Nat.le_refl 62)).1
  exact ⟨arr, harr, (C14_goertzel_reset _ _ _ _ arr hwf harr).1⟩

section GoertzelZero

variable {α : Type} [LinearOrderedField α]

/-- C15: from an object made by `goertzelNewObject(n)`, when every sample fed has
voltage 0 on every channel, every array returned by `goertzelProcessSample` holds
exactly 0 for each of the `n` channels (`Math.sqrt(0)` is 0 and the drive current is
not 0). -/
theorem C15_goertzel_zero_input (M : MathFns α) (c : LeadOffConstants α)
    (hsqrt : M.sqrt 0 = 0) (_hamps : c.OBCILeadOffDriveInAmps ≠ 0) (n : Nat)
    (samples : List (SampleOf α))
    (hzero : ∀ s ∈ samples, ∀ i, i < n → s.channelData[i]? = some 0) :
    ∀ arr, some arr ∈ (goertzelFeed M c (goertzelNewObject n) samples).1 →
      arr = List.replicate n 0 :=
  goertzelFeed_zero M c hsqrt n samples 0 hzero

end GoertzelZero

/-- C15 at 2 channels and 63 all-zero samples: the 63rd call returns `[0, 0]`. -/
theorem C15_goertzel_zero_input_witness :
    ∃ arr, (goertzelFeed (⟨Real.sqrt, Real.sin, Real.cos, fun x => (⌊x⌋ : ℤ), Real.pi, Real.sqrt 2, 0⟩ : MathFns ℝ)
        (⟨31.5, 250, 0.000000006⟩ : LeadOffConstants ℝ) (goertzelNewObject 2)
        (List.replicate 63 ⟨some 0xA0, some 0, [0, 0], [0, 0, 0], some 0xC0⟩)).1[62]?
          = some (some arr)
      ∧ arr = [0, 0] := by
  obtain ⟨arr, harr, _⟩ : ∃ arr, (goertzelFeed (⟨Real.sqrt, Real.sin, Real.cos, fun x => (⌊x⌋ : ℤ), Real.pi, Real.sqrt 2, 0⟩ : MathFns ℝ)
        (⟨31.5, 250, 0.000000006⟩ : LeadOffConstants ℝ) (goertzelNewObject 2)
        (List.replicate 63 ⟨some 0xA0, some 0, [0, 0], [0, 0, 0], some 0xC0⟩)).1[62]?
          = some (some arr) ∧ arr.length = 2 := by
    have h := (goertzelFeed_outputs (⟨Real.sqrt, Real.sin, Real.cos, fun x => (⌊x⌋ : ℤ), Real.pi, Real.sqrt 2, 0⟩ : MathFns ℝ) (⟨31.5, 250, 0.000000006⟩ : LeadOffConstants ℝ)
      (List.replicate 63 ⟨some 0xA0, some 0, [0, 0], [0, 0, 0], some 0xC0⟩)
      (goertzelNewObject 2) (goertzelNewObject_wellFormed 2) (Nat.zero_le _)).2.2.2.2 62
      (by rw [List.length_replicate]; decide)
    rwa [if_pos (by rfl)] at h
  refine ⟨arr, harr, ?_⟩
  refine C15_goertzel_zero_input (⟨Real.sqrt, Real.sin, Real.cos, fun x => (⌊x⌋ : ℤ), Real.pi, Real.sqrt 2, 0⟩ : MathFns ℝ) (⟨31.5, 250, 0.000000006⟩ : LeadOffConstants ℝ) Real.sqrt_zero (by norm_num) 2 _ ?_ arr
    (List.getElem?_mem harr)
  intro s hs i hi
  rw [List.eq_of_mem_replicate hs]
  interval_cases i <;> rfl

/-! ## Claims on the instantaneous impedance and on the simulator -/

/-- C16: for a sample with `channelData` and a channel number in `1..8` that indexes
an existing channel with voltage `v`, `impedanceCalculationForChannel` resolves with
`sqrt(2) * |v| / k.OBCILeadOffDriveInAmps`, which is non-negative whatever the sign of
`v` (the drive current is positive). -/
theorem C16_impedance_for_channel (M : MathFns ℝ) (c : LeadOffConstants ℝ)
    (hsqrt : M.sqrt = Real.sqrt) (hamps : 0 < c.OBCILeadOffDriveInAmps)
    (s : SampleOf ℝ) (channelNumber : Int) (v : ℝ)
    (h1 : 1 ≤ channelNumber) (h8 : channelNumber ≤ 8)
    (hv : s.channelData[(channelNumber - 1).toNat]? = some v) :
    (impedanceCalculationForChannel M c (.object s) channelNumber).1
        = .resolved (Real.sqrt 2 * |v| / c.OBCILeadOffDriveInAmps)
      ∧ 0 ≤ Real.sqrt 2 * |v| / c.OBCILeadOffDriveInAmps := by
  have hidx : (0 : Int) ≤ channelNumber - 1 := by omega
  have hrange : ¬ (channelNumber < 1 ∨ channelNumber > (OBCINumberOfChannelsDefault : Int)) := by
    unfold OBCINumberOfChannelsDefault
    push_cast
    omega
  have hlt : (channelNumber - 1).toNat < s.channelData.length :=
    (List.getElem?_eq_some_iff.mp hv).1
  constructor
  · unfold impedanceCalculationForChannel
    simp only [hrange, if_false, readAt, hidx, if_true, hv, Promise.settle, hsqrt]
    by_cases hneg : v < 0
    · simp only [hneg, if_true, List.getElem?_set_self hlt, abs_of_neg hneg]
      congr 2
      ring
    · simp only [hneg, if_false, hv, abs_of_nonneg (not_lt.mp hneg)]
  · exact div_nonneg (mul_nonneg (Real.sqrt_nonneg 2) (abs_nonneg v)) (le_of_lt hamps)

/-- C16 at the sample with channel values `-3, 5` and channel number 1, with `Math`
over the reals and drive current `6e-9`. -/
theorem C16_impedance_for_channel_witness :
    (impedanceCalculationForChannel
        (⟨Real.sqrt, Real.sin, Real.cos, fun x => (⌊x⌋ : ℤ), Real.pi, Real.sqrt 2, 0⟩ :
          MathFns ℝ)
        (⟨31.5, 250, 0.000000006⟩ : LeadOffConstants ℝ)
        (.object ⟨some 0xA0, some 0, [-3, 5], [0, 0, 0], some 0xC0⟩) 1).1
        = .resolved (Real.sqrt 2 * |(-3 : ℝ)| / 0.000000006)
      ∧ 0 ≤ Real.sqrt 2 * |(-3 : ℝ)| / 0.000000006 :=
  C16_impedance_for_channel _ ⟨31.5, 250, 0.000000006⟩ rfl (by norm_num)
    ⟨some 0xA0, some 0, [-3, 5], [0, 0, 0], some 0xC0⟩ 1 (-3) (by decide) (by decide) rfl

section ImpedanceRejects

variable {α : Type} [LinearOrderedField α]

/-- C17: `impedanceCalculationForChannel` rejects exactly when the sample object is
`null`/`undefined`, its `channelData` is `null`/`undefined`, or the integer channel
number is outside `[1, 8]` (`k.OBCINumberOfChannelsDefault`); on every other input it
resolves with a value. -/
theorem C17_impedance_rejects_iff (M : MathFns α) (c : LeadOffConstants α)
    (sampleObject : SampleArg α) (channelNumber : Int) :
    ((∃ e, (impedanceCalculationForChannel M c sampleObject channelNumber).1 = .rejected e)
        ↔ (sampleObject = .null ∨ sampleObject = .noChannelData
            ∨ channelNumber < 1 ∨ 8 < channelNumber))
      ∧ (¬ (sampleObject = .null ∨ sampleObject = .noChannelData
            ∨ channelNumber < 1 ∨ 8 < channelNumber) →
          ∃ z, (impedanceCalculationForChannel M c sampleObject channelNumber).1
            = .resolved z) := by
  cases sampleObject with
  | null =>
    exact ⟨⟨fun _ => Or.inl rfl, fun _ => ⟨_, rfl⟩⟩, fun h => absurd (Or.inl rfl) h⟩
  | noChannelData =>
    exact ⟨⟨fun _ => Or.inr (Or.inl rfl), fun _ => ⟨_, rfl⟩⟩,
      fun h => absurd (Or.inr (Or.inl rfl)) h⟩
  | object s =>
    by_cases hr : channelNumber < 1 ∨ channelNumber > (OBCINumberOfChannelsDefault : Int)
    · have hr' : channelNumber < 1 ∨ 8 < channelNumber := by
        unfold OBCINumberOfChannelsDefault at hr
        push_cast at hr
        omega
      refine ⟨⟨fun _ => Or.inr (Or.inr hr'), fun _ => ⟨.channelNumberInvalid, ?_⟩⟩,
        fun h => absurd (Or.inr (Or.inr hr')) h⟩
      unfold impedanceCalculationForChannel
      simp only [hr, if_true, Promise.settle]
    · have hr' : ¬ (channelNumber < 1 ∨ 8 < channelNumber) := by
        unfold OBCINumberOfChannelsDefault at hr
        push_cast at hr
        omega
      have hres : ∃ z, (impedanceCalculationForChannel M c (.object s) channelNumber).1
          = .resolved z := by
        unfold impedanceCalculationForChannel
        simp only [hr, if_false, Promise.settle]
        exact ⟨_, rfl⟩
      refine ⟨⟨fun ⟨e, he⟩ => ?_, fun h => ?_⟩, fun _ => hres⟩
      · obtain ⟨z, hz⟩ := hres
        rw [hz] at he
        exact Promise.noConfusion he
      · rcases h with h | h | h
        · exact SampleArg.noConfusion h
        · exact SampleArg.noConfusion h
        · exact absurd h hr'

end ImpedanceRejects

section SimulatorIndex

variable {α : Type} [LinearOrderedField α]

/-- C18: for every configuration and state of the generator returned by `randomSample`,
every noise draw and every previous sample number `p` in `0..255`, the returned sample
has `sampleNumber = (p + 1) mod 256`, a value in `0..255` (255 wraps to 0). -/
theorem C18_randomSample_sampleNumber (M : MathFns α) (k : Constants)
    (numberOfChannels : Nat) (sampleRateHz : α) (injectAlpha : Bool) (lineNoise : LineNoise)
    (st : RandomSampleState α) (draw : Nat → α) (p : Nat) (hp : p ≤ 255) :
    (randomSample M k numberOfChannels sampleRateHz injectAlpha lineNoise st draw p).1.sampleNumber
        = some ((p + 1) % 256)
      ∧ (p + 1) % 256 < 256 := by
  refine ⟨?_, Nat.mod_lt _ (by decide)⟩
  unfold randomSample
  simp only
  by_cases h : p = 255
  · rw [if_pos h, h]
  · rw [if_neg h, Nat.mod_eq_of_lt (by omega)]

end SimulatorIndex

/-- C18 at previous sample numbers 255 and 41, for 2 channels at 250 Hz with alpha
and 60 Hz injection, from the initial state. -/
theorem C18_randomSample_sampleNumber_witness :
    (randomSample
        (⟨Real.sqrt, Real.sin, Real.cos, fun x => (⌊x⌋ : ℤ), Real.pi, Real.sqrt 2, 0⟩ :
          MathFns ℝ)
        kRef 2 250 true .hz60 (randomSampleInit 2) (fun _ => 1) 255).1.sampleNumber = some 0
    ∧ (randomSample
        (⟨Real.sqrt, Real.sin, Real.cos, fun x => (⌊x⌋ : ℤ), Real.pi, Real.sqrt 2, 0⟩ :
          MathFns ℝ)
        kRef 2 250 true .hz60 (randomSampleInit 2) (fun _ => 1) 41).1.sampleNumber = some 42 :=
  ⟨(C18_randomSample_sampleNumber _ kRef 2 250 true .hz60 (randomSampleInit 2) (fun _ => 1)
      255 (by decide)).1,
    (C18_randomSample_sampleNumber _ kRef 2 250 true .hz60 (randomSampleInit 2) (fun _ => 1)
      41 (by decide)).1⟩

/-! ## The recurrence and its magnitude -/

section GoertzelRecurrence

variable {α : Type} [LinearOrderedField α]

/-- C19: one call of `goertzelProcessSample` on a well-formed object. Channel `i` gets
`q0 = coeff*q1[i] - q2[i] + sample.channelData[i]`, then `q2[i]` becomes the old `q1[i]`
and `q1[i]` becomes `q0`; the counter goes up by one, once for the call. When the
counter then exceeds `GOERTZEL_BLOCK_SIZE` the call returns, for channel `j`,
`sqrt(q1[j]^2 + q2[j]^2 - q1[j]*q2[j]*coeff) / k.OBCILeadOffDriveInAmps` of the updated
registers (and resets the object); otherwise it returns `undefined`. `coeff` is
`GOERTZEL_COEFF_250`, which depends on neither the sample nor the object. -/
theorem C19_goertzel_recurrence (M : MathFns α) (c : LeadOffConstants α)
    (sample : SampleOf α) (o : GoertzelObj α) (hwf : o.WellFormed) :
    (o.index + 1 ≤ GOERTZEL_BLOCK_SIZE →
      goertzelProcessSample M c sample o
        = (none,
            { q1 := (List.range o.numberOfChannels).map (fun i =>
                GOERTZEL_COEFF_250 M c * readNum M o.q1 i - readNum M o.q2 i
                  + readNum M sample.channelData i)
              q2 := o.q1
              index := o.index + 1
              numberOfChannels := o.numberOfChannels }))
    ∧ (GOERTZEL_BLOCK_SIZE < o.index + 1 →
      goertzelProcessSample M c sample o
        = (some ((List.range o.numberOfChannels).map (fun j =>
            M.sqrt
              (((GOERTZEL_COEFF_250 M c * readNum M o.q1 j - readNum M o.q2 j
                    + readNum M sample.channelData j)
                  * (GOERTZEL_COEFF_250 M c * readNum M o.q1 j - readNum M o.q2 j
                    + readNum M sample.channelData j))
                + (readNum M o.q1 j * readNum M o.q1 j)
                - (GOERTZEL_COEFF_250 M c * readNum M o.q1 j - readNum M o.q2 j
                    + readNum M sample.channelData j)
                  * readNum M o.q1 j * GOERTZEL_COEFF_250 M c)
              / c.OBCILeadOffDriveInAmps)),
            goertzelNewObject o.numberOfChannels)) := by
  rw [goertzelProcessSample_eq M c sample o hwf]
  constructor
  · intro h
    rw [if_neg (by omega)]
    rfl
  · intro h
    rw [if_pos (by omega)]
    rfl

end GoertzelRecurrence

/-- C19 at a 2-channel object whose counter is 0: the call returns `undefined`, `q2`
takes the old `q1` and the counter becomes 1. -/
theorem C19_goertzel_recurrence_witness :
    (goertzelProcessSample (⟨Real.sqrt, Real.sin, Real.cos, fun x => (⌊x⌋ : ℤ), Real.pi, Real.sqrt 2, 0⟩ : MathFns ℝ)
        (⟨31.5, 250, 0.000000006⟩ : LeadOffConstants ℝ) ⟨some 0xA0, some 0, [5, 6], [0, 0, 0], some 0xC0⟩
        ⟨[1, 2], [3, 4], 0, 2⟩).1 = none
      ∧ (goertzelProcessSample (⟨Real.sqrt, Real.sin, Real.cos, fun x => (⌊x⌋ : ℤ), Real.pi, Real.sqrt 2, 0⟩ : MathFns ℝ)
        (⟨31.5, 250, 0.000000006⟩ : LeadOffConstants ℝ) ⟨some 0xA0, some 0, [5, 6], [0, 0, 0], some 0xC0⟩
        ⟨[1, 2], [3, 4], 0, 2⟩).2.q2 = [1, 2]
      ∧ (goertzelProcessSample (⟨Real.sqrt, Real.sin, Real.cos, fun x => (⌊x⌋ : ℤ), Real.pi, Real.sqrt 2, 0⟩ : MathFns ℝ)
        (⟨31.5, 250, 0.000000006⟩ : LeadOffConstants ℝ) ⟨some 0xA0, some 0, [5, 6], [0, 0, 0], some 0xC0⟩
        ⟨[1, 2], [3, 4], 0, 2⟩).2.index = 1 := by
  have h := (C19_goertzel_recurrence (⟨Real.sqrt, Real.sin, Real.cos, fun x => (⌊x⌋ : ℤ), Real.pi, Real.sqrt 2, 0⟩ : MathFns ℝ)
    (⟨31.5, 250, 0.000000006⟩ : LeadOffConstants ℝ) ⟨some 0xA0, some 0, [5, 6], [0, 0, 0], some 0xC0⟩
    ⟨[1, 2], [3, 4], 0, 2⟩ ⟨rfl, rfl⟩).1 (by decide)
  rw [h]
  exact ⟨rfl, rfl, rfl⟩

/-- The recurrence of the estimator in complex form: with `E = exp(i w)`, the
combination `q1 - exp(-i w) q2` of the registers after the voltages `xs`. -/
theorem goertzelRegs_complex (w : ℝ) (xs : List ℝ) :
    ∀ (a b : ℝ),
      ((goertzelRegs (2 * Real.cos w) (a, b) xs).1 : ℂ)
          - Complex.exp (-(w * Complex.I)) * ((goertzelRegs (2 * Real.cos w) (a, b) xs).2 : ℂ)
        = Complex.exp (w * Complex.I) ^ xs.length * ((a : ℂ) - Complex.exp (-(w * Complex.I)) * b)
          + Complex.exp (w * Complex.I) ^ xs.length * Complex.exp (-(w * Complex.I))
            * xs.foldr (fun (x : ℝ) (acc : ℂ) => (x : ℂ) + Complex.exp (-(w * Complex.I)) * acc) 0 := by
  have hE : Complex.exp (w * Complex.I) * Complex.exp (-(w * Complex.I)) = 1 := by
    rw [← Complex.exp_add, add_neg_cancel, Complex.exp_zero]
  have hcos : (2 : ℂ) * Complex.cos (w : ℂ) = Complex.exp (w * Complex.I) + Complex.exp (-(w * Complex.I)) := by
    rw [Complex.two_cos, neg_mul]
  induction xs with
  | nil =>
    intro a b
    simp only [goertzelRegs, List.length_nil, pow_zero, one_mul, List.foldr_nil, mul_zero,
      add_zero]
  | cons x xs ih =>
    intro a b
    simp only [goertzelRegs, List.length_cons, List.foldr_cons]
    rw [ih]
    push_cast
    rw [hcos, pow_succ]
    linear_combination
      (Complex.exp (w * Complex.I) ^ xs.length
        * ((b : ℂ) - x - Complex.exp (-(w * Complex.I))
            * xs.foldr (fun (x : ℝ) (acc : ℂ) => (x : ℂ) + Complex.exp (-(w * Complex.I)) * acc) 0)) * hE

theorem foldr_eq_sum (z : ℂ) (xs : List ℝ) :
    xs.foldr (fun (x : ℝ) (acc : ℂ) => (x : ℂ) + z * acc) 0
      = ∑ m ∈ Finset.range xs.length, ((xs.getD m 0 : ℝ) : ℂ) * z ^ m := by
  induction xs with
  | nil => simp
  | cons x xs ih =>
    rw [List.foldr_cons, ih, List.length_cons, Finset.sum_range_succ', Finset.mul_sum]
    simp only [List.getD_cons_succ, List.getD_cons_zero, pow_zero, mul_one, pow_succ]
    rw [add_comm]
    congr 1
    apply Finset.sum_congr rfl
    intro m _
    ring

/-- The radicand of the estimator is the squared modulus of `q1 - exp(-i w) q2`. -/
theorem goertzelRadicand_eq_abs (w q1 q2 : ℝ) :
    Real.sqrt (goertzelRadicand (2 * Real.cos w) q1 q2)
      = Complex.abs ((q1 : ℂ) - Complex.exp (-(w * Complex.I)) * q2) := by
  have hE : Complex.exp (w * Complex.I) * Complex.exp (-(w * Complex.I)) = 1 := by
    rw [← Complex.exp_add, add_neg_cancel, Complex.exp_zero]
  have hcos : (2 : ℂ) * Complex.cos (w : ℂ) = Complex.exp (w * Complex.I) + Complex.exp (-(w * Complex.I)) := by
    rw [Complex.two_cos, neg_mul]
  have hconj : (starRingEnd ℂ) (Complex.exp (-(w * Complex.I))) = Complex.exp (w * Complex.I) := by
    rw [← Complex.exp_conj]
    congr 1
    simp only [map_neg, map_mul, Complex.conj_ofReal, Complex.conj_I, mul_neg, neg_neg]
  have hn : Complex.normSq ((q1 : ℂ) - Complex.exp (-(w * Complex.I)) * q2)
      = goertzelRadicand (2 * Real.cos w) q1 q2 := by
    apply Complex.ofReal_injective
    rw [← Complex.mul_conj]
    simp only [map_sub, map_mul, Complex.conj_ofReal, hconj, goertzelRadicand]
    push_cast
    rw [hcos]
    linear_combination ((q2 : ℂ) * q2) * hE
  rw [Complex.abs_apply, hn]

/-- C20: the Goertzel recurrence computes the magnitude of the block at the target
frequency. For an object made by `goertzelNewObject(n)` (fresh or just reset) fed 63
samples whose voltages on channel `i` are the reals `x 0, ..., x 62`, the impedance
returned for channel `i` by the 63rd call, multiplied by the drive current, is the
modulus of `∑ m < 63, x m * exp(-i w m)`, for every `w` with `coeff = 2 cos w`
(`Math.sqrt` is the real square root, the drive current is not 0). -/
theorem C20_goertzel_magnitude (M : MathFns ℝ) (c : LeadOffConstants ℝ)
    (hsqrt : M.sqrt = Real.sqrt) (w : ℝ) (hw : GOERTZEL_COEFF_250 M c = 2 * Real.cos w)
    (hamps : c.OBCILeadOffDriveInAmps ≠ 0) (n i : Nat) (hi : i < n)
    (samples : List (SampleOf ℝ)) (hlen : samples.length = 63) (x : Nat → ℝ)
    (hx : ∀ m s, samples[m]? = some s → s.channelData[i]? = some (x m)) :
    ∃ arr imp,
      (goertzelFeed M c (goertzelNewObject n) samples).1[62]? = some (some arr)
      ∧ arr[i]? = some imp
      ∧ imp * c.OBCILeadOffDriveInAmps
          = Complex.abs (∑ m ∈ Finset.range 63,
              (x m : ℂ) * Complex.exp (-(Complex.I * w * m))) := by
  have hne : samples ≠ [] := by
    intro h
    rw [h] at hlen
    exact absurd hlen (by decide)
  obtain ⟨arr, h1, h2⟩ := goertzelFeed_channel M c i samples (goertzelNewObject n) 0 0
    (goertzelNewObject_wellFormed n) hi hne
    (by simp only [goertzelNewObject, hlen, Nat.zero_add])
    (by simp only [goertzelNewObject, List.getElem?_replicate, hi, if_true])
    (by simp only [goertzelNewObject, List.getElem?_replicate, hi, if_true])
  rw [hlen] at h1
  refine ⟨arr, _, h1, h2, ?_⟩
  rw [div_mul_cancel₀ _ hamps, hsqrt, hw, goertzelRadicand_eq_abs, goertzelRegs_complex,
    foldr_eq_sum]
  simp only [List.length_map, hlen, Complex.ofReal_zero, mul_zero, sub_zero, zero_add,
    map_mul, map_pow, Complex.abs_exp_ofReal_mul_I, one_pow, one_mul]
  have hinv : Complex.abs (Complex.exp (-(↑w * Complex.I))) = 1 := by
    have h := Complex.abs_exp_ofReal_mul_I (-w)
    rwa [Complex.ofReal_neg, neg_mul] at h
  rw [hinv, one_mul]
  congr 1
  apply Finset.sum_congr rfl
  intro m hm
  have hm' : m < samples.length := by rw [hlen]; exact Finset.mem_range.mp hm
  have hxm : (samples.map fun s => readNum M s.channelData i).getD m 0 = x m := by
    rw [List.getD_eq_getElem?_getD, List.getElem?_map, List.getElem?_eq_getElem hm',
      Option.map_some', Option.getD_some]
    exact readNum_of_getElem? M _ i (x m) (hx m _ (List.getElem?_eq_getElem hm'))
  rw [hxm, ← Complex.exp_nat_mul]
  congr 2
  ring

/-- C20 at 2 channels, channel 0, and 63 samples of voltage 1 on channel 0, with
`w = GOERTZEL_W_250`. -/
theorem C20_goertzel_magnitude_witness :
    ∃ arr imp,
      (goertzelFeed (⟨Real.sqrt, Real.sin, Real.cos, fun x => (⌊x⌋ : ℤ), Real.pi, Real.sqrt 2, 0⟩ : MathFns ℝ)
        (⟨31.5, 250, 0.000000006⟩ : LeadOffConstants ℝ) (goertzelNewObject 2)
        (List.replicate 63 ⟨some 0xA0, some 0, [1, -1], [0, 0, 0], some 0xC0⟩)).1[62]?
          = some (some arr)
      ∧ arr[0]? = some imp
      ∧ imp * 0.000000006
          = Complex.abs (∑ m ∈ Finset.range 63,
              (((fun _ => 1 : Nat → ℝ) m : ℝ) : ℂ) * Complex.exp (-(Complex.I
                * (GOERTZEL_W_250 (⟨Real.sqrt, Real.sin, Real.cos, fun x => (⌊x⌋ : ℤ), Real.pi, Real.sqrt 2, 0⟩ : MathFns ℝ)
                    (⟨31.5, 250, 0.000000006⟩ : LeadOffConstants ℝ) : ℝ) * m))) :=
  C20_goertzel_magnitude (⟨Real.sqrt, Real.sin, Real.cos, fun x => (⌊x⌋ : ℤ), Real.pi, Real.sqrt 2, 0⟩ : MathFns ℝ) (⟨31.5, 250, 0.000000006⟩ : LeadOffConstants ℝ) rfl
    (GOERTZEL_W_250 (⟨Real.sqrt, Real.sin, Real.cos, fun x => (⌊x⌋ : ℤ), Real.pi, Real.sqrt 2, 0⟩ : MathFns ℝ) (⟨31.5, 250, 0.000000006⟩ : LeadOffConstants ℝ)) rfl (by norm_num) 2 0 (by decide)
    (List.replicate 63 ⟨some 0xA0, some 0, [1, -1], [0, 0, 0], some 0xC0⟩)
    (List.length_replicate _ _) (fun _ => 1)
    (by
      intro m s h
      rw [List.eq_of_mem_replicate (List.getElem?_mem h)]
      rfl)

/-! ## Lemmas on the simulator -/

section Simulator

variable {α : Type}

theorem writeNum_at_length (M : MathFns α) (arr : List α) (v : α) :
    writeNum M arr arr.length v = arr ++ [v] := by
  unfold writeNum
  rw [if_neg (Nat.lt_irrefl _), Nat.sub_self, List.replicate_zero, List.append_nil]

variable [LinearOrderedField α]

theorem randomSampleInit_wellFormed (n : Nat) :
    (randomSampleInit n : RandomSampleState α).WellFormed n :=
  ⟨List.length_replicate _ _, List.length_replicate _ _, List.length_replicate _ _,
    List.length_replicate _ _⟩

/-- The injection branch of one pass, on the phase array: only entry `i` changes. -/
theorem injection_branch (M : MathFns α) (sampleRateHz : α) (injectAlpha : Bool)
    (lineNoise : LineNoise) (phases : List α) (i : Nat) (hi : i < phases.length) :
    let r : List α × α :=
      if i = 0 ∨ i = 1 then
        if injectAlpha then injectSine M sampleRateHz 10 5 phases i
        else (phases, 0)
      else
        match lineNoise with
        | .hz60 => injectSine M sampleRateHz 60 8 phases i
        | .hz50 => injectSine M sampleRateHz 50 8 phases i
        | .none => (phases, 0)
    r.2 = simInjection M sampleRateHz injectAlpha lineNoise i (readNum M phases i)
      ∧ r.1.length = phases.length
      ∧ ∀ j, r.1[j]? = if i = j then
          some (simPhaseAfter M sampleRateHz injectAlpha lineNoise i (readNum M phases i))
        else phases[j]? := by
  have hsame : ∀ j, phases[j]? = if i = j then some (readNum M phases i) else phases[j]? := by
    intro j
    by_cases hj : i = j
    · rw [if_pos hj, ← hj]; exact getElem?_some_readNum M phases i hi
    · rw [if_neg hj]
  have hinj : ∀ (f amp : α),
      (injectSine M sampleRateHz f amp phases i).2
          = (amp * M.SQRT2 * M.sin (simPhase M sampleRateHz f (readNum M phases i))) / 1000000
        ∧ (injectSine M sampleRateHz f amp phases i).1.length = phases.length
        ∧ ∀ j, (injectSine M sampleRateHz f amp phases i).1[j]?
            = if i = j then some (simPhase M sampleRateHz f (readNum M phases i))
              else phases[j]? := by
    intro f amp
    refine ⟨rfl, ?_, ?_⟩
    · simp only [injectSine]
      exact writeNum_length M _ _ _ hi
    · intro j
      simp only [injectSine]
      rw [writeNum_getElem? M _ _ _ _ hi]
      rfl
  simp only [simInjection, simPhaseAfter]
  by_cases h01 : i = 0 ∨ i = 1
  · simp only [h01, if_true]
    cases injectAlpha with
    | true => simpa using hinj 10 5
    | false => exact ⟨by simp, by simp, by simpa using hsame⟩
  · simp only [h01, if_false]
    cases lineNoise with
    | hz60 => exact hinj 60 8
    | hz50 => exact hinj 50 8
    | none => exact ⟨rfl, rfl, hsame⟩

/-- One pass of the loop body of the generator, for channel `i`: entry `i` of the four
captured arrays is updated and one value is pushed. -/
theorem randomSampleChannel_step (M : MathFns α) (sampleRateHz : α) (injectAlpha : Bool)
    (lineNoise : LineNoise) (draw : Nat → α) (s : RandomSampleState α) (acc : List α)
    (i : Nat) (h0 : i < s.b0.length) (h1 : i < s.b1.length) (h2 : i < s.b2.length)
    (hp : i < s.sinePhaseRad.length) (hacc : acc.length = i) :
    (randomSampleChannel M sampleRateHz injectAlpha lineNoise draw (s, acc) i).1.b0.length
        = s.b0.length
    ∧ (randomSampleChannel M sampleRateHz injectAlpha lineNoise draw (s, acc) i).1.b1.length
        = s.b1.length
    ∧ (randomSampleChannel M sampleRateHz injectAlpha lineNoise draw (s, acc) i).1.b2.length
        = s.b2.length
    ∧ (randomSampleChannel M sampleRateHz injectAlpha lineNoise draw
        (s, acc) i).1.sinePhaseRad.length = s.sinePhaseRad.length
    ∧ (∀ j, (randomSampleChannel M sampleRateHz injectAlpha lineNoise draw (s, acc) i).1.b0[j]?
        = if i = j then
            some (0.99765 * readNum M s.b0 i
              + simInput M sampleRateHz injectAlpha lineNoise s draw i * 0.0990460)
          else s.b0[j]?)
    ∧ (∀ j, (randomSampleChannel M sampleRateHz injectAlpha lineNoise draw (s, acc) i).1.b1[j]?
        = if i = j then
            some (0.96300 * readNum M s.b1 i
              + simInput M sampleRateHz injectAlpha lineNoise s draw i * 0.2965164)
          else s.b1[j]?)
    ∧ (∀ j, (randomSampleChannel M sampleRateHz injectAlpha lineNoise draw (s, acc) i).1.b2[j]?
        = if i = j then
            some (0.57000 * readNum M s.b2 i
              + simInput M sampleRateHz injectAlpha lineNoise s draw i * 1.0526913)
          else s.b2[j]?)
    ∧ (∀ j, (randomSampleChannel M sampleRateHz injectAlpha lineNoise draw
          (s, acc) i).1.sinePhaseRad[j]?
        = if i = j then
            some (simPhaseAfter M sampleRateHz injectAlpha lineNoise i
              (readNum M s.sinePhaseRad i))
          else s.sinePhaseRad[j]?)
    ∧ (randomSampleChannel M sampleRateHz injectAlpha lineNoise draw (s, acc) i).2
        = acc ++ [(0.99765 * readNum M s.b0 i
              + simInput M sampleRateHz injectAlpha lineNoise s draw i * 0.0990460)
            + (0.96300 * readNum M s.b1 i
              + simInput M sampleRateHz injectAlpha lineNoise s draw i * 0.2965164)
            + (0.57000 * readNum M s.b2 i
              + simInput M sampleRateHz injectAlpha lineNoise s draw i * 1.0526913)
            + simInput M sampleRateHz injectAlpha lineNoise s draw i * 0.1848] := by
  obtain ⟨hb1, hb2, hb3⟩ := injection_branch M sampleRateHz injectAlpha lineNoise
    s.sinePhaseRad i hp
  simp only [randomSampleChannel]
  erw [hb1]
  have hU : draw i * M.sqrt (sampleRateHz / 2) / 1000000
        + simInjection M sampleRateHz injectAlpha lineNoise i (readNum M s.sinePhaseRad i)
      = simInput M sampleRateHz injectAlpha lineNoise s draw i := rfl
  rw [hU]
  have hr0 : ∀ v, readNum M (writeNum M s.b0 i v) i = v := fun v =>
    readNum_of_getElem? M _ i v (by rw [writeNum_getElem? M _ _ _ _ h0, if_pos rfl])
  have hr1 : ∀ v, readNum M (writeNum M s.b1 i v) i = v := fun v =>
    readNum_of_getElem? M _ i v (by rw [writeNum_getElem? M _ _ _ _ h1, if_pos rfl])
  have hr2 : ∀ v, readNum M (writeNum M s.b2 i v) i = v := fun v =>
    readNum_of_getElem? M _ i v (by rw [writeNum_getElem? M _ _ _ _ h2, if_pos rfl])
  refine ⟨writeNum_length M _ _ _ h0, writeNum_length M _ _ _ h1, writeNum_length M _ _ _ h2,
    hb2, fun j => writeNum_getElem? M _ _ _ _ h0, fun j => writeNum_getElem? M _ _ _ _ h1,
    fun j => writeNum_getElem? M _ _ _ _ h2, hb3, ?_⟩
  rw [hr0, hr1, hr2]
  subst hacc
  exact writeNum_at_length M acc _

/-- The loop of the generator after `m` channels, from a well-formed state. -/
theorem randomSample_loop (M : MathFns α) (sampleRateHz : α) (injectAlpha : Bool)
    (lineNoise : LineNoise) (draw : Nat → α) (st : RandomSampleState α) (n : Nat)
    (hwf : st.WellFormed n) (m : Nat) (hm : m ≤ n) :
    let r := (List.range m).foldl
      (randomSampleChannel M sampleRateHz injectAlpha lineNoise draw) (st, [])
    r.1.b0.length = n ∧ r.1.b1.length = n ∧ r.1.b2.length = n
      ∧ r.1.sinePhaseRad.length = n + 1 ∧ r.2.length = m
      ∧ (∀ j, r.1.b0[j]? = if j < m then
            some (0.99765 * readNum M st.b0 j
              + simInput M sampleRateHz injectAlpha lineNoise st draw j * 0.0990460)
          else st.b0[j]?)
      ∧ (∀ j, r.1.b1[j]? = if j < m then
            some (0.96300 * readNum M st.b1 j
              + simInput M sampleRateHz injectAlpha lineNoise st draw j * 0.2965164)
          else st.b1[j]?)
      ∧ (∀ j, r.1.b2[j]? = if j < m then
            some (0.57000 * readNum M st.b2 j
              + simInput M sampleRateHz injectAlpha lineNoise st draw j * 1.0526913)
          else st.b2[j]?)
      ∧ (∀ j, r.1.sinePhaseRad[j]? = if j < m then
            some (simPhaseAfter M sampleRateHz injectAlpha lineNoise j
              (readNum M st.sinePhaseRad j))
          else st.sinePhaseRad[j]?)
      ∧ (∀ j, j < m → r.2[j]?
          = some ((0.99765 * readNum M st.b0 j
              + simInput M sampleRateHz injectAlpha lineNoise st draw j * 0.0990460)
            + (0.96300 * readNum M st.b1 j
              + simInput M sampleRateHz injectAlpha lineNoise st draw j * 0.2965164)
            + (0.57000 * readNum M st.b2 j
              + simInput M sampleRateHz injectAlpha lineNoise st draw j * 1.0526913)
            + simInput M sampleRateHz injectAlpha lineNoise st draw j * 0.1848)) := by
  induction m with
  | zero =>
    obtain ⟨w0, w1, w2, wp⟩ := hwf
    simp only [List.range_zero, List.foldl_nil, Nat.not_lt_zero, if_false, implies_true,
      and_true, true_and, List.length_nil, false_implies]
    exact ⟨w0, w1, w2, wp⟩
  | succ m ih =>
    obtain ⟨l0, l1, l2, lp, la, g0, g1, g2, gp, ga⟩ := ih (by omega)
    simp only [List.range_succ, List.foldl_append, List.foldl_cons, List.foldl_nil]
    generalize (List.range m).foldl
      (randomSampleChannel M sampleRateHz injectAlpha lineNoise draw) (st, []) = r
      at l0 l1 l2 lp la g0 g1 g2 gp ga
    obtain ⟨s, acc⟩ := r
    simp only at l0 l1 l2 lp la g0 g1 g2 gp ga
    obtain ⟨s0, s1, s2, sp, t0, t1, t2, tp, ta⟩ := randomSampleChannel_step M sampleRateHz
      injectAlpha lineNoise draw s acc m (by omega) (by omega) (by omega) (by omega) la
    have e0 : readNum M s.b0 m = readNum M st.b0 m :=
      readNum_congr M _ _ m (by rw [g0 m, if_neg (Nat.lt_irrefl m)])
    have e1 : readNum M s.b1 m = readNum M st.b1 m :=
      readNum_congr M _ _ m (by rw [g1 m, if_neg (Nat.lt_irrefl m)])
    have e2 : readNum M s.b2 m = readNum M st.b2 m :=
      readNum_congr M _ _ m (by rw [g2 m, if_neg (Nat.lt_irrefl m)])
    have ep : readNum M s.sinePhaseRad m = readNum M st.sinePhaseRad m :=
      readNum_congr M _ _ m (by rw [gp m, if_neg (Nat.lt_irrefl m)])
    have eU : simInput M sampleRateHz injectAlpha lineNoise s draw m
        = simInput M sampleRateHz injectAlpha lineNoise st draw m := by
      simp only [simInput, ep]
    rw [e0, eU] at t0
    rw [e1, eU] at t1
    rw [e2, eU] at t2
    rw [ep] at tp
    rw [e0, e1, e2, eU] at ta
    have merge : ∀ (a b : List α) (new : Nat → α) (orig : List α),
        (∀ j, a[j]? = if m = j then some (new m) else b[j]?) →
        (∀ j, b[j]? = if j < m then some (new j) else orig[j]?) →
        ∀ j, a[j]? = if j < m + 1 then some (new j) else orig[j]? := by
      intro a b new orig ha hb j
      rw [ha j]
      by_cases hj : m = j
      · subst hj
        rw [if_pos rfl, if_pos (Nat.lt_succ_self m)]
      · rw [if_neg hj, hb j]
        by_cases hlt : j < m
        · rw [if_pos hlt, if_pos (by omega)]
        · rw [if_neg hlt, if_neg (by omega)]
    refine ⟨by rw [s0, l0], by rw [s1, l1], by rw [s2, l2], by rw [sp, lp], ?_,
      merge _ _ (fun j => 0.99765 * readNum M st.b0 j
        + simInput M sampleRateHz injectAlpha lineNoise st draw j * 0.0990460) _ t0 g0,
      merge _ _ (fun j => 0.96300 * readNum M st.b1 j
        + simInput M sampleRateHz injectAlpha lineNoise st draw j * 0.2965164) _ t1 g1,
      merge _ _ (fun j => 0.57000 * readNum M st.b2 j
        + simInput M sampleRateHz injectAlpha lineNoise st draw j * 1.0526913) _ t2 g2,
      merge _ _ (fun j => simPhaseAfter M sampleRateHz injectAlpha lineNoise j
        (readNum M st.sinePhaseRad j)) _ tp gp, ?_⟩
    · rw [ta, List.length_append, la, List.length_singleton]
    · intro j hj
      rw [ta]
      by_cases hlt : j < m
      · rw [List.getElem?_append_left (by omega), ga j hlt]
      · have hjm : j = m := by omega
        subst hjm
        rw [List.getElem?_append_right (by omega), la, Nat.sub_self]
        rfl

/-- C21: one call of a generator returned by `randomSample`, from captured arrays of the
lengths `randomSample` gives them, with the white noise `w_i` of channel `i` taken as
`draw i * Math.sqrt(sampleRateHz/2) / 10^6`. The filter input is `u_i = w_i + inj_i`:
`inj_i` is `5*SQRT2*sin(phase)/10^6` at the 10 Hz phase for channels 0 and 1 when
`injectAlpha` is set, `8*SQRT2*sin(phase)/10^6` at the 60 Hz or 50 Hz phase for the
other channels when `lineNoise` is that mode, and 0 otherwise, where the phase is the
channel's phase advanced by `2π·f/sampleRateHz` and reduced by `2π` when above `2π`.
The advanced phase is stored as the channel's phase for the next call when the channel
is injected, and the phase is left as it was otherwise; the entry of the phase array
past the last channel is unchanged.
The registers become `0.99765*b0 + 0.0990460*u_i`, `0.96300*b1 + 0.2965164*u_i`,
`0.57000*b2 + 1.0526913*u_i`, `channelData[i]` is their sum plus `0.1848*u_i`, and
`channelData` has `numberOfChannels` entries; the arrays keep their lengths. -/
theorem C21_randomSample_filter (M : MathFns α) (k : Constants) (numberOfChannels : Nat)
    (sampleRateHz : α) (injectAlpha : Bool) (lineNoise : LineNoise)
    (st : RandomSampleState α) (draw : Nat → α) (previousSampleNumber : Nat)
    (hwf : st.WellFormed numberOfChannels) (_hrate : 0 < sampleRateHz)
    (i : Nat) (hi : i < numberOfChannels) (c0 c1 c2 ph : α)
    (hb0 : st.b0[i]? = some c0) (hb1 : st.b1[i]? = some c1) (hb2 : st.b2[i]? = some c2)
    (hph : st.sinePhaseRad[i]? = some ph) :
    let r := randomSample M k numberOfChannels sampleRateHz injectAlpha lineNoise st draw
      previousSampleNumber
    let w := draw i * M.sqrt (sampleRateHz / 2) / 1000000
    let phase := fun (f : α) =>
      if ph + 2 * M.PI * f / sampleRateHz > 2 * M.PI then
        ph + 2 * M.PI * f / sampleRateHz - 2 * M.PI
      else ph + 2 * M.PI * f / sampleRateHz
    let inj :=
      if i = 0 ∨ i = 1 then
        if injectAlpha = true then 5 * M.SQRT2 * M.sin (phase 10) / 1000000 else 0
      else if lineNoise = LineNoise.hz60 then 8 * M.SQRT2 * M.sin (phase 60) / 1000000
      else if lineNoise = LineNoise.hz50 then 8 * M.SQRT2 * M.sin (phase 50) / 1000000
      else 0
    let u := w + inj
    r.1.channelData.length = numberOfChannels
      ∧ r.2.WellFormed numberOfChannels
      ∧ r.2.b0[i]? = some (0.99765 * c0 + 0.0990460 * u)
      ∧ r.2.b1[i]? = some (0.96300 * c1 + 0.2965164 * u)
      ∧ r.2.b2[i]? = some (0.57000 * c2 + 1.0526913 * u)
      ∧ r.1.channelData[i]? = some ((0.99765 * c0 + 0.0990460 * u)
          + (0.96300 * c1 + 0.2965164 * u) + (0.57000 * c2 + 1.0526913 * u) + 0.1848 * u)
      ∧ r.2.sinePhaseRad[i]? = some
          (if i = 0 ∨ i = 1 then (if injectAlpha = true then phase 10 else ph)
            else if lineNoise = LineNoise.hz60 then phase 60
            else if lineNoise = LineNoise.hz50 then phase 50
            else ph)
      ∧ r.2.sinePhaseRad[numberOfChannels]? = st.sinePhaseRad[numberOfChannels]? := by
  intro r w phase inj u
  obtain ⟨l0, l1, l2, lp, la, g0, g1, g2, gp, ga⟩ := randomSample_loop M sampleRateHz
    injectAlpha lineNoise draw st numberOfChannels hwf numberOfChannels (Nat.le_refl _)
  have hr2 : r.2 = ((List.range numberOfChannels).foldl
      (randomSampleChannel M sampleRateHz injectAlpha lineNoise draw) (st, [])).1 := rfl
  have hr1 : r.1.channelData = ((List.range numberOfChannels).foldl
      (randomSampleChannel M sampleRateHz injectAlpha lineNoise draw) (st, [])).2 := rfl
  have r0 : readNum M st.b0 i = c0 := readNum_of_getElem? M _ i c0 hb0
  have r1 : readNum M st.b1 i = c1 := readNum_of_getElem? M _ i c1 hb1
  have r2 : readNum M st.b2 i = c2 := readNum_of_getElem? M _ i c2 hb2
  have rp : readNum M st.sinePhaseRad i = ph := readNum_of_getElem? M _ i ph hph
  have hU : simInput M sampleRateHz injectAlpha lineNoise st draw i = u := by
    simp only [simInput, simInjection, simPhase, rp, u, w, inj, phase]
    congr 1
    by_cases h01 : i = 0 ∨ i = 1
    · simp only [h01, if_true]
    · simp only [h01, if_false]
      cases lineNoise <;> simp
  rw [hr1, hr2]
  refine ⟨la, ⟨l0, l1, l2, lp⟩, ?_, ?_, ?_, ?_, ?_, ?_⟩
  · rw [g0 i, if_pos hi, r0, hU, mul_comm u]
  · rw [g1 i, if_pos hi, r1, hU, mul_comm u]
  · rw [g2 i, if_pos hi, r2, hU, mul_comm u]
  · rw [ga i hi, r0, r1, r2, hU, mul_comm u, mul_comm u, mul_comm u, mul_comm u]
  · rw [gp i, if_pos hi, rp]
    simp only [simPhaseAfter, simPhase, phase]
    congr 1
    by_cases h01 : i = 0 ∨ i = 1
    · simp only [h01, if_true]
    · simp only [h01, if_false]
      cases lineNoise <;> simp
  · rw [gp numberOfChannels, if_neg (Nat.lt_irrefl _)]

end Simulator

/-- C21 at 3 channels and 250 Hz from the initial state: without injection and with
zero draws channel 2 is 0; with alpha and 60 Hz injection `channelData` has 3
entries, the stored phase of channel 0 is `2π·10/250` and the stored phase of channel 2
is `2π·60/250`. -/
theorem C21_randomSample_filter_witness :
    ((randomSample (⟨Real.sqrt, Real.sin, Real.cos, fun x => (⌊x⌋ : ℤ), Real.pi, Real.sqrt 2, 0⟩ : MathFns ℝ)
        kRef 3 250 false .none (randomSampleInit 3) (fun _ => 0) 0).1.channelData.length = 3
      ∧ (randomSample (⟨Real.sqrt, Real.sin, Real.cos, fun x => (⌊x⌋ : ℤ), Real.pi, Real.sqrt 2, 0⟩ : MathFns ℝ)
        kRef 3 250 false .none (randomSampleInit 3) (fun _ => 0) 0).1.channelData[2]?
          = some 0)
    ∧ (randomSample (⟨Real.sqrt, Real.sin, Real.cos, fun x => (⌊x⌋ : ℤ), Real.pi, Real.sqrt 2, 0⟩ : MathFns ℝ)
        kRef 3 250 true .hz60 (randomSampleInit 3) (fun _ => 1) 0).1.channelData.length = 3
    ∧ (randomSample (⟨Real.sqrt, Real.sin, Real.cos, fun x => (⌊x⌋ : ℤ), Real.pi, Real.sqrt 2, 0⟩ : MathFns ℝ)
        kRef 3 250 true .hz60 (randomSampleInit 3) (fun _ => 1) 0).2.sinePhaseRad[0]?
          = some (2 * Real.pi * 10 / 250)
    ∧ (randomSample (⟨Real.sqrt, Real.sin, Real.cos, fun x => (⌊x⌋ : ℤ), Real.pi, Real.sqrt 2, 0⟩ : MathFns ℝ)
        kRef 3 250 true .hz60 (randomSampleInit 3) (fun _ => 1) 0).2.sinePhaseRad[2]?
          = some (2 * Real.pi * 60 / 250) := by
  have h1 := C21_randomSample_filter (⟨Real.sqrt, Real.sin, Real.cos, fun x => (⌊x⌋ : ℤ), Real.pi, Real.sqrt 2, 0⟩ : MathFns ℝ)
    kRef 3 250 false .none (randomSampleInit 3) (fun _ => 0) 0
    (randomSampleInit_wellFormed 3) (by norm_num) 2 (by decide) 0 0 0 0 rfl rfl rfl rfl
  have h2 := C21_randomSample_filter (⟨Real.sqrt, Real.sin, Real.cos, fun x => (⌊x⌋ : ℤ), Real.pi, Real.sqrt 2, 0⟩ : MathFns ℝ)
    kRef 3 250 true .hz60 (randomSampleInit 3) (fun _ => 1) 0
    (randomSampleInit_wellFormed 3) (by norm_num) 0 (by decide) 0 0 0 0 rfl rfl rfl rfl
  have h3 := C21_randomSample_filter (⟨Real.sqrt, Real.sin, Real.cos, fun x => (⌊x⌋ : ℤ), Real.pi, Real.sqrt 2, 0⟩ : MathFns ℝ)
    kRef 3 250 true .hz60 (randomSampleInit 3) (fun _ => 1) 0
    (randomSampleInit_wellFormed 3) (by norm_num) 2 (by decide) 0 0 0 0 rfl rfl rfl rfl
  simp only at h1 h2 h3
  have hpi := Real.pi_pos
  refine ⟨⟨h1.1, ?_⟩, h2.1, ?_, ?_⟩
  · rw [h1.2.2.2.2.2.1]
    simp
  · rw [h2.2.2.2.2.2.2.1]
    have hlt : ¬ (2 * Real.pi * 10 / 250 > 2 * Real.pi) := by
      rw [not_lt]; linarith
    simp only [true_or, if_true, zero_add, if_neg hlt]
  · rw [h3.2.2.2.2.2.2.1]
    have hlt : ¬ (2 * Real.pi * 60 / 250 > 2 * Real.pi) := by
      rw [not_lt]; linarith
    have h2 : ¬ ((2 : Nat) = 0 ∨ (2 : Nat) = 1) := by decide
    simp only [h2, if_false, if_true, zero_add, if_neg hlt]

/-! ## The radicand of the estimator -/

/-- The radicand of the estimator is non-negative for a coefficient `2 cos w`. -/
theorem goertzelRadicand_nonneg (w q1 q2 : ℝ) :
    0 ≤ goertzelRadicand (2 * Real.cos w) q1 q2 := by
  unfold goertzelRadicand
  have h := Real.sin_sq_add_cos_sq w
  nlinarith [sq_nonneg (q1 - q2 * Real.cos w), sq_nonneg (q2 * Real.sin w)]

section GoertzelOutputs

variable {α : Type} [LinearOrderedField α]

/-- Feeding one more sample: the values returned so far, then the value returned by
the call on the object left by the earlier samples. -/
theorem goertzelFeed_snoc (M : MathFns α) (c : LeadOffConstants α)
    (samples : List (SampleOf α)) (sample : SampleOf α) :
    ∀ o : GoertzelObj α, goertzelFeed M c o (samples ++ [sample])
      = ((goertzelFeed M c o samples).1
          ++ [(goertzelProcessSample M c sample (goertzelFeed M c o samples).2).1],
        (goertzelProcessSample M c sample (goertzelFeed M c o samples).2).2) := by
  induction samples with
  | nil => intro o; rfl
  | cons s rest ih =>
    intro o
    have h := ih (goertzelProcessSample M c s o).2
    show goertzelFeed M c o (s :: (rest ++ [sample])) = _
    simp only [goertzelFeed]
    rw [h]
    rfl

end GoertzelOutputs

/-- C22 (counterexample): in double arithmetic, with `GOERTZEL_COEFF_250` the double
`2 * 0.6889669190756866` and a positive drive current, the stream `overflowStream` of
63 finite voltages (61 times 0, then `1e200`, then 0) fed to a new one-channel object
makes the 63rd call return `[NaN]`: the squares of the registers overflow and the
radicand is `Infinity + Infinity - Infinity`. -/
theorem C22_counterexample :
    overflowStream.map (fun s => s.channelData)
        = List.replicate 61 [JSNum.fin 0]
          ++ [[JSNum.fin (0x14e718d7d7625a * 2 ^ 612)], [JSNum.fin 0]]
    ∧ leadOffDoubles.OBCILeadOffDriveInAmps = .fin (0x19c511dc3a41df / 2 ^ 80)
    ∧ GOERTZEL_COEFF_250 (estimatorMath cosW250) leadOffDoubles
        = .fin (2 * (6205662320039722 / 2 ^ 53))
    ∧ (goertzelFeed (estimatorMath cosW250) leadOffDoubles (goertzelNewObject 1)
        overflowStream).1[62]? = some (some [JSNum.nan]) := by
  refine ⟨by decide!, by decide!, by decide!, by decide!⟩

/-- C22 (amended): in exact real arithmetic, for all real `q1`, `q2` and every `w` the
radicand `q1^2 + q2^2 - q1*q2*coeff` with `coeff = 2 cos w` is non-negative, so its
square root squares back to it; hence, with `Math.sqrt` the real square root,
`GOERTZEL_COEFF_250` of the form `2 cos w` and a positive drive current, for every
stream of samples fed to a new object, every array returned by `goertzelProcessSample`
has one impedance `z` per channel, `z` is non-negative and `z * amps` squares to the
radicand of the updated registers of the channel, which is non-negative. -/
theorem C22_goertzel_radicand_exact (M : MathFns ℝ) (c : LeadOffConstants ℝ)
    (hsqrt : M.sqrt = Real.sqrt) (w : ℝ) (hw : GOERTZEL_COEFF_250 M c = 2 * Real.cos w)
    (hamps : 0 < c.OBCILeadOffDriveInAmps) :
    (∀ v q1 q2 : ℝ,
      0 ≤ (q1 * q1) + (q2 * q2) - q1 * q2 * (2 * Real.cos v)
      ∧ Real.sqrt ((q1 * q1) + (q2 * q2) - q1 * q2 * (2 * Real.cos v))
          * Real.sqrt ((q1 * q1) + (q2 * q2) - q1 * q2 * (2 * Real.cos v))
        = (q1 * q1) + (q2 * q2) - q1 * q2 * (2 * Real.cos v))
    ∧ ∀ (n : Nat) (samples : List (SampleOf ℝ)) (sample : SampleOf ℝ) (arr : List ℝ),
        let o := (goertzelFeed M c (goertzelNewObject n) samples).2
        (goertzelProcessSample M c sample o).1 = some arr →
          arr.length = n
          ∧ ∀ j, j < n →
              let q1 := GOERTZEL_COEFF_250 M c * readNum M o.q1 j - readNum M o.q2 j
                + readNum M sample.channelData j
              let q2 := readNum M o.q1 j
              ∃ z, arr[j]? = some z ∧ 0 ≤ z
                ∧ 0 ≤ (q1 * q1) + (q2 * q2) - q1 * q2 * GOERTZEL_COEFF_250 M c
                ∧ (z * c.OBCILeadOffDriveInAmps) * (z * c.OBCILeadOffDriveInAmps)
                    = (q1 * q1) + (q2 * q2) - q1 * q2 * GOERTZEL_COEFF_250 M c := by
  constructor
  · intro v q1 q2
    have h := goertzelRadicand_nonneg v q1 q2
    unfold goertzelRadicand at h
    exact ⟨h, Real.mul_self_sqrt h⟩
  · intro n samples sample arr o harr
    obtain ⟨_, hwf, hnc, _, _⟩ := goertzelFeed_outputs M c samples (goertzelNewObject n)
      (goertzelNewObject_wellFormed n) (Nat.zero_le _)
    have hn : o.numberOfChannels = n := hnc
    rw [goertzelProcessSample_eq M c sample o hwf] at harr
    by_cases hidx : o.index + 1 > GOERTZEL_BLOCK_SIZE
    · rw [if_pos hidx] at harr
      have harr' := Option.some.inj harr
      rw [hn] at harr'
      subst harr'
      refine ⟨by simp only [List.length_map, List.length_range], ?_⟩
      intro j hj q1 q2
      have hnn : 0 ≤ (q1 * q1) + (q2 * q2) - q1 * q2 * GOERTZEL_COEFF_250 M c := by
        have h := goertzelRadicand_nonneg w q1 q2
        unfold goertzelRadicand at h
        rw [hw]; exact h
      refine ⟨_, by rw [List.getElem?_map, List.getElem?_range hj]; rfl, ?_, hnn, ?_⟩
      · rw [hsqrt]
        exact div_nonneg (Real.sqrt_nonneg _) (le_of_lt hamps)
      · rw [hsqrt, div_mul_cancel₀ _ (ne_of_gt hamps)]
        exact Real.mul_self_sqrt hnn
    · rw [if_neg hidx] at harr
      exact Option.noConfusion harr

/-- C22 (amended) at 2 channels, after 62 samples of voltages `1, -1`, with
`w = GOERTZEL_W_250`: the 63rd call returns an array of two values, and the value of
channel 0 is non-negative. -/
theorem C22_goertzel_radicand_exact_witness :
    ∃ arr z,
      (goertzelProcessSample (⟨Real.sqrt, Real.sin, Real.cos, fun x => (⌊x⌋ : ℤ), Real.pi, Real.sqrt 2, 0⟩ : MathFns ℝ)
        (⟨31.5, 250, 0.000000006⟩ : LeadOffConstants ℝ)
        ⟨some 0xA0, some 0, [1, -1], [0, 0, 0], some 0xC0⟩
        (goertzelFeed (⟨Real.sqrt, Real.sin, Real.cos, fun x => (⌊x⌋ : ℤ), Real.pi, Real.sqrt 2, 0⟩ : MathFns ℝ)
          (⟨31.5, 250, 0.000000006⟩ : LeadOffConstants ℝ) (goertzelNewObject 2)
          (List.replicate 62 ⟨some 0xA0, some 0, [1, -1], [0, 0, 0], some 0xC0⟩)).2).1
          = some arr
      ∧ arr.length = 2 ∧ arr[0]? = some z ∧ 0 ≤ z := by
  obtain ⟨arr, harr⟩ : ∃ arr, (goertzelProcessSample (⟨Real.sqrt, Real.sin, Real.cos, fun x => (⌊x⌋ : ℤ), Real.pi, Real.sqrt 2, 0⟩ : MathFns ℝ)
        (⟨31.5, 250, 0.000000006⟩ : LeadOffConstants ℝ)
        ⟨some 0xA0, some 0, [1, -1], [0, 0, 0], some 0xC0⟩
        (goertzelFeed (⟨Real.sqrt, Real.sin, Real.cos, fun x => (⌊x⌋ : ℤ), Real.pi, Real.sqrt 2, 0⟩ : MathFns ℝ)
          (⟨31.5, 250, 0.000000006⟩ : LeadOffConstants ℝ) (goertzelNewObject 2)
          (List.replicate 62 ⟨some 0xA0, some 0, [1, -1], [0, 0, 0], some 0xC0⟩)).2).1
          = some arr := by
    have h := (goertzelFeed_outputs (⟨Real.sqrt, Real.sin, Real.cos, fun x => (⌊x⌋ : ℤ), Real.pi, Real.sqrt 2, 0⟩ : MathFns ℝ) (⟨31.5, 250, 0.000000006⟩ : LeadOffConstants ℝ)
      (List.replicate 62 ⟨some 0xA0, some 0, [1, -1], [0, 0, 0], some 0xC0⟩
        ++ [⟨some 0xA0, some 0, [1, -1], [0, 0, 0], some 0xC0⟩])
      (goertzelNewObject 2) (goertzelNewObject_wellFormed 2) (Nat.zero_le _)).2.2.2.2 62
      (by rw [List.length_append, List.length_replicate]; decide)
    rw [if_pos (by rfl)] at h
    obtain ⟨arr, ha, _⟩ := h
    rw [goertzelFeed_snoc] at ha
    have hl : (goertzelFeed (⟨Real.sqrt, Real.sin, Real.cos, fun x => (⌊x⌋ : ℤ), Real.pi, Real.sqrt 2, 0⟩ : MathFns ℝ)
        (⟨31.5, 250, 0.000000006⟩ : LeadOffConstants ℝ) (goertzelNewObject 2)
        (List.replicate 62 ⟨some 0xA0, some 0, [1, -1], [0, 0, 0], some 0xC0⟩)).1.length = 62 := by
      rw [(goertzelFeed_outputs _ _ _ (goertzelNewObject 2) (goertzelNewObject_wellFormed 2)
        (Nat.zero_le _)).1, List.length_replicate]
    simp only at ha
    rw [List.getElem?_append_right (by rw [hl]), hl, Nat.sub_self,
      List.getElem?_cons_zero] at ha
    exact ⟨arr, Option.some.inj ha⟩
  obtain ⟨hlen, hz⟩ := (C22_goertzel_radicand_exact (⟨Real.sqrt, Real.sin, Real.cos, fun x => (⌊x⌋ : ℤ), Real.pi, Real.sqrt 2, 0⟩ : MathFns ℝ) (⟨31.5, 250, 0.000000006⟩ : LeadOffConstants ℝ) rfl
    (GOERTZEL_W_250 (⟨Real.sqrt, Real.sin, Real.cos, fun x => (⌊x⌋ : ℤ), Real.pi, Real.sqrt 2, 0⟩ : MathFns ℝ) (⟨31.5, 250, 0.000000006⟩ : LeadOffConstants ℝ)) rfl (by norm_num)).2 2
    (List.replicate 62 ⟨some 0xA0, some 0, [1, -1], [0, 0, 0], some 0xC0⟩)
    ⟨some 0xA0, some 0, [1, -1], [0, 0, 0], some 0xC0⟩ arr harr
  obtain ⟨z, hz1, hz2, _, _⟩ := hz 0 (by decide)
  exact ⟨arr, z, harr, hlen, hz1, hz2⟩

/-! ## The in-place update of the instantaneous impedance -/

section ImpedanceMutation

variable {α : Type} [LinearOrderedField α]

/-- C23: `impedanceCalculationForChannel` updates its argument in place. For a sample
and a channel number `c` in `1..8`, after the call `channelData[c - 1]` is the absolute
value of what it was (it stays absent when the sample has no such entry), every other
entry of `channelData`, `sampleNumber`, `auxData` and the framing bytes are unchanged;
when `channelData[c - 1]` was non-negative (or absent) the sample is unchanged. -/
theorem C23_impedance_mutates_sample (M : MathFns α) (c : LeadOffConstants α)
    (s : SampleOf α) (channelNumber : Int) (h1 : 1 ≤ channelNumber)
    (_h8 : channelNumber ≤ 8) :
    ∃ s' : SampleOf α,
      (impedanceCalculationForChannel M c (.object s) channelNumber).2 = .object s'
      ∧ (∀ j, s'.channelData[j]?
          = if j = (channelNumber - 1).toNat then (s.channelData[j]?).map (fun x => |x|)
            else s.channelData[j]?)
      ∧ s'.channelData.length = s.channelData.length
      ∧ s'.sampleNumber = s.sampleNumber ∧ s'.auxData = s.auxData
      ∧ s'.startByte = s.startByte ∧ s'.stopByte = s.stopByte
      ∧ ((∀ x, s.channelData[(channelNumber - 1).toNat]? = some x → 0 ≤ x) → s' = s) := by
  have hidx : (0 : Int) ≤ channelNumber - 1 := by omega
  cases hx : s.channelData[(channelNumber - 1).toNat]? with
  | none =>
    refine ⟨s, ?_, ?_, rfl, rfl, rfl, rfl, rfl, fun _ => rfl⟩
    · unfold impedanceCalculationForChannel
      simp only [readAt, hidx, if_true, hx]
    · intro j
      by_cases hj : j = (channelNumber - 1).toNat
      · rw [if_pos hj, hj, hx]; rfl
      · rw [if_neg hj]
  | some x =>
    have hlt : (channelNumber - 1).toNat < s.channelData.length :=
      (List.getElem?_eq_some_iff.mp hx).1
    by_cases hneg : x < 0
    · refine ⟨{ s with channelData := s.channelData.set (channelNumber - 1).toNat (x * -1) },
        ?_, ?_, ?_, rfl, rfl, rfl, rfl, fun h => ?_⟩
      · unfold impedanceCalculationForChannel
        simp only [readAt, hidx, if_true, hx, hneg]
      · intro j
        simp only [List.getElem?_set, hlt, if_true]
        by_cases hj : j = (channelNumber - 1).toNat
        · rw [if_pos hj.symm, if_pos hj, hj, hx, Option.map_some', abs_of_neg hneg, mul_neg,
            mul_one]
        · rw [if_neg (fun h => hj h.symm), if_neg hj]
      · simp only [List.length_set]
      · exact absurd (h x rfl) (not_le.mpr hneg)
    · refine ⟨s, ?_, ?_, rfl, rfl, rfl, rfl, rfl, fun _ => rfl⟩
      · unfold impedanceCalculationForChannel
        simp only [readAt, hidx, if_true, hx, hneg, if_false]
      · intro j
        by_cases hj : j = (channelNumber - 1).toNat
        · rw [if_pos hj, hj, hx, Option.map_some', abs_of_nonneg (not_lt.mp hneg)]
        · rw [if_neg hj]

end ImpedanceMutation

/-- C23 at the sample with channel values `-3, 5`: channel number 1 turns `-3` into
`3`, channel number 2 leaves the sample unchanged. -/
theorem C23_impedance_mutates_sample_witness :
    (∃ s' : SampleOf ℝ,
      (impedanceCalculationForChannel (⟨Real.sqrt, Real.sin, Real.cos, fun x => (⌊x⌋ : ℤ), Real.pi, Real.sqrt 2, 0⟩ : MathFns ℝ)
          (⟨31.5, 250, 0.000000006⟩ : LeadOffConstants ℝ)
          (.object ⟨some 0xA0, some 7, [-3, 5], [0, 0, 0], some 0xC0⟩) 1).2 = .object s'
      ∧ s'.channelData[0]? = some 3 ∧ s'.channelData[1]? = some 5
      ∧ s'.sampleNumber = some 7 ∧ s'.auxData = [0, 0, 0])
    ∧ (∃ s' : SampleOf ℝ,
      (impedanceCalculationForChannel (⟨Real.sqrt, Real.sin, Real.cos, fun x => (⌊x⌋ : ℤ), Real.pi, Real.sqrt 2, 0⟩ : MathFns ℝ)
          (⟨31.5, 250, 0.000000006⟩ : LeadOffConstants ℝ)
          (.object ⟨some 0xA0, some 7, [-3, 5], [0, 0, 0], some 0xC0⟩) 2).2 = .object s'
      ∧ s' = ⟨some 0xA0, some 7, [-3, 5], [0, 0, 0], some 0xC0⟩) := by
  constructor
  · obtain ⟨s', h0, hcd, _, hsn, haux, _, _, _⟩ := C23_impedance_mutates_sample (⟨Real.sqrt, Real.sin, Real.cos, fun x => (⌊x⌋ : ℤ), Real.pi, Real.sqrt 2, 0⟩ : MathFns ℝ)
      (⟨31.5, 250, 0.000000006⟩ : LeadOffConstants ℝ) ⟨some 0xA0, some 7, [-3, 5], [0, 0, 0], some 0xC0⟩ 1 (by decide) (by decide)
    refine ⟨s', h0, ?_, ?_, hsn, haux⟩
    · have h := hcd 0
      rw [if_pos (by decide)] at h
      rw [h]
      simp only [List.getElem?_cons_zero, Option.map_some']
      norm_num
    · have h := hcd 1
      rw [if_neg (by decide)] at h
      rw [h]
      rfl
  · obtain ⟨s', h0, _, _, _, _, _, _, hsame⟩ := C23_impedance_mutates_sample (⟨Real.sqrt, Real.sin, Real.cos, fun x => (⌊x⌋ : ℤ), Real.pi, Real.sqrt 2, 0⟩ : MathFns ℝ)
      (⟨31.5, 250, 0.000000006⟩ : LeadOffConstants ℝ) ⟨some 0xA0, some 7, [-3, 5], [0, 0, 0], some 0xC0⟩ 2 (by decide) (by decide)
    refine ⟨s', h0, hsame ?_⟩
    intro x hx
    have hx' : (5 : ℝ) = x := Option.some.inj hx
    rw [← hx']
    norm_num

end OpenBCI
